import Mathlib

/-!
# ngx-json: the document model and the serializer of `ngx_json.c`

A shallow embedding of `src/ngx_json.c` and `src/ngx_json.h`.

* Bytes (`u_char`) are natural numbers below 256; an `ngx_str_t` is the list of its
  `len` bytes.
* The functions that walk or change a queue are given twice. The part *The nodes in
  memory* has them on the C structures: a node is a `struct ngx_json_s` at an address,
  and its one field `list` is at once its link in the queue of the container it was added
  to and the head of the queue of its own children, as in the C code. A call on nodes in
  memory takes a bound `fuel` on the nested calls and loop rounds it may take, because on
  a container that holds a container it does not return. The parts *The document tree*,
  *The serializer* and *The builders* have the functions on values: a node together with
  the nodes of its queue as an ordered sequence of children. That is what the functions
  on the nodes in memory do for a node whose queue holds no Array and no Object
  (`print_queue_value`); the claims about strings, numbers, scalars, empty containers
  and null arguments are stated on values, the others on the nodes in memory.
* The mutable objects reached through the pointer arguments of the printing functions
  (`pool`, `buf`, `depth`) are passed explicitly as a `PState`; every function returns
  its `ngx_int_t` status together with the state it leaves behind.
* `double` is IEEE-754 binary64 given by its three fields; arithmetic rounds to nearest
  (ties to even) and is evaluated in double precision; `sprintf("%1.<P>g")` and
  `sscanf("%lg")` are the correctly rounded conversions of the C library.
* On values a pointer that may be `NULL` is an `Option`; the builders return the node
  they allocate together with the pool they leave, and the attach functions return the
  container as the call leaves it. In memory a pointer is an address and 0 is `NULL`.
* Plain `char` is signed or unsigned depending on the C implementation; the choice is
  the parameter `char_signed` (true on x86 and x86-64, false on ARM and PowerPC Linux).
-/

namespace NgxJson

/-! ## Status codes and type tags -/

/-- Status `NGX_OK` of nginx. -/
abbrev NGX_OK : Int := 0

/-- Status `NGX_ERROR` of nginx. -/
abbrev NGX_ERROR : Int := -1

/-- Tag `NGX_JSON_INVALID`. -/
abbrev NGX_JSON_INVALID : Int := -1
/-- Tag `NGX_JSON_FALSE`, `1 << 0`. -/
abbrev NGX_JSON_FALSE : Int := 1
/-- Tag `NGX_JSON_TRUE`, `1 << 1`. -/
abbrev NGX_JSON_TRUE : Int := 2
/-- Tag `NGX_JSON_NULL`, `1 << 2`. -/
abbrev NGX_JSON_NULL : Int := 4
/-- Tag `NGX_JSON_NUMBER`, `1 << 3`. -/
abbrev NGX_JSON_NUMBER : Int := 8
/-- Tag `NGX_JSON_STRING`, `1 << 4`. -/
abbrev NGX_JSON_STRING : Int := 16
/-- Tag `NGX_JSON_ARRAY`, `1 << 5`. -/
abbrev NGX_JSON_ARRAY : Int := 32
/-- Tag `NGX_JSON_OBJECT`, `1 << 6`. -/
abbrev NGX_JSON_OBJECT : Int := 64
/-- Tag `NGX_JSON_RAW`, `1 << 7`. -/
abbrev NGX_JSON_RAW : Int := 128

/-- An `ngx_str_t`: the `len` bytes at `data`. -/
abbrev ngx_str_t := List Nat

/-- The bytes of an ASCII string literal of the source, as `ngx_str_set` stores them. -/
def ascii (s : String) : ngx_str_t := s.data.map Char.toNat

/-! ## IEEE-754 binary64 -/

/-- A `double`: sign bit, 11-bit biased exponent and 52-bit fraction. -/
structure Double where
  sign : Bool
  expo : Nat
  frac : Nat
deriving DecidableEq, Repr

/-- The C `isnan`: exponent field all ones and a non-zero fraction. -/
def isnan (d : Double) : Bool := d.expo == 2047 && d.frac != 0

/-- The C `isinf`: exponent field all ones and a zero fraction. -/
def isinf (d : Double) : Bool := d.expo == 2047 && d.frac == 0

/-- Integer significand of a finite double (hidden bit included for normal numbers). -/
def Double.mant (d : Double) : Nat := if d.expo = 0 then d.frac else 2 ^ 52 + d.frac

/-- Binary exponent of a finite double: its magnitude is `mant * 2 ^ exp2`. -/
def Double.exp2 (d : Double) : Int := if d.expo = 0 then -1074 else (d.expo : Int) - 1075

/-- Numerator of the magnitude of a finite double written as a fraction. -/
def Double.num (d : Double) : Nat := d.mant * 2 ^ d.exp2.toNat

/-- Denominator of the magnitude of a finite double written as a fraction. -/
def Double.den (d : Double) : Nat := 2 ^ (-d.exp2).toNat

/-- The integer nearest to `num / den`, ties going to the even one. -/
def round_half_even (num den : Nat) : Nat :=
  let q := num / den
  let r := num % den
  if 2 * r > den ∨ (2 * r = den ∧ q % 2 = 1) then q + 1 else q

/-- Number of digits of `n` in the given base, counted with `fuel` divisions. -/
def count_digits (base : Nat) : Nat → Nat → Nat
  | 0, _ => 1
  | fuel + 1, n => if n < base then 1 else 1 + count_digits base fuel (n / base)

/-- Number of digits of `n` in the given base (1 for `n = 0`). -/
def ndigits (base n : Nat) : Nat := count_digits base n n

/-- The least `j ≥ k` with `num * base ^ j ≥ den`, searched with `fuel` steps. -/
def first_scale (base num den : Nat) : Nat → Nat → Nat
  | 0, k => k
  | fuel + 1, k => if num * base ^ k ≥ den then k else first_scale base num den fuel (k + 1)

/-- The integer `x` with `base ^ x ≤ num / den < base ^ (x + 1)`, for `num / den > 0`. -/
def floor_log (base num den : Nat) : Int :=
  if num ≥ den then (ndigits base (num / den) : Int) - 1
  else -(first_scale base num den den 1 : Int)

/-- The double nearest to `± num / den` (ties to even): IEEE-754 rounding of an exact
result, with overflow to infinity and gradual underflow. -/
def round_to_double (sign : Bool) (num den : Nat) : Double :=
  if num = 0 then { sign := sign, expo := 0, frac := 0 }
  else
    let e0 := floor_log 2 num den
    let e : Int := if e0 - 52 < -1074 then -1074 else e0 - 52
    let m := if e ≥ 0 then round_half_even num (den * 2 ^ e.toNat)
             else round_half_even (num * 2 ^ (-e).toNat) den
    let me : Nat × Int := if m = 2 ^ 53 then (2 ^ 52, e + 1) else (m, e)
    if me.2 > 971 then { sign := sign, expo := 2047, frac := 0 }
    else if me.1 < 2 ^ 52 then { sign := sign, expo := 0, frac := me.1 }
    else { sign := sign, expo := (me.2 + 1075).toNat, frac := me.1 - 2 ^ 52 }

/-- The C `fabs`: clears the sign bit. -/
def fabs (d : Double) : Double := { d with sign := false }

/-- Order key of a double that is not NaN: comparison of doubles is comparison of keys. -/
def Double.key (d : Double) : Int :=
  if d.sign then -((d.expo * 2 ^ 52 + d.frac : Nat) : Int)
  else ((d.expo * 2 ^ 52 + d.frac : Nat) : Int)

/-- The C comparison `a > b` on doubles (false when an operand is NaN). -/
def d_gt (a b : Double) : Bool := !isnan a && !isnan b && decide (a.key > b.key)

/-- The C comparison `a <= b` on doubles (false when an operand is NaN). -/
def d_le (a b : Double) : Bool := !isnan a && !isnan b && decide (a.key ≤ b.key)

/-- A quiet NaN. -/
def d_nan : Double := { sign := false, expo := 2047, frac := 2 ^ 51 }

/-- The C subtraction `a - b` on doubles. -/
def d_sub (a b : Double) : Double :=
  if isnan a || isnan b then d_nan
  else if isinf a then (if isinf b && a.sign == b.sign then d_nan else a)
  else if isinf b then { b with sign := !b.sign }
  else
    let e : Int := if a.exp2 ≤ b.exp2 then a.exp2 else b.exp2
    let x : Int := (if a.sign then -1 else 1) * ((a.mant * 2 ^ (a.exp2 - e).toNat : Nat) : Int)
    let y : Int := (if b.sign then -1 else 1) * ((b.mant * 2 ^ (b.exp2 - e).toNat : Nat) : Int)
    let r := x - y
    if r = 0 then { sign := a.sign && !b.sign, expo := 0, frac := 0 }
    else round_to_double (decide (r < 0)) (r.natAbs * 2 ^ e.toNat) (2 ^ (-e).toNat)

/-- The C multiplication `a * b` on doubles. -/
def d_mul (a b : Double) : Double :=
  let s := a.sign != b.sign
  if isnan a || isnan b then d_nan
  else if isinf a then (if b.mant = 0 then d_nan else { a with sign := s })
  else if isinf b then (if a.mant = 0 then d_nan else { b with sign := s })
  else
    let e := a.exp2 + b.exp2
    round_to_double s (a.mant * b.mant * 2 ^ e.toNat) (2 ^ (-e).toNat)

/-- The constant `DBL_EPSILON` of `<float.h>`: `2 ^ -52`. -/
def DBL_EPSILON : Double := { sign := false, expo := 971, frac := 0 }

/-- The source's `compare_double`: equality up to `DBL_EPSILON` times the larger
magnitude. -/
def compare_double (a b : Double) : Bool :=
  let max := if d_gt (fabs a) (fabs b) then fabs a else fabs b
  d_le (fabs (d_sub a b)) (d_mul max DBL_EPSILON)

/-! ## The C library conversions `%1.<P>g` and `%lg` -/

/-- The `w` decimal digits of `n`, most significant first, as ASCII. -/
def digits_w (w n : Nat) : List Nat :=
  (List.range w).map fun i => 48 + n / 10 ^ (w - 1 - i) % 10

/-- Decimal ASCII rendering of a natural number. -/
def nat_dec (n : Nat) : List Nat := digits_w (ndigits 10 n) n

/-- Removal of trailing `0` characters. -/
def strip_zeros (ds : List Nat) : List Nat := (ds.reverse.dropWhile (fun x => x == 48)).reverse

/-- A fractional part with its decimal point, or nothing when no digit is left. -/
def frac_part (ds : List Nat) : List Nat := if ds.isEmpty then [] else 46 :: ds

/-- The `P` significant decimal digits `D` and the decimal exponent `X` of the style-e
conversion of `num / den`: `D * 10 ^ (X - (P - 1))` is `num / den` correctly rounded. -/
def sci_digits (P num den : Nat) : Nat × Int :=
  if num = 0 then (0, 0)
  else
    let x0 := floor_log 10 num den
    let s : Int := (P : Int) - 1 - x0
    let q := if s ≥ 0 then round_half_even (num * 10 ^ s.toNat) den
             else round_half_even num (den * 10 ^ (-s).toNat)
    if q ≥ 10 ^ P then (q / 10, x0 + 1) else (q, x0)

/-- The text `sprintf(buffer, "%1.<P>g", d)` writes for a finite `d` (C11 7.21.6.1):
style f when `P > X ≥ -4`, style e otherwise, trailing zeros of the fraction removed. -/
def sprintf_g (P : Nat) (d : Double) : List Nat :=
  let sgn := if d.sign then [45] else []
  let dx := sci_digits P d.num d.den
  let D := dx.1
  let X := dx.2
  if (P : Int) > X ∧ X ≥ -4 then
    let fd := ((P : Int) - 1 - X).toNat
    sgn ++ nat_dec (D / 10 ^ fd) ++ frac_part (strip_zeros (digits_w fd (D % 10 ^ fd)))
  else
    sgn ++ [48 + D / 10 ^ (P - 1)] ++ frac_part (strip_zeros (digits_w (P - 1) (D % 10 ^ (P - 1))))
      ++ [101, if X < 0 then 45 else 43]
      ++ (if X.natAbs < 10 then [48, 48 + X.natAbs] else nat_dec X.natAbs)

/-- ASCII decimal digit test. -/
def is_digit (b : Nat) : Bool := decide (48 ≤ b) && decide (b ≤ 57)

/-- Value of a run of ASCII decimal digits. -/
def dec_value (ds : List Nat) : Nat := ds.foldl (fun a b => 10 * a + (b - 48)) 0

/-- An optional sign character: whether it was `-`, and the remaining text. -/
def scan_sign (t : List Nat) : Bool × List Nat :=
  match t with
  | 45 :: r => (true, r)
  | 43 :: r => (false, r)
  | _ => (false, t)

/-- The exponent part `e<sign><digits>` at the head of `t`, 0 when there is none. -/
def scan_exponent (t : List Nat) : Int :=
  match t with
  | c :: r =>
    if c = 101 ∨ c = 69 then
      let sr := scan_sign r
      let ds := sr.2.takeWhile is_digit
      if ds.isEmpty then 0 else (if sr.1 then -(dec_value ds : Int) else (dec_value ds : Int))
    else 0
  | [] => 0

/-- The double `sscanf(text, "%lg", &test)` stores for a decimal floating constant at
the head of `text`, correctly rounded; `none` when no conversion is made (the call then
does not return 1). -/
def sscanf_lg (text : List Nat) : Option Double :=
  let st := scan_sign text
  let ip := st.2.takeWhile is_digit
  let t1 := st.2.dropWhile is_digit
  let fp := match t1 with
    | 46 :: r => r.takeWhile is_digit
    | _ => []
  let t2 := match t1 with
    | 46 :: r => r.dropWhile is_digit
    | _ => t1
  if ip.isEmpty && fp.isEmpty then none
  else
    let m := dec_value (ip ++ fp)
    let e : Int := scan_exponent t2 - (fp.length : Int)
    some (round_to_double st.1 (m * 10 ^ e.toNat) (10 ^ (-e).toNat))

/-! ## Pool and output buffer -/

/-- The pool is external to this code. What counts here is whether each successive
allocation request is granted; a pool is the list of those outcomes, and once the list
is used up every further request is granted. -/
abbrev ngx_pool_t := List Bool

/-- A pool none of whose allocation requests fails. -/
def never_fails (pool : ngx_pool_t) : Prop := ∀ granted ∈ pool, granted = true

instance (pool : ngx_pool_t) : Decidable (never_fails pool) := by
  unfold never_fails; infer_instance

/-- The nginx allocator `ngx_palloc` (and `ngx_pcalloc`): whether a block was returned,
and the pool afterwards. -/
def ngx_palloc (pool : ngx_pool_t) (_size : Nat) : Bool × ngx_pool_t :=
  match pool with
  | [] => (true, [])
  | granted :: later => (granted, later)

/-- An `ngx_buf_t` of memory: `pos` and `end_` are the offsets of `b->pos` and `b->end`
from `b->start`, and `mem` holds the bytes stored from `b->start` up to `b->last`. -/
structure ngx_buf_t where
  pos : Nat
  end_ : Nat
  mem : List Nat
deriving DecidableEq, Repr

/-- Offset of `b->last` from `b->start`. -/
def ngx_buf_t.last (b : ngx_buf_t) : Nat := b.mem.length

/-- The nginx macro `ngx_buf_size` on a memory buffer: `b->last - b->pos`. -/
def ngx_buf_size (b : ngx_buf_t) : Nat := b.last - b.pos

/-- The source's macro `ngx_buf_capacity`: `b->end - b->start`. -/
def ngx_buf_capacity (b : ngx_buf_t) : Nat := b.end_

/-- The nginx function `ngx_create_temp_buf`: one request for the descriptor, one for
`size` bytes; then `pos = last = start` and `end = start + size`. -/
def ngx_create_temp_buf (pool : ngx_pool_t) (size : Nat) : Option ngx_buf_t × ngx_pool_t :=
  let b := ngx_palloc pool 80
  if b.1 = false then (none, b.2)
  else
    let start := ngx_palloc b.2 size
    if start.1 = false then (none, start.2)
    else (some { pos := 0, end_ := size, mem := [] }, start.2)

/-- The objects the printing functions reach through `pool`, `buf` and `depth`. -/
structure PState where
  pool : ngx_pool_t
  buf : ngx_buf_t
  depth : Int
deriving DecidableEq, Repr

/-- The source's `ngx_buf_append_string(pool, b, s, len)` with `s` the `len` bytes.
Sizes are `ngx_uint_t`, hence reduced modulo `2 ^ 64`. -/
def ngx_buf_append_string (s : List Nat) (st : PState) : Int × PState :=
  let b := st.buf
  let len : Int := s.length
  if len > (b.end_ : Int) - (b.last : Int) then
    let size := ngx_buf_size b
    let capacity := (ngx_buf_capacity b * 2) % 2 ^ 64
    let capacity := if capacity < (size + s.length) % 2 ^ 64 then (size + s.length) % 2 ^ 64
                    else capacity
    let p := ngx_palloc st.pool capacity
    if p.1 = false then
      (NGX_ERROR, { st with pool := p.2 })
    else
      let copied := (b.mem.drop b.pos).take size
      (NGX_OK, { st with pool := p.2, buf := { pos := 0, end_ := capacity, mem := copied ++ s } })
  else
    (NGX_OK, { st with buf := { b with mem := b.mem ++ s } })

/-- The source's `ngx_buf_append_str`. -/
def ngx_buf_append_str (str : ngx_str_t) (st : PState) : Int × PState :=
  ngx_buf_append_string str st

/-- The source's `ngx_buf_append_char`. -/
def ngx_buf_append_char (c : Nat) (st : PState) : Int × PState :=
  ngx_buf_append_string [c] st

/-- The source's `ngx_buf_to_str`: the status and the string stored through `v`, which
is the `ngx_buf_size` bytes at `buf->pos`. -/
def ngx_buf_to_str (buf : ngx_buf_t) : Int × ngx_str_t :=
  (NGX_OK, (buf.mem.drop buf.pos).take (ngx_buf_size buf))

/-- The written region of the buffer of a state, as `ngx_buf_to_str` exposes it. -/
def PState.content (st : PState) : List Nat := (ngx_buf_to_str st.buf).2

/-- The statement pattern `if (call != NGX_OK) return NGX_ERROR;` followed by the rest
`k` of the function body. -/
def and_then (r : Int × PState) (k : PState → Int × PState) : Int × PState :=
  if r.1 ≠ NGX_OK then (NGX_ERROR, r.2) else k r.2

/-! ## String formatting -/

/-- The value of `char c = string->data[i]` for the byte `b`. -/
def to_char (char_signed : Bool) (b : Nat) : Int :=
  if char_signed && decide (128 ≤ b % 256) then (b % 256 : Int) - 256 else (b % 256 : Int)

/-- Conversion of a `char` argument to the `u_char` parameter of `ngx_buf_append_char`. -/
def to_u_char (c : Int) : Nat := (c % 256).toNat

/-- Lowercase hexadecimal ASCII digit. -/
def hex_digit (n : Nat) : Nat := if n < 10 then 48 + n else 87 + n

/-- The C conversion `%04x` of an `int` argument: the argument read as a 32-bit unsigned
value, in lowercase hexadecimal, zero-padded to at least four digits. -/
def fmt_04x (arg : Int) : List Nat :=
  let u := (arg % 2 ^ 32).toNat
  let ds := [u / 16 ^ 7 % 16, u / 16 ^ 6 % 16, u / 16 ^ 5 % 16, u / 16 ^ 4 % 16,
             u / 16 ^ 3 % 16, u / 16 ^ 2 % 16, u / 16 % 16, u % 16]
  (((ds.take 4).dropWhile (fun x => x == 0)) ++ ds.drop 4).map hex_digit

/-- The C `snprintf(buffer, size, ...)`: at most `size - 1` characters of the formatted
text are stored, then a terminating NUL. -/
def snprintf (size : Nat) (text : List Nat) : List Nat :=
  text.take (size - 1) ++ [0]

/-- The loop `for (i = 0; i < string->len; i++)` of `json_print_string`. -/
def json_print_string_loop (char_signed : Bool) : List Nat → PState → Int × PState
  | [], st => (NGX_OK, st)
  | b :: rest, st =>
    let c := to_char char_signed b
    if c > 31 ∧ c ≠ 34 ∧ c ≠ 92 then
      and_then (ngx_buf_append_char (to_u_char c) st) (json_print_string_loop char_signed rest)
    else
      and_then (ngx_buf_append_char 92 st) fun st =>
      if c = 34 ∨ c = 92 ∨ c = 8 ∨ c = 12 ∨ c = 10 ∨ c = 13 ∨ c = 9 then
        and_then (ngx_buf_append_char (to_u_char c) st) (json_print_string_loop char_signed rest)
      else
        let buffer := snprintf 5 (117 :: fmt_04x c)
        and_then (ngx_buf_append_str (buffer.take 5) st) (json_print_string_loop char_signed rest)

/-- The source's `json_print_string`. -/
def json_print_string (char_signed : Bool) (_format : Bool) (string : ngx_str_t) (st : PState) :
    Int × PState :=
  if string.length = 0 then
    and_then (ngx_buf_append_str (ascii "\"\"") st) fun st => (NGX_OK, st)
  else
    and_then (ngx_buf_append_char 34 st) fun st =>
    and_then (json_print_string_loop char_signed string st) fun st =>
    and_then (ngx_buf_append_char 34 st) fun st => (NGX_OK, st)

/-! ## The document tree -/

/-- A node as a value: the fields of the source's `ngx_json_t` in declaration order,
with the nodes of the queue `list`, in order, in the place of the links. A node whose
queue holds an Array or an Object has no such value: in memory the `list` of that member
is its link in this queue and the head of its own (see `ngx_json_s`). -/
inductive ngx_json_t where
  | mk (list : List ngx_json_t) (type : Int) (key : ngx_str_t) (valueint : Int)
      (valuedouble : Double) (valuestring : ngx_str_t) : ngx_json_t

/-- Field `list`: the children. -/
def ngx_json_t.list : ngx_json_t → List ngx_json_t
  | .mk l _ _ _ _ _ => l

/-- Field `type`. -/
def ngx_json_t.type : ngx_json_t → Int
  | .mk _ t _ _ _ _ => t

/-- Field `key`. -/
def ngx_json_t.key : ngx_json_t → ngx_str_t
  | .mk _ _ k _ _ _ => k

/-- Field `valueint`. -/
def ngx_json_t.valueint : ngx_json_t → Int
  | .mk _ _ _ i _ _ => i

/-- Field `valuedouble`. -/
def ngx_json_t.valuedouble : ngx_json_t → Double
  | .mk _ _ _ _ d _ => d

/-- Field `valuestring`. -/
def ngx_json_t.valuestring : ngx_json_t → ngx_str_t
  | .mk _ _ _ _ _ s => s

/-! ## The serializer

The printing functions on values. `Mem.json_print_type_value` and the functions around it
are the same functions on the nodes in memory; the two agree on every node whose queue
holds no Array and no Object (`print_queue_value`). -/

/-- The source's `json_print_type_string`. -/
def json_print_type_string (char_signed : Bool) (format : Bool) (item : ngx_json_t) (st : PState) :
    Int × PState :=
  json_print_string char_signed format item.valuestring st

/-- The text `json_print_type_number` leaves in `buffer` for a finite `d`: the 15-digit
rendering when it scans back to a double that `compare_double` accepts, the 17-digit
rendering otherwise. -/
def number_text (d : Double) : List Nat :=
  let buffer := sprintf_g 15 d
  match sscanf_lg buffer with
  | some test => if !compare_double test d then sprintf_g 17 d else buffer
  | none => sprintf_g 17 d

/-- The source's `json_print_type_number`. -/
def json_print_type_number (_format : Bool) (item : ngx_json_t) (st : PState) : Int × PState :=
  let d := item.valuedouble
  if isnan d || isinf d then
    and_then (ngx_buf_append_str (ascii "null") st) fun st => (NGX_OK, st)
  else
    and_then (ngx_buf_append_str (number_text d) st) fun st => (NGX_OK, st)

/-- The loops `for (i = 0; i < n; i++)` of `json_print_type_object` that append one tab
per round. -/
def append_tabs : Nat → PState → Int × PState
  | 0, st => (NGX_OK, st)
  | n + 1, st => and_then (ngx_buf_append_char 9 st) (append_tabs n)

/-- Body of the source's `json_print_type_array` around its loop `elems` over the queue. -/
def array_body (elems : PState → Int × PState) (st : PState) : Int × PState :=
  let st := { st with depth := st.depth + 1 }
  and_then (ngx_buf_append_char 91 st) fun st =>
  and_then (elems st) fun st =>
  and_then (ngx_buf_append_char 93 st) fun st =>
  (NGX_OK, { st with depth := st.depth - 1 })

/-- Body of the source's `json_print_type_object` around its loop `members` over the
queue. -/
def object_body (format : Bool) (members : PState → Int × PState) (st : PState) : Int × PState :=
  let st := { st with depth := st.depth + 1 }
  and_then (ngx_buf_append_char 123 st) fun st =>
  and_then (if format then ngx_buf_append_char 10 st else (NGX_OK, st)) fun st =>
  and_then (members st) fun st =>
  and_then (if format then append_tabs (st.depth - 1).toNat st else (NGX_OK, st)) fun st =>
  and_then (ngx_buf_append_char 125 st) fun st =>
  (NGX_OK, { st with depth := st.depth - 1 })

mutual
/-- The source's `json_print_type_value`: the `switch` on the type tag. The case
`NGX_JSON_FALSE` has no `return` after its append and runs on into the case
`NGX_JSON_NUMBER`. -/
def json_print_type_value (char_signed : Bool) (format : Bool) :
    ngx_json_t → PState → Int × PState
  | .mk list type key valueint valuedouble valuestring, st =>
    let item := ngx_json_t.mk list type key valueint valuedouble valuestring
    if type = NGX_JSON_NULL then
      and_then (ngx_buf_append_str (ascii "null") st) fun st => (NGX_OK, st)
    else if type = NGX_JSON_TRUE then
      and_then (ngx_buf_append_str (ascii "true") st) fun st => (NGX_OK, st)
    else if type = NGX_JSON_FALSE then
      and_then (ngx_buf_append_str (ascii "false") st) fun st =>
      json_print_type_number format item st
    else if type = NGX_JSON_NUMBER then
      json_print_type_number format item st
    else if type = NGX_JSON_RAW ∨ type = NGX_JSON_STRING then
      json_print_type_string char_signed format item st
    else if type = NGX_JSON_ARRAY then
      array_body (json_print_type_array_loop char_signed format list) st
    else if type = NGX_JSON_OBJECT then
      object_body format (json_print_type_object_loop char_signed format list) st
    else
      (NGX_ERROR, st)
/-- The queue loop of `json_print_type_array`, over the elements still to visit; the
call on an element is the call on that element as a value. -/
def json_print_type_array_loop (char_signed : Bool) (format : Bool) :
    List ngx_json_t → PState → Int × PState
  | [], st => (NGX_OK, st)
  | node :: rest, st =>
    and_then (json_print_type_value char_signed format node st) fun st =>
    and_then
      (if !rest.isEmpty then
        and_then (ngx_buf_append_char 44 st) fun st =>
        if format then ngx_buf_append_char 32 st else (NGX_OK, st)
      else (NGX_OK, st)) fun st =>
    json_print_type_array_loop char_signed format rest st
/-- The queue loop of `json_print_type_object`, over the members still to visit; the
call on a member is the call on that member as a value. -/
def json_print_type_object_loop (char_signed : Bool) (format : Bool) :
    List ngx_json_t → PState → Int × PState
  | [], st => (NGX_OK, st)
  | node :: rest, st =>
    and_then (if format then append_tabs st.depth.toNat st else (NGX_OK, st)) fun st =>
    and_then (json_print_string char_signed format node.key st) fun st =>
    and_then (ngx_buf_append_char 58 st) fun st =>
    and_then (if format then ngx_buf_append_char 9 st else (NGX_OK, st)) fun st =>
    and_then (json_print_type_value char_signed format node st) fun st =>
    and_then (if !rest.isEmpty then ngx_buf_append_char 44 st else (NGX_OK, st)) fun st =>
    and_then (if format then ngx_buf_append_char 10 st else (NGX_OK, st)) fun st =>
    json_print_type_object_loop char_signed format rest st
end

/-- The source's `json_print_type_array`. -/
def json_print_type_array (char_signed : Bool) (format : Bool) (item : ngx_json_t) (st : PState) :
    Int × PState :=
  array_body (json_print_type_array_loop char_signed format item.list) st

/-- The source's `json_print_type_object`. -/
def json_print_type_object (char_signed : Bool) (format : Bool) (item : ngx_json_t) (st : PState) :
    Int × PState :=
  object_body format (json_print_type_object_loop char_signed format item.list) st

/-- How a top-level print call ends: it returns a status, with the string stored
through `v` when one was stored, or `assert(depth == 0)` fails. -/
inductive print_result where
  | returned (rc : Int) (v : Option ngx_str_t) : print_result
  | assert_failed : print_result
deriving DecidableEq, Repr

/-- The source's `json_print`. -/
def json_print (char_signed : Bool) (pool : ngx_pool_t) (format : Bool) (item : ngx_json_t) :
    print_result :=
  match ngx_create_temp_buf pool 256 with
  | (none, _) => .returned NGX_ERROR none
  | (some buf, pool) =>
    let r := json_print_type_value char_signed format item { pool := pool, buf := buf, depth := 0 }
    if r.1 ≠ NGX_OK then .returned NGX_ERROR none
    else if r.2.depth ≠ 0 then .assert_failed
    else
      let s := ngx_buf_to_str r.2.buf
      if s.1 ≠ NGX_OK then .returned NGX_ERROR none else .returned NGX_OK (some s.2)

/-- The source's `ngx_json_print`: the indented rendering. -/
def ngx_json_print (char_signed : Bool) (pool : ngx_pool_t) (item : ngx_json_t) : print_result :=
  json_print char_signed pool true item

/-- The source's `ngx_json_unformated_print`: the compact rendering. -/
def ngx_json_unformated_print (char_signed : Bool) (pool : ngx_pool_t) (item : ngx_json_t) :
    print_result :=
  json_print char_signed pool false item

/-! ## Specification-side notions -/

/-- A state from which every append succeeds and whose buffer is well formed:
no request to the pool fails and `pos` does not lie beyond `last`. -/
def good (st : PState) : Prop := never_fails st.pool ∧ st.buf.pos ≤ st.buf.mem.length

/-- The state `st0` with `pre` written in front of its content: same depth, both good. -/
def Ext (pre : List Nat) (st0 st : PState) : Prop :=
  good st0 ∧ good st ∧ st.depth = st0.depth ∧ st.content = pre ++ st0.content

/-- A printing step whose status, appended bytes and depth change do not depend on
what the buffer already holds. -/
def Framed (f : PState → Int × PState) : Prop :=
  ∀ pre st0 st, Ext pre st0 st → (f st).1 = (f st0).1 ∧ Ext pre (f st0).2 (f st).2

/-- A printing step that, whenever it succeeds, has moved the depth counter by `delta`. -/
def Moves (delta : Int) (f : PState → Int × PState) : Prop :=
  ∀ st, (f st).1 = NGX_OK → (f st).2.depth = st.depth + delta

/-- A printing step that succeeds from every good state. -/
def Succeeds (f : PState → Int × PState) : Prop :=
  ∀ st, good st → (f st).1 = NGX_OK

/-- The eight kinds of the data model. -/
def is_kind (t : Int) : Bool :=
  t == NGX_JSON_NULL || t == NGX_JSON_TRUE || t == NGX_JSON_FALSE || t == NGX_JSON_NUMBER ||
  t == NGX_JSON_STRING || t == NGX_JSON_RAW || t == NGX_JSON_ARRAY || t == NGX_JSON_OBJECT

mutual
/-- A tree of the data model: every node the serializer visits (the root and, below an
Array or Object node, its children) carries one of the eight kinds. -/
def ngx_json_t.printable : ngx_json_t → Bool
  | .mk list type _ _ _ _ =>
    is_kind type &&
      ((type != NGX_JSON_ARRAY && type != NGX_JSON_OBJECT) || all_printable list)
/-- Every tree of the list is a tree of the data model. -/
def all_printable : List ngx_json_t → Bool
  | [] => true
  | node :: rest => node.printable && all_printable rest
end

/-- The state in which a value is serialized on its own: an empty 256-byte buffer, a
pool that grants every request, and the given value of the depth counter. -/
def PState.blank (depth : Int) : PState :=
  { pool := [], buf := { pos := 0, end_ := 256, mem := [] }, depth := depth }

/-- The escaped key or string: the bytes `json_print_string` emits for `s`. -/
def string_text (char_signed : Bool) (s : ngx_str_t) : List Nat :=
  (json_print_string char_signed false s (PState.blank 0)).2.content

/-- The serialization of a node: the bytes `json_print_type_value` emits for `item`
when the depth counter holds `depth` on entry. -/
def value_text (char_signed format : Bool) (depth : Int) (item : ngx_json_t) : List Nat :=
  (json_print_type_value char_signed format item (PState.blank depth)).2.content

/-- From every good state whose depth counter holds `d`, the step succeeds, leaves a
good state whose depth counter holds `d1`, and has appended exactly `out`. -/
def Emits (d d1 : Int) (f : PState → Int × PState) (out : List Nat) : Prop :=
  ∀ st, good st → st.depth = d →
    (f st).1 = NGX_OK ∧ good (f st).2 ∧ (f st).2.depth = d1 ∧ (f st).2.content = st.content ++ out

/-- The members of an object as the specification lays them out: for each child, in
pretty mode `d` tabs, then the escaped key, `:`, in pretty mode one tab, the
serialization of the child, `,` unless the child is the last, in pretty mode a newline. -/
def object_members_text (format : Bool) (d : Nat) (key_text value_text : ngx_json_t → List Nat) :
    List ngx_json_t → List Nat
  | [] => []
  | c :: rest =>
    (if format then List.replicate d 9 else []) ++ key_text c ++ [58] ++
      (if format then [9] else []) ++ value_text c ++ (if rest.isEmpty then [] else [44]) ++
      (if format then [10] else []) ++ object_members_text format d key_text value_text rest

/-- An object at nesting depth `d` as the specification lays it out: an opening brace,
in pretty mode a newline, the members, in pretty mode `d - 1` tabs, a closing brace. -/
def object_text (format : Bool) (d : Nat) (key_text value_text : ngx_json_t → List Nat)
    (children : List ngx_json_t) : List Nat :=
  [123] ++ (if format then [10] else []) ++
    object_members_text format d key_text value_text children ++
    (if format then List.replicate (d - 1) 9 else []) ++ [125]

/-- An array as the specification lays it out: the serializations of the children
between brackets, separated by `,` in compact mode and by `,` and a space in pretty
mode. -/
def array_text (format : Bool) (value_text : ngx_json_t → List Nat)
    (children : List ngx_json_t) : List Nat :=
  [91] ++ List.intercalate (if format then [44, 32] else [44]) (children.map value_text) ++ [93]

/-- Value of a hexadecimal ASCII digit. -/
def hex_value (b : Nat) : Option Nat :=
  if 48 ≤ b ∧ b ≤ 57 then some (b - 48)
  else if 97 ≤ b ∧ b ≤ 102 then some (b - 87)
  else if 65 ≤ b ∧ b ≤ 70 then some (b - 55)
  else none

/-- UTF-8 encoding of a code point of the basic plane. -/
def utf8 (cp : Nat) : List Nat :=
  if cp < 128 then [cp]
  else if cp < 2048 then [192 + cp / 64, 128 + cp % 64]
  else [224 + cp / 4096, 128 + cp / 64 % 64, 128 + cp % 64]

/-- The standard JSON unescape of the text after the opening quote: it decodes the
two-character escapes of quote, backslash, b, f, n, r, t and the six-character escape
`\uXXXX`, copies the other bytes except raw control characters, and stops at the closing
quote, which must end the text. -/
def json_unescape_body : List Nat → Option (List Nat)
  | [] => none
  | [34] => some []
  | 34 :: _ => none
  | 92 :: 117 :: a :: b :: c :: d :: rest =>
    match hex_value a, hex_value b, hex_value c, hex_value d, json_unescape_body rest with
    | some x, some y, some z, some w, some tail =>
      some (utf8 (((x * 16 + y) * 16 + z) * 16 + w) ++ tail)
    | _, _, _, _, _ => none
  | 92 :: e :: rest =>
    let decoded : Option Nat :=
      if e = 34 then some 34 else if e = 92 then some 92 else if e = 98 then some 8
      else if e = 102 then some 12 else if e = 110 then some 10 else if e = 114 then some 13
      else if e = 116 then some 9 else none
    match decoded, json_unescape_body rest with
    | some x, some tail => some (x :: tail)
    | _, _ => none
  | [92] => none
  | c :: rest =>
    if c < 32 then none
    else match json_unescape_body rest with
      | some tail => some (c :: tail)
      | none => none

/-- The standard JSON string unescape the round-trip law speaks of: strip the surrounding
double quotes and decode the escapes; `none` when the text is not a JSON string. -/
def json_unescape (text : List Nat) : Option (List Nat) :=
  match text with
  | 34 :: body => json_unescape_body body
  | _ => none

/-- The object of the first scenario: the members `a` = 1 and `b` = the string `x"y`,
with the fields `ngx_json_new_number`, `ngx_json_new_string` and
`ngx_json_add_item_to_object` give them. -/
def scenario_object : ngx_json_t :=
  .mk [.mk [] NGX_JSON_NUMBER (ascii "a") 1 ⟨false, 1023, 0⟩ [],
       .mk [] NGX_JSON_STRING (ascii "b") 0 ⟨false, 0, 0⟩ (ascii "x\"y")]
    NGX_JSON_OBJECT [] 0 ⟨false, 0, 0⟩ []

/-- The array of the second scenario: the numbers 1, 2 and 3. -/
def scenario_array : ngx_json_t :=
  .mk [.mk [] NGX_JSON_NUMBER [] 1 ⟨false, 1023, 0⟩ [],
       .mk [] NGX_JSON_NUMBER [] 2 ⟨false, 1024, 0⟩ [],
       .mk [] NGX_JSON_NUMBER [] 3 ⟨false, 1024, 2 ^ 51⟩ []]
    NGX_JSON_ARRAY [] 0 ⟨false, 0, 0⟩ []

/-- The double 0.30000000000000004 (bits `0x3FD3333333333334`), the sum `0.1 + 0.2`. -/
def d_0_30000000000000004 : Double := ⟨false, 1021, 0x3333333333334⟩

/-- The double nearest to 0.3 (bits `0x3FD3333333333333`), one unit in the last place
below `d_0_30000000000000004`. -/
def d_0_3 : Double := ⟨false, 1021, 0x3333333333333⟩

/-! ## The builders

The builders on values. `Mem.ngx_json_new` and the functions around it are the same
functions on the nodes in memory, with the links they write. -/

/-- The constant `INT_MAX` of `<limits.h>` (32-bit `int`). -/
def INT_MAX : Int := 2147483647

/-- The constant `INT_MIN` of `<limits.h>` (32-bit `int`). -/
def INT_MIN : Int := -2147483648

/-- The double `INT_MAX` is converted to in `num >= INT_MAX`: 2147483647.0. -/
def d_INT_MAX : Double := ⟨false, 1053, 2 ^ 52 - 2 ^ 22⟩

/-- The double `INT_MIN` is converted to in `num <= INT_MIN`: -2147483648.0. -/
def d_INT_MIN : Double := ⟨true, 1054, 0⟩

/-- The C conversion `(int)num`: truncation toward zero. Where the truncated value does
not fit an `int`, or `num` is NaN, C leaves the conversion undefined; the value taken
here is the one x86 gives, `INT_MIN`. -/
def c_int_of_double (d : Double) : Int :=
  if isnan d || isinf d then INT_MIN
  else
    let t : Int := (if d.sign then -1 else 1) * ((d.num / d.den : Nat) : Int)
    if INT_MIN ≤ t ∧ t ≤ INT_MAX then t else INT_MIN

/-- The nginx allocator `ngx_pcalloc`: `ngx_palloc` followed by zero filling. -/
def ngx_pcalloc (pool : ngx_pool_t) (size : Nat) : Bool × ngx_pool_t :=
  ngx_palloc pool size

/-- The source's `ngx_json_new`: the node returned (`none` for `NULL`), zero filled but
for its type, and the pool afterwards. The zero filled `list` (both links `NULL`) is
given as no children, which tells nothing apart for the tags other than `NGX_JSON_ARRAY`
and `NGX_JSON_OBJECT`, whose `list` is never read; `Mem.ngx_json_new` has the links. -/
def ngx_json_new (pool : ngx_pool_t) (type : Int) : Option ngx_json_t × ngx_pool_t :=
  let node := ngx_pcalloc pool 72
  if node.1 = false then (none, node.2)
  else (some (.mk [] type [] 0 ⟨false, 0, 0⟩ []), node.2)

/-- The source's `ngx_json_new_null`. -/
def ngx_json_new_null (pool : ngx_pool_t) : Option ngx_json_t × ngx_pool_t :=
  match ngx_json_new pool NGX_JSON_NULL with
  | (none, pool) => (none, pool)
  | (some node, pool) => (some node, pool)

/-- The source's `ngx_json_new_number`. -/
def ngx_json_new_number (pool : ngx_pool_t) (num : Double) : Option ngx_json_t × ngx_pool_t :=
  match ngx_json_new pool NGX_JSON_NUMBER with
  | (none, pool) => (none, pool)
  | (some (.mk list type key _ _ valuestring), pool) =>
    let valueint := c_int_of_double num
    let valueint := if d_le d_INT_MAX num then INT_MAX else valueint
    let valueint := if d_le num d_INT_MIN then INT_MIN else valueint
    (some (.mk list type key valueint num valuestring), pool)

/-- The source's `ngx_json_new_string`, `value` being the string its argument points to. -/
def ngx_json_new_string (pool : ngx_pool_t) (value : ngx_str_t) : Option ngx_json_t × ngx_pool_t :=
  match ngx_json_new pool NGX_JSON_STRING with
  | (none, pool) => (none, pool)
  | (some (.mk list type key valueint valuedouble _), pool) =>
    (some (.mk list type key valueint valuedouble value), pool)

/-- The source's `ngx_json_new_obj`; `ngx_queue_init` leaves the queue empty. -/
def ngx_json_new_obj (pool : ngx_pool_t) : Option ngx_json_t × ngx_pool_t :=
  match ngx_json_new pool NGX_JSON_OBJECT with
  | (none, pool) => (none, pool)
  | (some (.mk _ type key valueint valuedouble valuestring), pool) =>
    (some (.mk [] type key valueint valuedouble valuestring), pool)

/-- The source's `ngx_json_new_array`; `ngx_queue_init` leaves the queue empty. -/
def ngx_json_new_array (pool : ngx_pool_t) : Option ngx_json_t × ngx_pool_t :=
  match ngx_json_new pool NGX_JSON_ARRAY with
  | (none, pool) => (none, pool)
  | (some (.mk _ type key valueint valuedouble valuestring), pool) =>
    (some (.mk [] type key valueint valuedouble valuestring), pool)

/-- The source's `ngx_json_add_item`, pointers being `none` for `NULL`: the status, and
the node `json` points to afterwards; `ngx_queue_insert_tail` puts `item` last. The
links the insertion writes into `item` are in `Mem.ngx_json_add_item`. -/
def ngx_json_add_item (_pool : ngx_pool_t) (json item : Option ngx_json_t) :
    Int × Option ngx_json_t :=
  match json, item with
  | some (.mk list type key valueint valuedouble valuestring), some x =>
    (NGX_OK, some (.mk (list ++ [x]) type key valueint valuedouble valuestring))
  | _, _ => (NGX_OK, json)

/-- How a call of an attach function ends: it returns a status, leaving the container
and the item as given here; or its `assert` fails; or it reads through a null
container pointer. -/
inductive build_result where
  | returned (rc : Int) (container : Option ngx_json_t) (item : Option ngx_json_t) : build_result
  | assert_failed : build_result
  | null_deref : build_result

/-- The status a call returned, when it returned. -/
def build_result.rc : build_result → Option Int
  | .returned rc _ _ => some rc
  | _ => none

/-- The children of the container after the call, when it returned. -/
def build_result.children : build_result → Option (List ngx_json_t)
  | .returned _ (some c) _ => some c.list
  | _ => none

/-- The source's `ngx_json_add_item_to_array` (with `assert` compiled in). -/
def ngx_json_add_item_to_array (pool : ngx_pool_t) (array item : Option ngx_json_t) :
    build_result :=
  match array with
  | none => .null_deref
  | some a =>
    if a.type ≠ NGX_JSON_ARRAY then .assert_failed
    else
      let r := ngx_json_add_item pool array item
      .returned r.1 r.2 item

/-- The source's `ngx_json_add_item_to_object` (with `assert` compiled in): the `assert`
reads `obj->type` before the null tests; a null key or value returns `NGX_OK` before
anything is stored. -/
def ngx_json_add_item_to_object (pool : ngx_pool_t) (obj : Option ngx_json_t)
    (key : Option ngx_str_t) (value : Option ngx_json_t) : build_result :=
  match obj with
  | none => .null_deref
  | some o =>
    if o.type ≠ NGX_JSON_OBJECT then .assert_failed
    else
      match key, value with
      | some k, some (.mk list type _ valueint valuedouble valuestring) =>
        let value := ngx_json_t.mk list type k valueint valuedouble valuestring
        let r := ngx_json_add_item pool obj (some value)
        .returned r.1 r.2 (some value)
      | _, _ => .returned NGX_OK obj value

/-- The header's macro `ngx_json_add_number_to_object`: the argument
`ngx_json_new_number(pool, n)` is evaluated, then the attach call is made. -/
def ngx_json_add_number_to_object (pool : ngx_pool_t) (obj : Option ngx_json_t)
    (key : Option ngx_str_t) (n : Double) : build_result × ngx_pool_t :=
  let node := ngx_json_new_number pool n
  (ngx_json_add_item_to_object node.2 obj key node.1, node.2)

/-- The header's macro `ngx_json_add_string_to_object`. -/
def ngx_json_add_string_to_object (pool : ngx_pool_t) (obj : Option ngx_json_t)
    (key : Option ngx_str_t) (s : ngx_str_t) : build_result × ngx_pool_t :=
  let node := ngx_json_new_string pool s
  (ngx_json_add_item_to_object node.2 obj key node.1, node.2)

/-- Appending the chunks one after the other with `ngx_buf_append_string`: the statuses
the calls return, in order, and the final state. -/
def append_chunks : List (List Nat) → PState → List Int × PState
  | [], st => ([], st)
  | c :: rest, st =>
    ((ngx_buf_append_string c st).1 :: (append_chunks rest (ngx_buf_append_string c st).2).1,
      (append_chunks rest (ngx_buf_append_string c st).2).2)

/-! ## The nodes in memory

The functions of this part are the functions of `ngx_json.c` on the C structures
themselves: a node is a `struct ngx_json_s` at an address, and its one field `list` is at
once its link in the queue of the container it was added to and the head of the queue of
its own children. The functions on `ngx_json_t` above are these functions on a node and
the sequence of the nodes of its queue, which is what they do as long as no node of the
queue is an Array or an Object (`print_queue_value` below). -/

/-- The nginx type `ngx_queue_t`: the two links of a circular doubly linked list. A link
is the address of a node: `list` is the first member of `ngx_json_t`, so the address of a
node's `list` is the address of the node and `ngx_queue_data(q, ngx_json_t, list)` is
`q`. The address 0 is `NULL`. -/
structure ngx_queue_t where
  prev : Nat
  next : Nat
deriving DecidableEq, Repr

/-- The C structure `struct ngx_json_s` of the header, fields in declaration order. -/
structure ngx_json_s where
  list : ngx_queue_t
  type : Int
  key : ngx_str_t
  valueint : Int
  valuedouble : Double
  valuestring : ngx_str_t
deriving DecidableEq, Repr

/-- The nodes allocated so far: the node at the address `p`, for `p` from 1 on, is entry
`p - 1`. -/
abbrev memory := List ngx_json_s

/-- The node a pointer points to; `none` for `NULL` and for an address that holds no
node. -/
def memory.load (mem : memory) (p : Nat) : Option ngx_json_s :=
  if p = 0 then none else mem[p - 1]?

/-- The memory after a write of `node` through the pointer `p`. -/
def memory.store (mem : memory) (p : Nat) (node : ngx_json_s) : memory :=
  if p = 0 then mem else mem.set (p - 1) node

/-- How a call on nodes in memory ends: it returns, or it reads or writes through `NULL`
or through an address that holds no node, or the `fuel` given to it (a bound on the
number of nested calls and loop rounds taken) is used up before it returns. A call that
is out of fuel for every `fuel` does not return. -/
inductive outcome (α : Type) where
  | done (a : α) : outcome α
  | fault : outcome α
  | out_of_fuel : outcome α
deriving DecidableEq, Repr

/-- The pattern `if (call != NGX_OK) return NGX_ERROR;` for a call on nodes in memory. -/
def outcome.and_then (r : outcome (Int × PState)) (k : PState → outcome (Int × PState)) :
    outcome (Int × PState) :=
  match r with
  | .done r => if r.1 ≠ NGX_OK then .done (NGX_ERROR, r.2) else k r.2
  | .fault => .fault
  | .out_of_fuel => .out_of_fuel

/-- A call made with what an earlier call returned, when that one returned. -/
def outcome.bind {α β : Type} (r : outcome α) (k : α → outcome β) : outcome β :=
  match r with
  | .done a => k a
  | .fault => .fault
  | .out_of_fuel => .out_of_fuel

namespace Mem

/-- The source's `json_print_type_string`, `item` pointing to `node`. -/
def json_print_type_string (char_signed : Bool) (format : Bool) (node : ngx_json_s) (st : PState) :
    Int × PState :=
  json_print_string char_signed format node.valuestring st

/-- The source's `json_print_type_number`, `item` pointing to `node`. -/
def json_print_type_number (_format : Bool) (node : ngx_json_s) (st : PState) : Int × PState :=
  let d := node.valuedouble
  if isnan d || isinf d then
    and_then (ngx_buf_append_str (ascii "null") st) fun st => (NGX_OK, st)
  else
    and_then (ngx_buf_append_str (number_text d) st) fun st => (NGX_OK, st)

/-- Body of the source's `json_print_type_array` around its loop `elems` over the queue. -/
def array_body (elems : PState → outcome (Int × PState)) (st : PState) :
    outcome (Int × PState) :=
  let st := { st with depth := st.depth + 1 }
  (outcome.done (ngx_buf_append_char 91 st)).and_then fun st =>
  (elems st).and_then fun st =>
  (outcome.done (ngx_buf_append_char 93 st)).and_then fun st =>
  .done (NGX_OK, { st with depth := st.depth - 1 })

/-- Body of the source's `json_print_type_object` around its loop `members` over the
queue. -/
def object_body (format : Bool) (members : PState → outcome (Int × PState)) (st : PState) :
    outcome (Int × PState) :=
  let st := { st with depth := st.depth + 1 }
  (outcome.done (ngx_buf_append_char 123 st)).and_then fun st =>
  (outcome.done (if format then ngx_buf_append_char 10 st else (NGX_OK, st))).and_then fun st =>
  (members st).and_then fun st =>
  (outcome.done (if format then append_tabs (st.depth - 1).toNat st else (NGX_OK, st))).and_then
    fun st =>
  (outcome.done (ngx_buf_append_char 125 st)).and_then fun st =>
  .done (NGX_OK, { st with depth := st.depth - 1 })

mutual
/-- The source's `json_print_type_value` on the node `item` points to: the `switch` on the
type tag, with the calls of `json_print_type_array` and `json_print_type_object` it makes.
The case `NGX_JSON_FALSE` has no `return` after its append and runs on into the case
`NGX_JSON_NUMBER`. The queue the loops walk starts at `ngx_queue_head(&item->list)`, which
is `item->list.next`, and ends at the sentinel `&item->list`, which is `item`. -/
def json_print_type_value (char_signed : Bool) (format : Bool) (mem : memory) :
    Nat → Nat → PState → outcome (Int × PState)
  | 0, _, _ => .out_of_fuel
  | fuel + 1, item, st =>
    match mem.load item with
    | none => .fault
    | some node =>
      if node.type = NGX_JSON_NULL then
        .done (and_then (ngx_buf_append_str (ascii "null") st) fun st => (NGX_OK, st))
      else if node.type = NGX_JSON_TRUE then
        .done (and_then (ngx_buf_append_str (ascii "true") st) fun st => (NGX_OK, st))
      else if node.type = NGX_JSON_FALSE then
        .done (and_then (ngx_buf_append_str (ascii "false") st) fun st =>
          json_print_type_number format node st)
      else if node.type = NGX_JSON_NUMBER then
        .done (json_print_type_number format node st)
      else if node.type = NGX_JSON_RAW ∨ node.type = NGX_JSON_STRING then
        .done (json_print_type_string char_signed format node st)
      else if node.type = NGX_JSON_ARRAY then
        array_body
          (json_print_type_array_loop char_signed format mem fuel item node.list.next) st
      else if node.type = NGX_JSON_OBJECT then
        object_body format
          (json_print_type_object_loop char_signed format mem fuel item node.list.next) st
      else
        .done (NGX_ERROR, st)
termination_by structural fuel => fuel
/-- The queue loop of `json_print_type_array` from the link `q` on, `sentinel` being
`ngx_queue_sentinel(&item->list)`. -/
def json_print_type_array_loop (char_signed : Bool) (format : Bool) (mem : memory) :
    Nat → Nat → Nat → PState → outcome (Int × PState)
  | 0, _, _, _ => .out_of_fuel
  | fuel + 1, sentinel, q, st =>
    if q = sentinel then .done (NGX_OK, st)
    else
      (json_print_type_value char_signed format mem fuel q st).and_then fun st =>
      match mem.load q with
      | none => .fault
      | some node =>
        (outcome.done
          (if node.list.next ≠ sentinel then
            and_then (ngx_buf_append_char 44 st) fun st =>
            if format then ngx_buf_append_char 32 st else (NGX_OK, st)
          else (NGX_OK, st))).and_then fun st =>
        json_print_type_array_loop char_signed format mem fuel sentinel node.list.next st
termination_by structural fuel => fuel
/-- The queue loop of `json_print_type_object` from the link `q` on. -/
def json_print_type_object_loop (char_signed : Bool) (format : Bool) (mem : memory) :
    Nat → Nat → Nat → PState → outcome (Int × PState)
  | 0, _, _, _ => .out_of_fuel
  | fuel + 1, sentinel, q, st =>
    if q = sentinel then .done (NGX_OK, st)
    else
      match mem.load q with
      | none => .fault
      | some node =>
        (outcome.done (if format then append_tabs st.depth.toNat st else (NGX_OK, st))).and_then
          fun st =>
        (outcome.done (json_print_string char_signed format node.key st)).and_then fun st =>
        (outcome.done (ngx_buf_append_char 58 st)).and_then fun st =>
        (outcome.done (if format then ngx_buf_append_char 9 st else (NGX_OK, st))).and_then
          fun st =>
        (json_print_type_value char_signed format mem fuel q st).and_then fun st =>
        (outcome.done
          (if node.list.next ≠ sentinel then ngx_buf_append_char 44 st
           else (NGX_OK, st))).and_then fun st =>
        (outcome.done (if format then ngx_buf_append_char 10 st else (NGX_OK, st))).and_then
          fun st =>
        json_print_type_object_loop char_signed format mem fuel sentinel node.list.next st
termination_by structural fuel => fuel
end

end Mem

namespace Mem

/-- The source's `json_print_type_array`. -/
def json_print_type_array (char_signed : Bool) (format : Bool) (mem : memory) (fuel : Nat)
    (item : Nat) (st : PState) : outcome (Int × PState) :=
  match mem.load item with
  | none => .fault
  | some node =>
    array_body (json_print_type_array_loop char_signed format mem fuel item node.list.next) st

/-- The source's `json_print_type_object`. -/
def json_print_type_object (char_signed : Bool) (format : Bool) (mem : memory) (fuel : Nat)
    (item : Nat) (st : PState) : outcome (Int × PState) :=
  match mem.load item with
  | none => .fault
  | some node =>
    object_body format
      (json_print_type_object_loop char_signed format mem fuel item node.list.next) st

/-- The source's `json_print` on the node `item` points to. -/
def json_print (char_signed : Bool) (pool : ngx_pool_t) (format : Bool) (mem : memory)
    (fuel : Nat) (item : Nat) : outcome print_result :=
  match ngx_create_temp_buf pool 256 with
  | (none, _) => .done (.returned NGX_ERROR none)
  | (some buf, pool) =>
    match json_print_type_value char_signed format mem fuel item
        { pool := pool, buf := buf, depth := 0 } with
    | .fault => .fault
    | .out_of_fuel => .out_of_fuel
    | .done r =>
      if r.1 ≠ NGX_OK then .done (.returned NGX_ERROR none)
      else if r.2.depth ≠ 0 then .done .assert_failed
      else
        let s := ngx_buf_to_str r.2.buf
        if s.1 ≠ NGX_OK then .done (.returned NGX_ERROR none)
        else .done (.returned NGX_OK (some s.2))

/-- The source's `ngx_json_print`: the indented rendering. -/
def ngx_json_print (char_signed : Bool) (pool : ngx_pool_t) (mem : memory) (fuel : Nat)
    (item : Nat) : outcome print_result :=
  json_print char_signed pool true mem fuel item

/-- The source's `ngx_json_unformated_print`: the compact rendering. -/
def ngx_json_unformated_print (char_signed : Bool) (pool : ngx_pool_t) (mem : memory)
    (fuel : Nat) (item : Nat) : outcome print_result :=
  json_print char_signed pool false mem fuel item

/-- The read `p->prev` of a link. -/
def read_prev (mem : memory) (p : Nat) : outcome Nat :=
  match mem.load p with
  | none => .fault
  | some node => .done node.list.prev

/-- The assignment `p->prev = v` to a link. -/
def write_prev (mem : memory) (p v : Nat) : outcome memory :=
  match mem.load p with
  | none => .fault
  | some node => .done (mem.store p { node with list := ⟨v, node.list.next⟩ })

/-- The assignment `p->next = v` to a link. -/
def write_next (mem : memory) (p v : Nat) : outcome memory :=
  match mem.load p with
  | none => .fault
  | some node => .done (mem.store p { node with list := ⟨node.list.prev, v⟩ })

/-- The nginx macro `ngx_queue_init(q)`: `q->prev = q; q->next = q`. -/
def ngx_queue_init (mem : memory) (q : Nat) : outcome memory :=
  (write_prev mem q q).bind fun mem => write_next mem q q

/-- The nginx macro `ngx_queue_insert_tail(h, x)`, its four assignments in order:
`x->prev = h->prev; x->prev->next = x; x->next = h; h->prev = x`. -/
def ngx_queue_insert_tail (mem : memory) (h x : Nat) : outcome memory :=
  (read_prev mem h).bind fun last =>
  (write_prev mem x last).bind fun mem =>
  (read_prev mem x).bind fun last =>
  (write_next mem last x).bind fun mem =>
  (write_next mem x h).bind fun mem =>
  write_prev mem h x

/-- The source's `ngx_json_new`: the pointer returned (0 for `NULL`), the pool and the
memory afterwards. The node is zero filled but for its type: both links of its `list`
are `NULL`. -/
def ngx_json_new (pool : ngx_pool_t) (mem : memory) (type : Int) : Nat × ngx_pool_t × memory :=
  let node := ngx_pcalloc pool 72
  if node.1 = false then (0, node.2, mem)
  else
    (mem.length + 1, node.2,
      mem ++ [{ list := ⟨0, 0⟩, type := type, key := [], valueint := 0,
                valuedouble := ⟨false, 0, 0⟩, valuestring := [] }])

/-- The source's `ngx_json_new_null`. -/
def ngx_json_new_null (pool : ngx_pool_t) (mem : memory) : Nat × ngx_pool_t × memory :=
  ngx_json_new pool mem NGX_JSON_NULL

/-- The source's `ngx_json_new_number`. -/
def ngx_json_new_number (pool : ngx_pool_t) (mem : memory) (num : Double) :
    Nat × ngx_pool_t × memory :=
  let r := ngx_json_new pool mem NGX_JSON_NUMBER
  match r.2.2.load r.1 with
  | none => (0, r.2.1, r.2.2)
  | some node =>
    let valueint := c_int_of_double num
    let valueint := if d_le d_INT_MAX num then INT_MAX else valueint
    let valueint := if d_le num d_INT_MIN then INT_MIN else valueint
    (r.1, r.2.1, r.2.2.store r.1 { node with valuedouble := num, valueint := valueint })

/-- The source's `ngx_json_new_string`, `value` being the string its argument points to. -/
def ngx_json_new_string (pool : ngx_pool_t) (mem : memory) (value : ngx_str_t) :
    Nat × ngx_pool_t × memory :=
  let r := ngx_json_new pool mem NGX_JSON_STRING
  match r.2.2.load r.1 with
  | none => (0, r.2.1, r.2.2)
  | some node => (r.1, r.2.1, r.2.2.store r.1 { node with valuestring := value })

/-- The source's `ngx_json_new_obj`: the node of `ngx_json_new` with its queue
initialised. -/
def ngx_json_new_obj (pool : ngx_pool_t) (mem : memory) : Nat × ngx_pool_t × memory :=
  let r := ngx_json_new pool mem NGX_JSON_OBJECT
  match ngx_queue_init r.2.2 r.1 with
  | .done mem => (r.1, r.2.1, mem)
  | _ => (0, r.2.1, r.2.2)

/-- The source's `ngx_json_new_array`: the node of `ngx_json_new` with its queue
initialised. -/
def ngx_json_new_array (pool : ngx_pool_t) (mem : memory) : Nat × ngx_pool_t × memory :=
  let r := ngx_json_new pool mem NGX_JSON_ARRAY
  match ngx_queue_init r.2.2 r.1 with
  | .done mem => (r.1, r.2.1, mem)
  | _ => (0, r.2.1, r.2.2)

/-- How a call of an attach function on nodes in memory ends: it returns a status and
leaves the memory given here, or its `assert` fails, or it reads or writes through `NULL`
or an address that holds no node. -/
inductive attach_result where
  | returned (rc : Int) (mem : memory) : attach_result
  | assert_failed : attach_result
  | fault : attach_result
deriving DecidableEq, Repr

/-- The source's `ngx_json_add_item`. -/
def ngx_json_add_item (_pool : ngx_pool_t) (mem : memory) (json item : Nat) : attach_result :=
  if json = 0 ∨ item = 0 then .returned NGX_OK mem
  else
    match ngx_queue_insert_tail mem json item with
    | .done mem => .returned NGX_OK mem
    | _ => .fault

/-- The source's `ngx_json_add_item_to_array` (with `assert` compiled in). -/
def ngx_json_add_item_to_array (pool : ngx_pool_t) (mem : memory) (array item : Nat) :
    attach_result :=
  match mem.load array with
  | none => .fault
  | some a =>
    if a.type ≠ NGX_JSON_ARRAY then .assert_failed
    else ngx_json_add_item pool mem array item

/-- The source's `ngx_json_add_item_to_object` (with `assert` compiled in), `key` being
the string its argument points to when that is not `NULL`. -/
def ngx_json_add_item_to_object (pool : ngx_pool_t) (mem : memory) (obj : Nat)
    (key : Option ngx_str_t) (value : Nat) : attach_result :=
  match mem.load obj with
  | none => .fault
  | some o =>
    if o.type ≠ NGX_JSON_OBJECT then .assert_failed
    else
      match key with
      | none => .returned NGX_OK mem
      | some k =>
        if value = 0 then .returned NGX_OK mem
        else
          match mem.load value with
          | none => .fault
          | some v => ngx_json_add_item pool (mem.store value { v with key := k }) obj value

end Mem

/-- The links from `q` on lead through the nodes `members`, in order and none of them
`h`, and then to `h`. -/
def links (mem : memory) (h : Nat) : Nat → List Nat → Bool
  | q, [] => q == h
  | q, c :: rest =>
    q == c && (c != h &&
      match mem.load c with
      | some node => links mem h node.list.next rest
      | none => false)

/-- The queue of the node at `h` holds the nodes `members`, in order: the links `next`
lead from `h` through them and back to `h`, and `prev` of `h` is the last of them (`h`
itself when there is none). -/
def is_queue (mem : memory) (h : Nat) (members : List Nat) : Bool :=
  match mem.load h with
  | some node => links mem h node.list.next members && node.list.prev == members.getLastD h
  | none => false

/-- The fields of a node other than its links. -/
def ngx_json_s.fields (node : ngx_json_s) : Int × ngx_str_t × Int × Double × ngx_str_t :=
  (node.type, node.key, node.valueint, node.valuedouble, node.valuestring)

/-- A node without its queue, as a value of the data model that has no children. -/
def ngx_json_s.leaf (node : ngx_json_s) : ngx_json_t :=
  .mk [] node.type node.key node.valueint node.valuedouble node.valuestring

/-- The nodes at the addresses `members` without their queues. -/
def leaves (mem : memory) (members : List Nat) : List ngx_json_t :=
  members.filterMap fun c => (mem.load c).map ngx_json_s.leaf

/-- The node `node` with the nodes at `members` for children. -/
def queue_value (mem : memory) (node : ngx_json_s) (members : List Nat) : ngx_json_t :=
  .mk (leaves mem members) node.type node.key node.valueint node.valuedouble node.valuestring

/-- The tag of an Array or an Object. -/
def is_container (type : Int) : Bool := type == NGX_JSON_ARRAY || type == NGX_JSON_OBJECT

/-- None of the nodes at `members` is an Array or an Object. -/
def no_container (mem : memory) (members : List Nat) : Bool :=
  members.all fun c =>
    match mem.load c with
    | some node => !is_container node.type
    | none => false

/-- The node `node` at `item` with the nodes of its queue: when it is an Array or an
Object, its queue holds the nodes `members` and none of them is an Array or an Object;
when it is neither, its queue is not walked and `members` is empty. -/
def flat_queue (mem : memory) (item : Nat) (node : ngx_json_s) (members : List Nat) : Bool :=
  if is_container node.type then
    links mem item node.list.next members && no_container mem members
  else members.isEmpty

namespace Mem

/-- The header's macro `ngx_json_add_number_to_object`: the argument
`ngx_json_new_number(pool, n)` is evaluated, then the attach call is made. -/
def ngx_json_add_number_to_object (pool : ngx_pool_t) (mem : memory) (obj : Nat)
    (key : Option ngx_str_t) (n : Double) : attach_result × ngx_pool_t :=
  let r := ngx_json_new_number pool mem n
  (ngx_json_add_item_to_object r.2.1 r.2.2 obj key r.1, r.2.1)

/-- The header's macro `ngx_json_add_string_to_object`. -/
def ngx_json_add_string_to_object (pool : ngx_pool_t) (mem : memory) (obj : Nat)
    (key : Option ngx_str_t) (s : ngx_str_t) : attach_result × ngx_pool_t :=
  let r := ngx_json_new_string pool mem s
  (ngx_json_add_item_to_object r.2.1 r.2.2 obj key r.1, r.2.1)

/-- The memory an attach call leaves; the memory given when the call did not return. -/
def attach_result.memory (r : attach_result) (otherwise : memory) : memory :=
  match r with
  | .returned _ mem => mem
  | _ => otherwise

end Mem

/-- The memory after `ngx_json_new_array` and, for each of the numbers, `ngx_json_new_number`
and `ngx_json_add_item_to_array`, with a pool that grants every request; the array is at
the address 1 and the numbers follow it. -/
def array_of_numbers (numbers : List Double) : memory :=
  numbers.foldl
    (fun mem d =>
      let r := Mem.ngx_json_new_number [] mem d
      (Mem.ngx_json_add_item_to_array [] r.2.2 1 r.1).memory r.2.2)
    (Mem.ngx_json_new_array [] []).2.2

/-- The array of the second scenario as the builders leave it in memory: the array at the
address 1, the numbers 1, 2 and 3 at 2, 3 and 4. -/
def scenario_array_memory : memory :=
  array_of_numbers [⟨false, 1023, 0⟩, ⟨false, 1024, 0⟩, ⟨false, 1024, 2 ^ 51⟩]

/-- The object of the first scenario as the builders leave it in memory: after
`ngx_json_new_obj`, `ngx_json_add_number_to_object` with the key `a` and the number 1, and
`ngx_json_add_string_to_object` with the key `b` and the string `x"y`. The object is at
the address 1. -/
def scenario_object_memory : memory :=
  let m0 := (Mem.ngx_json_new_obj [] []).2.2
  let m1 := (Mem.ngx_json_add_number_to_object [] m0 1 (some (ascii "a"))
    ⟨false, 1023, 0⟩).1.memory m0
  (Mem.ngx_json_add_string_to_object [] m1 1 (some (ascii "b")) (ascii "x\"y")).1.memory m1

/-- An empty array added to an array: after `ngx_json_new_array` twice and
`ngx_json_add_item_to_array` of the second array (address 2) to the first (address 1). -/
def nested_arrays : memory :=
  let m1 := (Mem.ngx_json_new_array [] (Mem.ngx_json_new_array [] []).2.2).2.2
  (Mem.ngx_json_add_item_to_array [] m1 1 2).memory m1

/-- An empty object added to an object under the key `k`: after `ngx_json_new_obj` twice
and `ngx_json_add_item_to_object` of the second object (address 2) to the first
(address 1). -/
def nested_objects : memory :=
  let m1 := (Mem.ngx_json_new_obj [] (Mem.ngx_json_new_obj [] []).2.2).2.2
  (Mem.ngx_json_add_item_to_object [] m1 1 (some (ascii "k")) 2).memory m1

/-- A call on nodes in memory that, whenever it returns `NGX_OK`, has moved the depth
counter by `delta`. -/
def MovesM (delta : Int) (f : PState → outcome (Int × PState)) : Prop :=
  ∀ st r, f st = .done r → r.1 = NGX_OK → r.2.depth = st.depth + delta

/-! ## The serializer as a sequence of steps -/

/-- One action of the serializer: an append to the buffer, the increment or the decrement
of the depth counter, the `return NGX_ERROR` that ends the `switch` of
`json_print_type_value` for a tag it does not know, a read through `NULL` or through an
address that holds no node, or the point where the fuel is used up. -/
inductive Step where
  | app (s : List Nat) : Step
  | enter : Step
  | leave : Step
  | bad : Step
  | fault : Step
  | out_of_fuel : Step
deriving DecidableEq, Repr

/-- What one step does: an append is a call of `ngx_buf_append_string`. -/
def run_step : Step → PState → outcome (Int × PState)
  | .app s, st => .done (ngx_buf_append_string s st)
  | .enter, st => .done (NGX_OK, { st with depth := st.depth + 1 })
  | .leave, st => .done (NGX_OK, { st with depth := st.depth - 1 })
  | .bad, st => .done (NGX_ERROR, st)
  | .fault, _ => .fault
  | .out_of_fuel, _ => .out_of_fuel

/-- The steps in order, each tested as the source does (`!= NGX_OK` returns `NGX_ERROR`):
a step that fails ends the run, and the steps after it are not taken. -/
def run_steps : List Step → PState → outcome (Int × PState)
  | [], st => .done (NGX_OK, st)
  | s :: rest, st => (run_step s st).and_then (run_steps rest)

/-- The bytes the appends of a step sequence carry, in order. -/
def steps_text : List Step → List Nat
  | [] => []
  | .app s :: rest => s ++ steps_text rest
  | _ :: rest => steps_text rest

/-- A step that ends the run wherever it is taken. -/
def Step.halts : Step → Bool
  | .bad => true
  | .fault => true
  | .out_of_fuel => true
  | _ => false

/-- The steps of a sequence that end a run, in order. -/
def halts (l : List Step) : List Step := l.filter Step.halts

/-- The appends `json_print_string` makes for one input byte. -/
def byte_steps (char_signed : Bool) (b : Nat) : List Step :=
  let c := to_char char_signed b
  if c > 31 ∧ c ≠ 34 ∧ c ≠ 92 then [.app [to_u_char c]]
  else if c = 34 ∨ c = 92 ∨ c = 8 ∨ c = 12 ∨ c = 10 ∨ c = 13 ∨ c = 9 then
    [.app [92], .app [to_u_char c]]
  else [.app [92], .app ((snprintf 5 (117 :: fmt_04x c)).take 5)]

/-- The appends the loop of `json_print_string` makes. -/
def string_loop_steps (char_signed : Bool) : List Nat → List Step
  | [] => []
  | b :: rest => byte_steps char_signed b ++ string_loop_steps char_signed rest

/-- The appends `json_print_string` makes. -/
def string_steps (char_signed : Bool) (s : ngx_str_t) : List Step :=
  if s.length = 0 then [.app (ascii "\"\"")]
  else [.app [34]] ++ string_loop_steps char_signed s ++ [.app [34]]

/-- The append `json_print_type_number` makes. -/
def number_steps (d : Double) : List Step :=
  if isnan d || isinf d then [.app (ascii "null")] else [.app (number_text d)]

/-- The appends of a loop that writes `n` tabs. -/
def tab_steps (n : Nat) : List Step := List.replicate n (.app [9])

mutual
/-- The steps `json_print_type_value` takes on the node at `item` when the depth counter
holds `d` on entry. -/
def value_steps (char_signed format : Bool) (mem : memory) : Nat → Int → Nat → List Step
  | 0, _, _ => [.out_of_fuel]
  | fuel + 1, d, item =>
    match mem.load item with
    | none => [.fault]
    | some node =>
      if node.type = NGX_JSON_NULL then [.app (ascii "null")]
      else if node.type = NGX_JSON_TRUE then [.app (ascii "true")]
      else if node.type = NGX_JSON_FALSE then
        [.app (ascii "false")] ++ number_steps node.valuedouble
      else if node.type = NGX_JSON_NUMBER then number_steps node.valuedouble
      else if node.type = NGX_JSON_RAW ∨ node.type = NGX_JSON_STRING then
        string_steps char_signed node.valuestring
      else if node.type = NGX_JSON_ARRAY then
        [.enter, .app [91]] ++
          (array_steps char_signed format mem fuel (d + 1) item node.list.next ++
            [.app [93], .leave])
      else if node.type = NGX_JSON_OBJECT then
        [.enter, .app [123]] ++ ((if format then [.app [10]] else []) ++
          (object_steps char_signed format mem fuel (d + 1) item node.list.next ++
            ((if format then tab_steps d.toNat else []) ++ [.app [125], .leave])))
      else [.bad]
termination_by structural fuel => fuel
/-- The steps of the loop of `json_print_type_array` from the link `q` on. -/
def array_steps (char_signed format : Bool) (mem : memory) : Nat → Int → Nat → Nat → List Step
  | 0, _, _, _ => [.out_of_fuel]
  | fuel + 1, d, sentinel, q =>
    if q = sentinel then []
    else
      value_steps char_signed format mem fuel d q ++
        match mem.load q with
        | none => [.fault]
        | some node =>
          (if node.list.next ≠ sentinel then [.app [44]] ++ (if format then [.app [32]] else [])
           else []) ++
            array_steps char_signed format mem fuel d sentinel node.list.next
termination_by structural fuel => fuel
/-- The steps of the loop of `json_print_type_object` from the link `q` on. -/
def object_steps (char_signed format : Bool) (mem : memory) : Nat → Int → Nat → Nat → List Step
  | 0, _, _, _ => [.out_of_fuel]
  | fuel + 1, d, sentinel, q =>
    if q = sentinel then []
    else
      match mem.load q with
      | none => [.fault]
      | some node =>
        (if format then tab_steps d.toNat else []) ++
          (string_steps char_signed node.key ++ ([.app [58]] ++
            ((if format then [.app [9]] else []) ++
              (value_steps char_signed format mem fuel d q ++
                ((if node.list.next ≠ sentinel then [.app [44]] else []) ++
                  ((if format then [.app [10]] else []) ++
                    object_steps char_signed format mem fuel d sentinel node.list.next))))))
termination_by structural fuel => fuel
end

/-- A call that, made with the depth counter at `d`, does exactly what the step sequence
`l` does. -/
def Flat (d : Int) (f : PState → outcome (Int × PState)) (l : List Step) : Prop :=
  ∀ st, st.depth = d → f st = run_steps l st

/-- What `json_print` gives when the call of `json_print_type_value` it makes takes the
steps `l` and no append fails: the first step that ends a run decides, and when there is
none the string stored is the text of the appends. -/
def print_of_steps (l : List Step) : outcome print_result :=
  match (halts l).head? with
  | none => .done (.returned NGX_OK (some (steps_text l)))
  | some .fault => .fault
  | some .out_of_fuel => .out_of_fuel
  | some _ => .done (.returned NGX_ERROR none)

/-! ## Specification-side notions of the later claims -/

/-- JSON whitespace: space, tab, newline and carriage return. -/
def is_ws (b : Nat) : Bool := b == 32 || b == 9 || b == 10 || b == 13

/-- The bytes pretty mode adds: space, tab and newline. -/
def is_space_tab_newline (b : Nat) : Bool := b == 32 || b == 9 || b == 10

/-- The string holds none of the bytes `W` singles out (a byte being read as the code
reads it, modulo 256). -/
def str_free (W : Nat → Bool) (s : ngx_str_t) : Bool := s.all (fun b => !W (b % 256))

/-- The text with every byte `W` singles out deleted. -/
def strip (W : Nat → Bool) (text : List Nat) : List Nat := text.filter (fun b => !W b)

/-- The result of a top-level call with `f` applied to the string it stored. -/
def print_result.map_text (f : ngx_str_t → ngx_str_t) : print_result → print_result
  | .returned rc (some v) => .returned rc (some (f v))
  | r => r

/-- The outcome of a call with `f` applied to what it returned. -/
def outcome.map {α β : Type} (f : α → β) : outcome α → outcome β
  | .done a => .done (f a)
  | .fault => .fault
  | .out_of_fuel => .out_of_fuel

/-- The address `k` links `next` after `p`; `NULL` where a link is read through `NULL` or
through an address that holds no node. The serializer reaches no other node from the node
at `p`: the head of a node's queue is its `next`, and so is its successor in a queue. -/
def walk (mem : memory) : Nat → Nat → Nat
  | 0, p => p
  | k + 1, p =>
    match mem.load p with
    | some node => walk mem k node.list.next
    | none => 0

/-- The keys and string payloads of the nodes reached from `p` hold none of the bytes `W`
singles out. -/
def free_from (W : Nat → Bool) (mem : memory) (p : Nat) : Prop :=
  ∀ k node, mem.load (walk mem k p) = some node →
    str_free W node.key = true ∧ str_free W node.valuestring = true

/-- The keys and string payloads of all nodes in memory hold none of the bytes `W` singles
out. -/
def memory.free (W : Nat → Bool) (mem : memory) : Bool :=
  mem.all fun node => str_free W node.key && str_free W node.valuestring

/-! ## Lemmas -/

theorem content_eq (st : PState) : st.content = st.buf.mem.drop st.buf.pos := by
  simp [PState.content, ngx_buf_to_str, ngx_buf_size, ngx_buf_t.last]

theorem never_fails_palloc (pool : ngx_pool_t) (n : Nat) (h : never_fails pool) :
    (ngx_palloc pool n).1 = true ∧ never_fails (ngx_palloc pool n).2 := by
  cases pool with
  | nil => exact ⟨rfl, h⟩
  | cons g later =>
    refine ⟨h g (List.mem_cons_self _ _), ?_⟩
    intro x hx
    exact h x (List.mem_cons_of_mem _ hx)

theorem append_string_good (s : List Nat) (st : PState) (h : good st) :
    (ngx_buf_append_string s st).1 = NGX_OK ∧ good (ngx_buf_append_string s st).2 ∧
    (ngx_buf_append_string s st).2.content = st.content ++ s ∧
    (ngx_buf_append_string s st).2.depth = st.depth := by
  obtain ⟨hp, hw⟩ := h
  have hal := fun n => never_fails_palloc st.pool n hp
  unfold ngx_buf_append_string
  simp only [content_eq]
  split_ifs with h1 h2 h3 h3
  · simp [(hal _).1] at h3
  · refine ⟨rfl, ⟨(hal _).2, Nat.zero_le _⟩, ?_, rfl⟩
    simp [ngx_buf_size, ngx_buf_t.last]
  · simp [(hal _).1] at h3
  · refine ⟨rfl, ⟨(hal _).2, Nat.zero_le _⟩, ?_, rfl⟩
    simp [ngx_buf_size, ngx_buf_t.last]
  · refine ⟨rfl, ⟨hp, ?_⟩, ?_, rfl⟩
    · simp; omega
    · simp [List.drop_append_of_le_length hw]

theorem append_string_depth (s : List Nat) (st : PState) :
    (ngx_buf_append_string s st).2.depth = st.depth := by
  unfold ngx_buf_append_string
  dsimp only
  split_ifs <;> rfl

theorem Ext.of_good {st : PState} (h : good st) : Ext [] st st :=
  ⟨h, h, rfl, by simp⟩

theorem framed_append_string (s : List Nat) : Framed (ngx_buf_append_string s) := by
  intro pre st0 st ⟨h0, h1, hd, hc⟩
  obtain ⟨a0, b0, c0, d0⟩ := append_string_good s st0 h0
  obtain ⟨a1, b1, c1, d1⟩ := append_string_good s st h1
  refine ⟨by rw [a0, a1], b0, b1, by rw [d0, d1, hd], ?_⟩
  rw [c0, c1, hc, List.append_assoc]

theorem framed_append_str (s : ngx_str_t) : Framed (ngx_buf_append_str s) :=
  framed_append_string s

theorem framed_append_char (c : Nat) : Framed (ngx_buf_append_char c) :=
  framed_append_string [c]

theorem framed_ok : Framed (fun st => (NGX_OK, st)) :=
  fun _ _ _ h => ⟨rfl, h⟩

theorem framed_error : Framed (fun st => (NGX_ERROR, st)) :=
  fun _ _ _ h => ⟨rfl, h⟩

theorem framed_and_then {f k : PState → Int × PState} (hf : Framed f) (hk : Framed k) :
    Framed (fun st => and_then (f st) k) := by
  intro pre st0 st h
  obtain ⟨hrc, hext⟩ := hf pre st0 st h
  simp only [and_then, hrc]
  split_ifs with hne
  · exact ⟨rfl, hext⟩
  · exact hk pre _ _ hext

theorem framed_ite (c : Prop) [Decidable c] {f g : PState → Int × PState} (hf : Framed f)
    (hg : Framed g) : Framed (fun st => if c then f st else g st) := by
  by_cases h : c
  · simpa [h] using hf
  · simpa [h] using hg

theorem framed_of_depth {F : Int → PState → Int × PState} (h : ∀ d, Framed (F d)) :
    Framed (fun st => F st.depth st) := by
  intro pre st0 st hx
  have := h st0.depth pre st0 st hx
  show (F st.depth st).1 = (F st0.depth st0).1 ∧ Ext pre (F st0.depth st0).2 (F st.depth st).2
  rw [hx.2.2.1]
  exact this

theorem framed_with_depth (g : Int → Int) {f : PState → Int × PState} (hf : Framed f) :
    Framed (fun st => f { st with depth := g st.depth }) := by
  intro pre st0 st ⟨h0, h1, hd, hc⟩
  exact hf pre _ _ ⟨h0, h1, by simp [hd], hc⟩

theorem framed_leave (g : Int → Int) :
    Framed (fun st => (NGX_OK, { st with depth := g st.depth })) := by
  intro pre st0 st ⟨h0, h1, hd, hc⟩
  exact ⟨rfl, h0, h1, by simp [hd], hc⟩

theorem framed_string_loop (cs : Bool) : ∀ s, Framed (json_print_string_loop cs s)
  | [] => framed_ok
  | b :: rest => by
    show Framed (fun st => json_print_string_loop cs (b :: rest) st)
    simp only [json_print_string_loop]
    refine framed_ite _ ?_ ?_
    · exact framed_and_then (framed_append_char _) (framed_string_loop cs rest)
    · refine framed_and_then (framed_append_char _) ?_
      refine framed_ite _ ?_ ?_
      · exact framed_and_then (framed_append_char _) (framed_string_loop cs rest)
      · exact framed_and_then (framed_append_str _) (framed_string_loop cs rest)

theorem framed_string (cs fmt : Bool) (s : ngx_str_t) : Framed (json_print_string cs fmt s) := by
  show Framed (fun st => json_print_string cs fmt s st)
  simp only [json_print_string]
  refine framed_ite _ ?_ ?_
  · exact framed_and_then (framed_append_str _) framed_ok
  · exact framed_and_then (framed_append_char _)
      (framed_and_then (framed_string_loop cs s) (framed_and_then (framed_append_char _) framed_ok))

theorem framed_type_string (cs fmt : Bool) (item : ngx_json_t) :
    Framed (json_print_type_string cs fmt item) :=
  framed_string cs fmt item.valuestring

theorem framed_number (fmt : Bool) (item : ngx_json_t) : Framed (json_print_type_number fmt item) := by
  show Framed (fun st => json_print_type_number fmt item st)
  simp only [json_print_type_number]
  refine framed_ite _ ?_ ?_
  · exact framed_and_then (framed_append_str _) framed_ok
  · exact framed_and_then (framed_append_str _) framed_ok

theorem framed_tabs : ∀ n, Framed (append_tabs n)
  | 0 => framed_ok
  | n + 1 => by
    show Framed (fun st => append_tabs (n + 1) st)
    simp only [append_tabs]
    exact framed_and_then (framed_append_char _) (framed_tabs n)

theorem framed_array_body {elems : PState → Int × PState} (h : Framed elems) :
    Framed (array_body elems) := by
  show Framed (fun st => array_body elems st)
  simp only [array_body]
  refine framed_with_depth (fun d => d + 1) (f := fun st => and_then (ngx_buf_append_char 91 st) _) ?_
  exact framed_and_then (framed_append_char _)
    (framed_and_then h (framed_and_then (framed_append_char _) (framed_leave (fun d => d - 1))))

theorem framed_object_body (fmt : Bool) {members : PState → Int × PState} (h : Framed members) :
    Framed (object_body fmt members) := by
  show Framed (fun st => object_body fmt members st)
  simp only [object_body]
  refine framed_with_depth (fun d => d + 1) (f := fun st => and_then (ngx_buf_append_char 123 st) _) ?_
  refine framed_and_then (framed_append_char _) ?_
  refine framed_and_then (framed_ite _ (framed_append_char _) framed_ok) ?_
  refine framed_and_then h ?_
  refine framed_and_then ?_ ?_
  · exact framed_ite _ (framed_of_depth (F := fun d st => append_tabs (d - 1).toNat st)
      (fun d => framed_tabs _)) framed_ok
  · exact framed_and_then (framed_append_char _) (framed_leave (fun d => d - 1))

mutual
theorem framed_value (cs fmt : Bool) : ∀ item, Framed (json_print_type_value cs fmt item)
  | .mk list type key vi vd vs => by
    show Framed (fun st => json_print_type_value cs fmt (.mk list type key vi vd vs) st)
    simp only [json_print_type_value]
    refine framed_ite _ (framed_and_then (framed_append_str _) framed_ok) ?_
    refine framed_ite _ (framed_and_then (framed_append_str _) framed_ok) ?_
    refine framed_ite _ (framed_and_then (framed_append_str _) (framed_number _ _)) ?_
    refine framed_ite _ (framed_number _ _) ?_
    refine framed_ite _ (framed_type_string _ _ _) ?_
    refine framed_ite _ (framed_array_body (framed_array_loop cs fmt list)) ?_
    exact framed_ite _ (framed_object_body fmt (framed_object_loop cs fmt list)) framed_error
theorem framed_array_loop (cs fmt : Bool) : ∀ l, Framed (json_print_type_array_loop cs fmt l)
  | [] => framed_ok
  | node :: rest => by
    show Framed (fun st => json_print_type_array_loop cs fmt (node :: rest) st)
    simp only [json_print_type_array_loop]
    refine framed_and_then (framed_value cs fmt node) ?_
    refine framed_and_then ?_ (framed_array_loop cs fmt rest)
    refine framed_ite _ ?_ framed_ok
    exact framed_and_then (framed_append_char _) (framed_ite _ (framed_append_char _) framed_ok)
theorem framed_object_loop (cs fmt : Bool) : ∀ l, Framed (json_print_type_object_loop cs fmt l)
  | [] => framed_ok
  | node :: rest => by
    show Framed (fun st => json_print_type_object_loop cs fmt (node :: rest) st)
    simp only [json_print_type_object_loop]
    refine framed_and_then ?_ ?_
    · exact framed_ite _ (framed_of_depth (F := fun d st => append_tabs d.toNat st)
        (fun d => framed_tabs _)) framed_ok
    refine framed_and_then (framed_string _ _ _) ?_
    refine framed_and_then (framed_append_char _) ?_
    refine framed_and_then (framed_ite _ (framed_append_char _) framed_ok) ?_
    refine framed_and_then (framed_value cs fmt node) ?_
    refine framed_and_then (framed_ite _ (framed_append_char _) framed_ok) ?_
    exact framed_and_then (framed_ite _ (framed_append_char _) framed_ok)
      (framed_object_loop cs fmt rest)
end

theorem moves_append_string (s : List Nat) : Moves 0 (ngx_buf_append_string s) :=
  fun st _ => by rw [append_string_depth, add_zero]

theorem moves_append_str (s : ngx_str_t) : Moves 0 (ngx_buf_append_str s) :=
  moves_append_string s

theorem moves_append_char (c : Nat) : Moves 0 (ngx_buf_append_char c) :=
  moves_append_string [c]

theorem moves_ok : Moves 0 (fun st => (NGX_OK, st)) :=
  fun st _ => by simp

theorem moves_error (delta : Int) : Moves delta (fun st => (NGX_ERROR, st)) :=
  fun st h => by simp at h

theorem moves_and_then {a b : Int} {f k : PState → Int × PState} (hf : Moves a f)
    (hk : Moves b k) : Moves (a + b) (fun st => and_then (f st) k) := by
  intro st h
  simp only [and_then] at h ⊢
  split_ifs at h ⊢ with hne
  · simp at h
  · rw [hk _ h, hf st (not_not.mp hne), add_assoc]

theorem moves_seq {f k : PState → Int × PState} (hf : Moves 0 f) (hk : Moves 0 k) :
    Moves 0 (fun st => and_then (f st) k) := by
  simpa using moves_and_then hf hk

theorem moves_ite (c : Prop) [Decidable c] {delta : Int} {f g : PState → Int × PState}
    (hf : Moves delta f) (hg : Moves delta g) : Moves delta (fun st => if c then f st else g st) := by
  by_cases h : c
  · simpa [h] using hf
  · simpa [h] using hg

theorem moves_of_depth {delta : Int} {F : Int → PState → Int × PState}
    (h : ∀ d, Moves delta (F d)) : Moves delta (fun st => F st.depth st) :=
  fun st hs => h st.depth st hs

theorem moves_string_loop (cs : Bool) : ∀ s, Moves 0 (json_print_string_loop cs s)
  | [] => moves_ok
  | b :: rest => by
    show Moves 0 (fun st => json_print_string_loop cs (b :: rest) st)
    simp only [json_print_string_loop]
    refine moves_ite _ ?_ ?_
    · exact moves_seq (moves_append_char _) (moves_string_loop cs rest)
    · refine moves_seq (moves_append_char _) ?_
      refine moves_ite _ ?_ ?_
      · exact moves_seq (moves_append_char _) (moves_string_loop cs rest)
      · exact moves_seq (moves_append_str _) (moves_string_loop cs rest)

theorem moves_string (cs fmt : Bool) (s : ngx_str_t) : Moves 0 (json_print_string cs fmt s) := by
  show Moves 0 (fun st => json_print_string cs fmt s st)
  simp only [json_print_string]
  refine moves_ite _ ?_ ?_
  · exact moves_seq (moves_append_str _) moves_ok
  · exact moves_seq (moves_append_char _)
      (moves_seq (moves_string_loop cs s) (moves_seq (moves_append_char _) moves_ok))

theorem moves_type_string (cs fmt : Bool) (item : ngx_json_t) :
    Moves 0 (json_print_type_string cs fmt item) :=
  moves_string cs fmt item.valuestring

theorem moves_number (fmt : Bool) (item : ngx_json_t) : Moves 0 (json_print_type_number fmt item) := by
  show Moves 0 (fun st => json_print_type_number fmt item st)
  simp only [json_print_type_number]
  refine moves_ite _ ?_ ?_
  · exact moves_seq (moves_append_str _) moves_ok
  · exact moves_seq (moves_append_str _) moves_ok

theorem moves_tabs : ∀ n, Moves 0 (append_tabs n)
  | 0 => moves_ok
  | n + 1 => by
    show Moves 0 (fun st => append_tabs (n + 1) st)
    simp only [append_tabs]
    exact moves_seq (moves_append_char _) (moves_tabs n)

theorem moves_leave : Moves (-1) (fun st => (NGX_OK, { st with depth := st.depth - 1 })) :=
  fun st _ => by simp [sub_eq_add_neg]

theorem moves_enter {f : PState → Int × PState} (hf : Moves (-1) f) :
    Moves 0 (fun st => f { st with depth := st.depth + 1 }) := by
  intro st h
  have := hf _ h
  simp only at this
  rw [this]
  ring

theorem moves_array_body {elems : PState → Int × PState} (h : Moves 0 elems) :
    Moves 0 (array_body elems) := by
  show Moves 0 (fun st => array_body elems st)
  simp only [array_body]
  refine moves_enter (f := fun st => and_then (ngx_buf_append_char 91 st) _) ?_
  have := moves_and_then (moves_append_char 91)
    (moves_and_then h (moves_and_then (moves_append_char 93) moves_leave))
  simpa using this

theorem moves_object_body (fmt : Bool) {members : PState → Int × PState} (h : Moves 0 members) :
    Moves 0 (object_body fmt members) := by
  show Moves 0 (fun st => object_body fmt members st)
  simp only [object_body]
  refine moves_enter (f := fun st => and_then (ngx_buf_append_char 123 st) _) ?_
  have := moves_and_then (moves_append_char 123)
    (moves_and_then (moves_ite (fmt = true) (moves_append_char 10) moves_ok)
      (moves_and_then h
        (moves_and_then
          (moves_ite (fmt = true)
            (moves_of_depth (F := fun d st => append_tabs (d - 1).toNat st) (fun d => moves_tabs _))
            moves_ok)
          (moves_and_then (moves_append_char 125) moves_leave))))
  simpa using this

mutual
theorem moves_value (cs fmt : Bool) : ∀ item, Moves 0 (json_print_type_value cs fmt item)
  | .mk list type key vi vd vs => by
    show Moves 0 (fun st => json_print_type_value cs fmt (.mk list type key vi vd vs) st)
    simp only [json_print_type_value]
    refine moves_ite _ (moves_seq (moves_append_str _) moves_ok) ?_
    refine moves_ite _ (moves_seq (moves_append_str _) moves_ok) ?_
    refine moves_ite _ (moves_seq (moves_append_str _) (moves_number _ _)) ?_
    refine moves_ite _ (moves_number _ _) ?_
    refine moves_ite _ (moves_type_string _ _ _) ?_
    refine moves_ite _ (moves_array_body (moves_array_loop cs fmt list)) ?_
    exact moves_ite _ (moves_object_body fmt (moves_object_loop cs fmt list)) (moves_error 0)
theorem moves_array_loop (cs fmt : Bool) : ∀ l, Moves 0 (json_print_type_array_loop cs fmt l)
  | [] => moves_ok
  | node :: rest => by
    show Moves 0 (fun st => json_print_type_array_loop cs fmt (node :: rest) st)
    simp only [json_print_type_array_loop]
    refine moves_seq (moves_value cs fmt node) ?_
    refine moves_seq ?_ (moves_array_loop cs fmt rest)
    refine moves_ite _ ?_ moves_ok
    exact moves_seq (moves_append_char _) (moves_ite _ (moves_append_char _) moves_ok)
theorem moves_object_loop (cs fmt : Bool) : ∀ l, Moves 0 (json_print_type_object_loop cs fmt l)
  | [] => moves_ok
  | node :: rest => by
    show Moves 0 (fun st => json_print_type_object_loop cs fmt (node :: rest) st)
    simp only [json_print_type_object_loop]
    refine moves_seq ?_ ?_
    · exact moves_ite _ (moves_of_depth (F := fun d st => append_tabs d.toNat st)
        (fun d => moves_tabs _)) moves_ok
    refine moves_seq (moves_string _ _ _) ?_
    refine moves_seq (moves_append_char _) ?_
    refine moves_seq (moves_ite _ (moves_append_char _) moves_ok) ?_
    refine moves_seq (moves_value cs fmt node) ?_
    refine moves_seq (moves_ite _ (moves_append_char _) moves_ok) ?_
    exact moves_seq (moves_ite _ (moves_append_char _) moves_ok)
      (moves_object_loop cs fmt rest)
end

theorem Framed.keeps_good {f : PState → Int × PState} (hf : Framed f) {st : PState}
    (h : good st) : good (f st).2 :=
  (hf [] st st (Ext.of_good h)).2.1

theorem succeeds_append_string (s : List Nat) : Succeeds (ngx_buf_append_string s) :=
  fun st h => (append_string_good s st h).1

theorem succeeds_append_str (s : ngx_str_t) : Succeeds (ngx_buf_append_str s) :=
  succeeds_append_string s

theorem succeeds_append_char (c : Nat) : Succeeds (ngx_buf_append_char c) :=
  succeeds_append_string [c]

theorem succeeds_ok : Succeeds (fun st => (NGX_OK, st)) :=
  fun _ _ => rfl

theorem succeeds_and_then {f k : PState → Int × PState} (hF : Framed f) (hf : Succeeds f)
    (hk : Succeeds k) : Succeeds (fun st => and_then (f st) k) := by
  intro st h
  simp only [and_then, hf st h]
  exact hk _ (hF.keeps_good h)

theorem succeeds_ite (c : Prop) [Decidable c] {f g : PState → Int × PState} (hf : Succeeds f)
    (hg : Succeeds g) : Succeeds (fun st => if c then f st else g st) := by
  by_cases h : c
  · simpa [h] using hf
  · simpa [h] using hg

theorem succeeds_of_depth {F : Int → PState → Int × PState} (h : ∀ d, Succeeds (F d)) :
    Succeeds (fun st => F st.depth st) :=
  fun st hs => h st.depth st hs

theorem succeeds_with_depth (g : Int → Int) {f : PState → Int × PState} (hf : Succeeds f) :
    Succeeds (fun st => f { st with depth := g st.depth }) :=
  fun _ h => hf _ h

theorem succeeds_string_loop (cs : Bool) : ∀ s, Succeeds (json_print_string_loop cs s)
  | [] => succeeds_ok
  | b :: rest => by
    show Succeeds (fun st => json_print_string_loop cs (b :: rest) st)
    simp only [json_print_string_loop]
    refine succeeds_ite _ ?_ ?_
    · exact succeeds_and_then (framed_append_char _) (succeeds_append_char _)
        (succeeds_string_loop cs rest)
    · refine succeeds_and_then (framed_append_char _) (succeeds_append_char _) ?_
      refine succeeds_ite _ ?_ ?_
      · exact succeeds_and_then (framed_append_char _) (succeeds_append_char _)
          (succeeds_string_loop cs rest)
      · exact succeeds_and_then (framed_append_str _) (succeeds_append_str _)
          (succeeds_string_loop cs rest)

theorem succeeds_string (cs fmt : Bool) (s : ngx_str_t) : Succeeds (json_print_string cs fmt s) := by
  show Succeeds (fun st => json_print_string cs fmt s st)
  simp only [json_print_string]
  refine succeeds_ite _ ?_ ?_
  · exact succeeds_and_then (framed_append_str _) (succeeds_append_str _) succeeds_ok
  · refine succeeds_and_then (framed_append_char _) (succeeds_append_char _) ?_
    refine succeeds_and_then (framed_string_loop cs s) (succeeds_string_loop cs s) ?_
    exact succeeds_and_then (framed_append_char _) (succeeds_append_char _) succeeds_ok

theorem succeeds_type_string (cs fmt : Bool) (item : ngx_json_t) :
    Succeeds (json_print_type_string cs fmt item) :=
  succeeds_string cs fmt item.valuestring

theorem succeeds_number (fmt : Bool) (item : ngx_json_t) :
    Succeeds (json_print_type_number fmt item) := by
  show Succeeds (fun st => json_print_type_number fmt item st)
  simp only [json_print_type_number]
  refine succeeds_ite _ ?_ ?_
  · exact succeeds_and_then (framed_append_str _) (succeeds_append_str _) succeeds_ok
  · exact succeeds_and_then (framed_append_str _) (succeeds_append_str _) succeeds_ok

theorem succeeds_tabs : ∀ n, Succeeds (append_tabs n)
  | 0 => succeeds_ok
  | n + 1 => by
    show Succeeds (fun st => append_tabs (n + 1) st)
    simp only [append_tabs]
    exact succeeds_and_then (framed_append_char _) (succeeds_append_char _) (succeeds_tabs n)

theorem succeeds_array_body {elems : PState → Int × PState} (hF : Framed elems)
    (h : Succeeds elems) : Succeeds (array_body elems) := by
  show Succeeds (fun st => array_body elems st)
  simp only [array_body]
  refine succeeds_with_depth (fun d => d + 1)
    (f := fun st => and_then (ngx_buf_append_char 91 st) _) ?_
  refine succeeds_and_then (framed_append_char _) (succeeds_append_char _) ?_
  refine succeeds_and_then hF h ?_
  exact succeeds_and_then (framed_append_char _) (succeeds_append_char _) (fun _ _ => rfl)

theorem succeeds_object_body (fmt : Bool) {members : PState → Int × PState}
    (hF : Framed members) (h : Succeeds members) : Succeeds (object_body fmt members) := by
  show Succeeds (fun st => object_body fmt members st)
  simp only [object_body]
  refine succeeds_with_depth (fun d => d + 1)
    (f := fun st => and_then (ngx_buf_append_char 123 st) _) ?_
  refine succeeds_and_then (framed_append_char _) (succeeds_append_char _) ?_
  refine succeeds_and_then (framed_ite _ (framed_append_char _) framed_ok)
    (succeeds_ite _ (succeeds_append_char _) succeeds_ok) ?_
  refine succeeds_and_then hF h ?_
  refine succeeds_and_then ?_ ?_ ?_
  · exact framed_ite _ (framed_of_depth (F := fun d st => append_tabs (d - 1).toNat st)
      (fun d => framed_tabs _)) framed_ok
  · exact succeeds_ite _ (succeeds_of_depth (F := fun d st => append_tabs (d - 1).toNat st)
      (fun d => succeeds_tabs _)) succeeds_ok
  · exact succeeds_and_then (framed_append_char _) (succeeds_append_char _) (fun _ _ => rfl)

theorem all_printable_cons {node : ngx_json_t} {rest : List ngx_json_t}
    (h : all_printable (node :: rest) = true) :
    node.printable = true ∧ all_printable rest = true := by
  simpa [all_printable] using h

mutual
theorem succeeds_value (cs fmt : Bool) :
    ∀ item, item.printable = true → Succeeds (json_print_type_value cs fmt item)
  | .mk list type key vi vd vs, hp => by
    intro st hg
    simp only [ngx_json_t.printable, is_kind, Bool.and_eq_true, Bool.or_eq_true, beq_iff_eq,
      bne_iff_ne] at hp
    simp only [json_print_type_value]
    split_ifs with h1 h2 h3 h4 h5 h6 h7
    · exact succeeds_and_then (framed_append_str _) (succeeds_append_str _) succeeds_ok st hg
    · exact succeeds_and_then (framed_append_str _) (succeeds_append_str _) succeeds_ok st hg
    · exact succeeds_and_then (framed_append_str _) (succeeds_append_str _)
        (succeeds_number _ _) st hg
    · exact succeeds_number _ _ st hg
    · exact succeeds_type_string _ _ _ st hg
    · have hl : all_printable list = true := by
        rcases hp.2 with h | h
        · exact absurd h6 h.1
        · exact h
      exact succeeds_array_body (framed_array_loop cs fmt list)
        (succeeds_array_loop cs fmt list hl) st hg
    · have hl : all_printable list = true := by
        rcases hp.2 with h | h
        · exact absurd h7 h.2
        · exact h
      exact succeeds_object_body fmt (framed_object_loop cs fmt list)
        (succeeds_object_loop cs fmt list hl) st hg
    · exfalso
      have := hp.1
      simp only [not_or] at h5
      tauto
theorem succeeds_array_loop (cs fmt : Bool) :
    ∀ l, all_printable l = true → Succeeds (json_print_type_array_loop cs fmt l)
  | [], _ => succeeds_ok
  | node :: rest, hp => by
    show Succeeds (fun st => json_print_type_array_loop cs fmt (node :: rest) st)
    simp only [json_print_type_array_loop]
    refine succeeds_and_then (framed_value cs fmt node)
      (succeeds_value cs fmt node (all_printable_cons hp).1) ?_
    refine succeeds_and_then ?_ ?_ (succeeds_array_loop cs fmt rest (all_printable_cons hp).2)
    · refine framed_ite _ ?_ framed_ok
      exact framed_and_then (framed_append_char _) (framed_ite _ (framed_append_char _) framed_ok)
    · refine succeeds_ite _ ?_ succeeds_ok
      exact succeeds_and_then (framed_append_char _) (succeeds_append_char _)
        (succeeds_ite _ (succeeds_append_char _) succeeds_ok)
theorem succeeds_object_loop (cs fmt : Bool) :
    ∀ l, all_printable l = true → Succeeds (json_print_type_object_loop cs fmt l)
  | [], _ => succeeds_ok
  | node :: rest, hp => by
    show Succeeds (fun st => json_print_type_object_loop cs fmt (node :: rest) st)
    simp only [json_print_type_object_loop]
    refine succeeds_and_then ?_ ?_ ?_
    · exact framed_ite _ (framed_of_depth (F := fun d st => append_tabs d.toNat st)
        (fun d => framed_tabs _)) framed_ok
    · exact succeeds_ite _ (succeeds_of_depth (F := fun d st => append_tabs d.toNat st)
        (fun d => succeeds_tabs _)) succeeds_ok
    refine succeeds_and_then (framed_string _ _ _) (succeeds_string _ _ _) ?_
    refine succeeds_and_then (framed_append_char _) (succeeds_append_char _) ?_
    refine succeeds_and_then (framed_ite _ (framed_append_char _) framed_ok)
      (succeeds_ite _ (succeeds_append_char _) succeeds_ok) ?_
    refine succeeds_and_then (framed_value cs fmt node)
      (succeeds_value cs fmt node (all_printable_cons hp).1) ?_
    refine succeeds_and_then (framed_ite _ (framed_append_char _) framed_ok)
      (succeeds_ite _ (succeeds_append_char _) succeeds_ok) ?_
    exact succeeds_and_then (framed_ite _ (framed_append_char _) framed_ok)
      (succeeds_ite _ (succeeds_append_char _) succeeds_ok)
      (succeeds_object_loop cs fmt rest (all_printable_cons hp).2)
end

theorem good_blank (d : Int) : good (PState.blank d) :=
  ⟨fun _ h => by simp [PState.blank] at h, Nat.zero_le _⟩

theorem emits_of_framed {f : PState → Int × PState} (hF : Framed f) (hS : Succeeds f)
    (hM : Moves 0 f) (d : Int) : Emits d d f (f (PState.blank d)).2.content := by
  intro st hg hd
  have hx : Ext st.content (PState.blank d) st :=
    ⟨good_blank d, hg, hd, by simp [content_eq, PState.blank]⟩
  obtain ⟨_, _, h2, _, h4⟩ := hF _ _ _ hx
  refine ⟨hS st hg, h2, ?_, h4⟩
  rw [hM st (hS st hg), hd, add_zero]

theorem Emits.congr {d d1 : Int} {f : PState → Int × PState} {o o1 : List Nat}
    (h : Emits d d1 f o) (e : o = o1) : Emits d d1 f o1 := e ▸ h

theorem emits_append_string (d : Int) (s : List Nat) : Emits d d (ngx_buf_append_string s) s := by
  intro st hg hd
  obtain ⟨a, b, c, e⟩ := append_string_good s st hg
  exact ⟨a, b, by rw [e, hd], c⟩

theorem emits_append_str (d : Int) (s : ngx_str_t) : Emits d d (ngx_buf_append_str s) s :=
  emits_append_string d s

theorem emits_append_char (d : Int) (c : Nat) : Emits d d (ngx_buf_append_char c) [c] :=
  emits_append_string d [c]

theorem emits_ok (d : Int) : Emits d d (fun st => (NGX_OK, st)) [] :=
  fun st hg hd => ⟨rfl, hg, hd, by simp⟩

theorem emits_and_then {d d1 d2 : Int} {f k : PState → Int × PState} {o1 o2 : List Nat}
    (hf : Emits d d1 f o1) (hk : Emits d1 d2 k o2) :
    Emits d d2 (fun st => and_then (f st) k) (o1 ++ o2) := by
  intro st hg hd
  obtain ⟨a, b, c, e⟩ := hf st hg hd
  obtain ⟨a1, b1, c1, e1⟩ := hk _ b c
  have hr : and_then (f st) k = k (f st).2 := by simp [and_then, a]
  show (and_then (f st) k).1 = NGX_OK ∧ good (and_then (f st) k).2 ∧
    (and_then (f st) k).2.depth = d2 ∧ (and_then (f st) k).2.content = st.content ++ (o1 ++ o2)
  rw [hr]
  exact ⟨a1, b1, c1, by rw [e1, e, List.append_assoc]⟩

theorem emits_ite (c : Prop) [Decidable c] {d d1 : Int} {f g : PState → Int × PState}
    {o1 o2 : List Nat} (hf : Emits d d1 f o1) (hg : Emits d d1 g o2) :
    Emits d d1 (fun st => if c then f st else g st) (if c then o1 else o2) := by
  by_cases h : c
  · simpa [h] using hf
  · simpa [h] using hg

theorem emits_of_depth {d d1 : Int} {F : Int → PState → Int × PState} {o : List Nat}
    (h : Emits d d1 (F d) o) : Emits d d1 (fun st => F st.depth st) o := by
  intro st hg hd
  have := h st hg hd
  rw [← hd] at this
  exact this

theorem emits_enter {d d1 : Int} {f : PState → Int × PState} {o : List Nat}
    (h : Emits (d + 1) d1 f o) : Emits d d1 (fun st => f { st with depth := st.depth + 1 }) o := by
  intro st hg hd
  have := h { st with depth := st.depth + 1 } hg (by simp [hd])
  simpa [content_eq] using this

theorem emits_leave (d : Int) :
    Emits d (d - 1) (fun st => (NGX_OK, { st with depth := st.depth - 1 })) [] :=
  fun st hg hd => ⟨rfl, hg, by simp [hd], by simp [content_eq]⟩

theorem emits_tabs (d : Int) : ∀ n, Emits d d (append_tabs n) (List.replicate n 9)
  | 0 => emits_ok d
  | n + 1 => by
    show Emits d d (fun st => append_tabs (n + 1) st) _
    simp only [append_tabs]
    exact (emits_and_then (emits_append_char d 9) (emits_tabs d n)).congr
      (by simp [List.replicate_succ])

theorem append_string_with_depth (s : List Nat) (st : PState) (d : Int) :
    ngx_buf_append_string s { st with depth := d } =
      ((ngx_buf_append_string s st).1, { (ngx_buf_append_string s st).2 with depth := d }) := by
  unfold ngx_buf_append_string
  dsimp only
  split_ifs <;> rfl

theorem and_then_with_depth {f k : PState → Int × PState} {st : PState} {d : Int}
    (hf : f { st with depth := d } = ((f st).1, { (f st).2 with depth := d }))
    (hk : ∀ st1, k { st1 with depth := d } = ((k st1).1, { (k st1).2 with depth := d })) :
    and_then (f { st with depth := d }) k =
      ((and_then (f st) k).1, { (and_then (f st) k).2 with depth := d }) := by
  rw [hf]
  simp only [and_then]
  split_ifs
  · rfl
  · exact hk _

theorem string_loop_with_depth (cs : Bool) (d : Int) : ∀ (s : List Nat) (st : PState),
    json_print_string_loop cs s { st with depth := d } =
      ((json_print_string_loop cs s st).1, { (json_print_string_loop cs s st).2 with depth := d })
  | [], _ => rfl
  | b :: rest, st => by
    simp only [json_print_string_loop]
    split_ifs
    · exact and_then_with_depth (append_string_with_depth _ _ _)
        (fun st1 => string_loop_with_depth cs d rest st1)
    · exact and_then_with_depth (append_string_with_depth _ _ _) (fun st1 =>
        and_then_with_depth (append_string_with_depth _ _ _)
          (fun st2 => string_loop_with_depth cs d rest st2))
    · exact and_then_with_depth (append_string_with_depth _ _ _) (fun st1 =>
        and_then_with_depth (append_string_with_depth _ _ _)
          (fun st2 => string_loop_with_depth cs d rest st2))

theorem string_with_depth (cs fmt : Bool) (s : ngx_str_t) (st : PState) (d : Int) :
    json_print_string cs fmt s { st with depth := d } =
      ((json_print_string cs fmt s st).1, { (json_print_string cs fmt s st).2 with depth := d }) := by
  simp only [json_print_string]
  split_ifs
  · exact and_then_with_depth (append_string_with_depth _ _ _) (fun _ => rfl)
  · exact and_then_with_depth (append_string_with_depth _ _ _) (fun st1 =>
      and_then_with_depth (string_loop_with_depth cs d s st1) (fun st2 =>
        and_then_with_depth (append_string_with_depth _ _ _) (fun _ => rfl)))

theorem emits_string (d : Int) (cs fmt : Bool) (s : ngx_str_t) :
    Emits d d (json_print_string cs fmt s) (string_text cs s) := by
  refine (emits_of_framed (framed_string cs fmt s) (succeeds_string cs fmt s)
    (moves_string cs fmt s) d).congr ?_
  have : PState.blank d = { PState.blank 0 with depth := d } := rfl
  rw [this, string_with_depth]
  rfl

theorem emits_value (d : Int) (cs fmt : Bool) (item : ngx_json_t) (hp : item.printable = true) :
    Emits d d (json_print_type_value cs fmt item) (value_text cs fmt d item) :=
  emits_of_framed (framed_value cs fmt item) (succeeds_value cs fmt item hp)
    (moves_value cs fmt item) d

theorem emits_object_loop (d : Int) (cs fmt : Bool) :
    ∀ l, all_printable l = true →
      Emits d d (json_print_type_object_loop cs fmt l)
        (object_members_text fmt d.toNat (fun c => string_text cs c.key) (value_text cs fmt d) l)
  | [], _ => emits_ok d
  | node :: rest, hp => by
    show Emits d d (fun st => json_print_type_object_loop cs fmt (node :: rest) st) _
    simp only [json_print_type_object_loop]
    have h := emits_and_then
      (emits_ite (fmt = true) (emits_of_depth (F := fun d st => append_tabs d.toNat st)
        (emits_tabs d d.toNat)) (emits_ok d))
      (emits_and_then (emits_string d cs fmt node.key)
        (emits_and_then (emits_append_char d 58)
          (emits_and_then (emits_ite (fmt = true) (emits_append_char d 9) (emits_ok d))
            (emits_and_then (emits_value d cs fmt node (all_printable_cons hp).1)
              (emits_and_then
                (emits_ite ((!rest.isEmpty) = true) (emits_append_char d 44) (emits_ok d))
                (emits_and_then (emits_ite (fmt = true) (emits_append_char d 10) (emits_ok d))
                  (emits_object_loop d cs fmt rest (all_printable_cons hp).2)))))))
    refine h.congr ?_
    cases rest <;> simp [object_members_text]

theorem intercalate_cons_cons (sep a b : List Nat) (l : List (List Nat)) :
    List.intercalate sep (a :: b :: l) = a ++ sep ++ List.intercalate sep (b :: l) := by
  simp [List.intercalate, List.intersperse]

theorem emits_array_loop (d : Int) (cs fmt : Bool) :
    ∀ l, all_printable l = true →
      Emits d d (json_print_type_array_loop cs fmt l)
        (List.intercalate (if fmt then [44, 32] else [44]) (l.map (value_text cs fmt d)))
  | [], _ => by simpa [List.intercalate] using emits_ok d
  | node :: rest, hp => by
    show Emits d d (fun st => json_print_type_array_loop cs fmt (node :: rest) st) _
    simp only [json_print_type_array_loop]
    have h := emits_and_then (emits_value d cs fmt node (all_printable_cons hp).1)
      (emits_and_then
        (emits_ite ((!rest.isEmpty) = true)
          (emits_and_then (emits_append_char d 44)
            (emits_ite (fmt = true) (emits_append_char d 32) (emits_ok d)))
          (emits_ok d))
        (emits_array_loop d cs fmt rest (all_printable_cons hp).2))
    refine h.congr ?_
    cases rest with
    | nil => simp [List.intercalate]
    | cons b l =>
      simp only [List.map_cons]
      rw [intercalate_cons_cons]
      cases fmt <;> simp

theorem emits_array (k : Int) (cs fmt : Bool) (l : List ngx_json_t) (hp : all_printable l = true) :
    Emits k k (array_body (json_print_type_array_loop cs fmt l))
      (array_text fmt (value_text cs fmt (k + 1)) l) := by
  show Emits k k (fun st => array_body (json_print_type_array_loop cs fmt l) st) _
  simp only [array_body]
  refine emits_enter (f := fun st => and_then (ngx_buf_append_char 91 st) _) ?_
  have h := emits_and_then (emits_append_char (k + 1) 91)
    (emits_and_then (emits_array_loop (k + 1) cs fmt l hp)
      (emits_and_then (emits_append_char (k + 1) 93) (emits_leave (k + 1))))
  rw [add_sub_cancel_right] at h
  exact h.congr (by simp [array_text])

theorem emits_object (k : Int) (cs fmt : Bool) (l : List ngx_json_t)
    (hp : all_printable l = true) :
    Emits k k (object_body fmt (json_print_type_object_loop cs fmt l))
      (object_text fmt (k + 1).toNat (fun c => string_text cs c.key)
        (value_text cs fmt (k + 1)) l) := by
  show Emits k k (fun st => object_body fmt (json_print_type_object_loop cs fmt l) st) _
  simp only [object_body]
  refine emits_enter (f := fun st => and_then (ngx_buf_append_char 123 st) _) ?_
  have h := emits_and_then (emits_append_char (k + 1) 123)
    (emits_and_then (emits_ite (fmt = true) (emits_append_char (k + 1) 10) (emits_ok (k + 1)))
      (emits_and_then (emits_object_loop (k + 1) cs fmt l hp)
        (emits_and_then
          (emits_ite (fmt = true)
            (emits_of_depth (F := fun d st => append_tabs (d - 1).toNat st)
              (emits_tabs (k + 1) (k + 1 - 1).toNat))
            (emits_ok (k + 1)))
          (emits_and_then (emits_append_char (k + 1) 125) (emits_leave (k + 1))))))
  rw [add_sub_cancel_right] at h
  refine h.congr ?_
  have e : k.toNat = (k + 1).toNat - 1 := by omega
  cases fmt <;> simp [object_text, e]

/-! ### The top-level call -/

theorem create_temp_buf_good (pool : ngx_pool_t) (size : Nat) (h : never_fails pool) :
    ∃ pool1, never_fails pool1 ∧
      ngx_create_temp_buf pool size = (some { pos := 0, end_ := size, mem := [] }, pool1) := by
  obtain ⟨a, b⟩ := never_fails_palloc pool 80 h
  obtain ⟨a1, b1⟩ := never_fails_palloc (ngx_palloc pool 80).2 size b
  exact ⟨_, b1, by simp [ngx_create_temp_buf, a, a1]⟩

theorem json_print_of_emits {cs fmt : Bool} {item : ngx_json_t} {out : List Nat}
    (h : Emits 0 0 (json_print_type_value cs fmt item) out) (pool : ngx_pool_t)
    (hp : never_fails pool) : json_print cs pool fmt item = .returned NGX_OK (some out) := by
  obtain ⟨pool1, hp1, hc⟩ := create_temp_buf_good pool 256 hp
  have hg : good { pool := pool1, buf := { pos := 0, end_ := 256, mem := [] }, depth := 0 } :=
    ⟨hp1, Nat.zero_le _⟩
  obtain ⟨a, _, c, e⟩ := h _ hg rfl
  simp only [json_print, hc]
  simp only [a, c, ne_eq, not_true_eq_false, if_false]
  have e1 : (ngx_buf_to_str (json_print_type_value cs fmt item
      { pool := pool1, buf := { pos := 0, end_ := 256, mem := [] }, depth := 0 }).2.buf).2 = out := by
    have := e
    simp only [PState.content] at this
    rw [this]
    simp [ngx_buf_to_str, ngx_buf_size, ngx_buf_t.last]
  simp [ngx_buf_to_str] at e1 ⊢
  exact e1

theorem value_object_eq (cs fmt : Bool) (list : List ngx_json_t) (key : ngx_str_t) (vi : Int)
    (vd : Double) (vs : ngx_str_t) :
    json_print_type_value cs fmt (.mk list NGX_JSON_OBJECT key vi vd vs) =
      json_print_type_object cs fmt (.mk list NGX_JSON_OBJECT key vi vd vs) := by
  funext st
  simp [json_print_type_value, json_print_type_object, ngx_json_t.list]

theorem value_array_eq (cs fmt : Bool) (list : List ngx_json_t) (key : ngx_str_t) (vi : Int)
    (vd : Double) (vs : ngx_str_t) :
    json_print_type_value cs fmt (.mk list NGX_JSON_ARRAY key vi vd vs) =
      json_print_type_array cs fmt (.mk list NGX_JSON_ARRAY key vi vd vs) := by
  funext st
  simp [json_print_type_value, json_print_type_array, ngx_json_t.list]

theorem emits_nonfinite (d : Int) (cs fmt : Bool) (list : List ngx_json_t) (key : ngx_str_t)
    (vi : Int) (vd : Double) (vs : ngx_str_t) (h : isnan vd = true ∨ isinf vd = true) :
    Emits d d (json_print_type_value cs fmt (.mk list NGX_JSON_NUMBER key vi vd vs))
      (ascii "null") := by
  have hc : (isnan vd || isinf vd) = true := by simpa using h
  have e : json_print_type_value cs fmt (.mk list NGX_JSON_NUMBER key vi vd vs) =
      fun st => and_then (ngx_buf_append_str (ascii "null") st) fun st => (NGX_OK, st) := by
    funext st
    simp [json_print_type_value, json_print_type_number, ngx_json_t.valuedouble, hc]
  rw [e]
  simpa using emits_and_then (emits_append_str d (ascii "null")) (emits_ok d)

/-! ### Sequences of appends -/

theorem append_chunks_good : ∀ (chunks : List (List Nat)) (st : PState), good st →
    (append_chunks chunks st).1 = List.replicate chunks.length NGX_OK ∧
    good (append_chunks chunks st).2 ∧
    (append_chunks chunks st).2.content = st.content ++ chunks.flatten
  | [], st, h => ⟨rfl, h, by simp [append_chunks]⟩
  | c :: rest, st, h => by
    obtain ⟨a, b, e, _⟩ := append_string_good c st h
    obtain ⟨a1, b1, e1⟩ := append_chunks_good rest _ b
    refine ⟨?_, b1, ?_⟩
    · simp only [append_chunks, a, a1, List.length_cons, List.replicate_succ]
    · simp only [append_chunks, e1, e, List.flatten_cons, List.append_assoc]

/-! ### Calls on nodes in memory -/

theorem done_and_then {r : Int × PState} {X : PState → outcome (Int × PState)}
    {k : PState → Int × PState} (hk : ∀ st, X st = .done (k st)) :
    (outcome.done r).and_then X = .done (and_then r k) := by
  simp only [outcome.and_then, and_then]
  split_ifs
  · rfl
  · exact hk _

theorem array_body_done {elems : PState → outcome (Int × PState)}
    {e : PState → Int × PState} (h : ∀ st, elems st = .done (e st)) (st : PState) :
    Mem.array_body elems st = .done (array_body e st) := by
  simp only [Mem.array_body, array_body]
  refine done_and_then fun st1 => ?_
  rw [h st1]
  refine done_and_then fun st2 => ?_
  exact done_and_then fun st3 => rfl

theorem object_body_done (fmt : Bool) {members : PState → outcome (Int × PState)}
    {e : PState → Int × PState} (h : ∀ st, members st = .done (e st)) (st : PState) :
    Mem.object_body fmt members st = .done (object_body fmt e st) := by
  simp only [Mem.object_body, object_body]
  refine done_and_then fun st1 => ?_
  refine done_and_then fun st2 => ?_
  rw [h st2]
  refine done_and_then fun st3 => ?_
  refine done_and_then fun st4 => ?_
  exact done_and_then fun st5 => rfl

theorem links_nil {mem : memory} {h q : Nat} (hl : links mem h q [] = true) : q = h := by
  simpa [links] using hl

theorem links_cons {mem : memory} {h q c : Nat} {rest : List Nat}
    (hl : links mem h q (c :: rest) = true) :
    q = c ∧ c ≠ h ∧ ∃ node, mem.load c = some node ∧ links mem h node.list.next rest = true := by
  simp only [links, Bool.and_eq_true, beq_iff_eq, bne_iff_ne, ne_eq] at hl
  obtain ⟨a, b, c1⟩ := hl
  refine ⟨a, b, ?_⟩
  cases hc : mem.load c with
  | none => simp [hc] at c1
  | some node => exact ⟨node, rfl, by simpa [hc] using c1⟩

theorem links_next_ne {mem : memory} {h q : Nat} {rest : List Nat}
    (hl : links mem h q rest = true) : (q ≠ h) = ((!rest.isEmpty) = true) := by
  cases rest with
  | nil => simp [links_nil hl]
  | cons c rest =>
    obtain ⟨a, b, _⟩ := links_cons hl
    simp [a, b]

theorem no_container_cons {mem : memory} {c : Nat} {rest : List Nat}
    (h : no_container mem (c :: rest) = true) {node : ngx_json_s} (hc : mem.load c = some node) :
    is_container node.type = false ∧ no_container mem rest = true := by
  simpa [no_container, hc] using h

theorem leaves_cons {mem : memory} {c : Nat} {rest : List Nat} {node : ngx_json_s}
    (hc : mem.load c = some node) : leaves mem (c :: rest) = node.leaf :: leaves mem rest := by
  simp [leaves, hc]

theorem not_container {type : Int} (h : is_container type = false) :
    type ≠ NGX_JSON_ARRAY ∧ type ≠ NGX_JSON_OBJECT := by
  simpa [is_container] using h

/-- On a node that is no Array and no Object the call on the node in memory is the call
on the node as a value without children. -/
theorem value_leaf (cs fmt : Bool) (mem : memory) (fuel item : Nat) (node : ngx_json_s)
    (st : PState) (h : mem.load item = some node) (hc : is_container node.type = false) :
    Mem.json_print_type_value cs fmt mem (fuel + 1) item st =
      .done (json_print_type_value cs fmt node.leaf st) := by
  obtain ⟨ha, ho⟩ := not_container hc
  simp only [Mem.json_print_type_value, h, ngx_json_s.leaf, json_print_type_value, ha, ho,
    ↓reduceIte]
  split_ifs <;> rfl

theorem array_loop_succ (cs fmt : Bool) (mem : memory) (fuel sentinel q : Nat) (st : PState) :
    Mem.json_print_type_array_loop cs fmt mem (fuel + 1) sentinel q st =
      if q = sentinel then .done (NGX_OK, st)
      else
        (Mem.json_print_type_value cs fmt mem fuel q st).and_then fun st =>
        match mem.load q with
        | none => .fault
        | some node =>
          (outcome.done
            (if node.list.next ≠ sentinel then
              and_then (ngx_buf_append_char 44 st) fun st =>
              if fmt then ngx_buf_append_char 32 st else (NGX_OK, st)
            else (NGX_OK, st))).and_then fun st =>
          Mem.json_print_type_array_loop cs fmt mem fuel sentinel node.list.next st := by
  rw [Mem.json_print_type_array_loop]

theorem object_loop_succ (cs fmt : Bool) (mem : memory) (fuel sentinel q : Nat) (st : PState) :
    Mem.json_print_type_object_loop cs fmt mem (fuel + 1) sentinel q st =
      if q = sentinel then .done (NGX_OK, st)
      else
        match mem.load q with
        | none => .fault
        | some node =>
          (outcome.done
            (if fmt then append_tabs st.depth.toNat st else (NGX_OK, st))).and_then fun st =>
          (outcome.done (json_print_string cs fmt node.key st)).and_then fun st =>
          (outcome.done (ngx_buf_append_char 58 st)).and_then fun st =>
          (outcome.done (if fmt then ngx_buf_append_char 9 st else (NGX_OK, st))).and_then
            fun st =>
          (Mem.json_print_type_value cs fmt mem fuel q st).and_then fun st =>
          (outcome.done
            (if node.list.next ≠ sentinel then ngx_buf_append_char 44 st
             else (NGX_OK, st))).and_then fun st =>
          (outcome.done (if fmt then ngx_buf_append_char 10 st else (NGX_OK, st))).and_then
            fun st =>
          Mem.json_print_type_object_loop cs fmt mem fuel sentinel node.list.next st := by
  rw [Mem.json_print_type_object_loop]

theorem leaves_isEmpty {mem : memory} {h q : Nat} {rest : List Nat}
    (hl : links mem h q rest = true) : (leaves mem rest).isEmpty = rest.isEmpty := by
  cases rest with
  | nil => rfl
  | cons c rest =>
    obtain ⟨_, _, node, hc, _⟩ := links_cons hl
    simp [leaves_cons hc]

theorem array_loop_leaves (cs fmt : Bool) (mem : memory) (h : Nat) :
    ∀ (members : List Nat) (fuel q : Nat) (st : PState),
      links mem h q members = true → no_container mem members = true →
      members.length < fuel →
      Mem.json_print_type_array_loop cs fmt mem fuel h q st =
        .done (json_print_type_array_loop cs fmt (leaves mem members) st)
  | [], fuel + 1, q, st, hl, _, _ => by
    simp [array_loop_succ, links_nil hl, leaves, json_print_type_array_loop]
  | c :: rest, fuel + 2, q, st, hl, hn, hf => by
    obtain ⟨hq, hne, node, hc, hr⟩ := links_cons hl
    obtain ⟨hk, hn1⟩ := no_container_cons hn hc
    subst hq
    rw [array_loop_succ, if_neg hne, leaves_cons hc, json_print_type_array_loop,
      value_leaf cs fmt mem fuel q node st hc hk]
    refine done_and_then fun st1 => ?_
    simp only [hc, links_next_ne hr, leaves_isEmpty hr]
    refine done_and_then fun st2 => ?_
    exact array_loop_leaves cs fmt mem h rest (fuel + 1) _ st2 hr hn1
      (by simp only [List.length_cons] at hf; omega)

theorem object_loop_leaves (cs fmt : Bool) (mem : memory) (h : Nat) :
    ∀ (members : List Nat) (fuel q : Nat) (st : PState),
      links mem h q members = true → no_container mem members = true →
      members.length < fuel →
      Mem.json_print_type_object_loop cs fmt mem fuel h q st =
        .done (json_print_type_object_loop cs fmt (leaves mem members) st)
  | [], fuel + 1, q, st, hl, _, _ => by
    simp [object_loop_succ, links_nil hl, leaves, json_print_type_object_loop]
  | c :: rest, fuel + 2, q, st, hl, hn, hf => by
    obtain ⟨hq, hne, node, hc, hr⟩ := links_cons hl
    obtain ⟨hk, hn1⟩ := no_container_cons hn hc
    subst hq
    rw [object_loop_succ, if_neg hne, leaves_cons hc, json_print_type_object_loop]
    simp only [hc]
    refine done_and_then fun st1 => ?_
    refine done_and_then fun st2 => ?_
    refine done_and_then fun st3 => ?_
    refine done_and_then fun st4 => ?_
    rw [value_leaf cs fmt mem fuel q node st4 hc hk]
    refine done_and_then fun st5 => ?_
    simp only [links_next_ne hr, leaves_isEmpty hr]
    refine done_and_then fun st6 => ?_
    refine done_and_then fun st7 => ?_
    exact object_loop_leaves cs fmt mem h rest (fuel + 1) _ st7 hr hn1
      (by simp only [List.length_cons] at hf; omega)

theorem flat_queue_container {mem : memory} {item : Nat} {node : ngx_json_s}
    {members : List Nat} (h : flat_queue mem item node members = true)
    (hc : node.type = NGX_JSON_ARRAY ∨ node.type = NGX_JSON_OBJECT) :
    links mem item node.list.next members = true ∧ no_container mem members = true := by
  have : is_container node.type = true := by
    rcases hc with hc | hc <;> simp [is_container, hc]
  simpa [flat_queue, this] using h

/-- The call on a node in memory whose queue holds no Array and no Object is the call on
the node as a value with the nodes of its queue for children. -/
theorem print_queue_value (cs fmt : Bool) (mem : memory) (fuel item : Nat) (node : ngx_json_s)
    (members : List Nat) (st : PState) (h : mem.load item = some node)
    (hq : flat_queue mem item node members = true) (hf : members.length + 1 < fuel) :
    Mem.json_print_type_value cs fmt mem fuel item st =
      .done (json_print_type_value cs fmt (queue_value mem node members) st) := by
  obtain ⟨fuel, rfl⟩ : ∃ f, fuel = f + 1 := ⟨fuel - 1, by omega⟩
  simp only [Mem.json_print_type_value, h, queue_value, json_print_type_value]
  split_ifs with h1 h2 h3 h4 h5 h6 h7
  · rfl
  · rfl
  · rfl
  · rfl
  · rfl
  · obtain ⟨hl, hn⟩ := flat_queue_container hq (Or.inl h6)
    exact array_body_done
      (fun st1 => array_loop_leaves cs fmt mem item members fuel _ st1 hl hn (by omega)) st
  · obtain ⟨hl, hn⟩ := flat_queue_container hq (Or.inr h7)
    exact object_body_done fmt
      (fun st1 => object_loop_leaves cs fmt mem item members fuel _ st1 hl hn (by omega)) st
  · rfl

theorem json_print_queue_value (cs fmt : Bool) (pool : ngx_pool_t) (mem : memory)
    (fuel item : Nat) (node : ngx_json_s) (members : List Nat) (h : mem.load item = some node)
    (hq : flat_queue mem item node members = true) (hf : members.length + 1 < fuel) :
    Mem.json_print cs pool fmt mem fuel item =
      .done (json_print cs pool fmt (queue_value mem node members)) := by
  simp only [Mem.json_print, json_print]
  rcases hc : ngx_create_temp_buf pool 256 with ⟨_ | buf, pool1⟩
  · rfl
  · simp only [print_queue_value cs fmt mem fuel item node members _ h hq hf]
    split_ifs <;> rfl

theorem leaf_printable (node : ngx_json_s) (h : is_container node.type = false) :
    node.leaf.printable = is_kind node.type := by
  obtain ⟨ha, ho⟩ := not_container h
  simp [ngx_json_s.leaf, ngx_json_t.printable, all_printable, ha, ho]

theorem all_printable_leaves (mem : memory) :
    ∀ members : List Nat, no_container mem members = true →
      (all_printable (leaves mem members) = true ↔
        ∀ c ∈ members, ∀ cn, mem.load c = some cn → is_kind cn.type = true)
  | [], _ => by simp [leaves, all_printable]
  | c :: rest, hn => by
    cases hc : mem.load c with
    | none => simp [no_container, hc] at hn
    | some node =>
      obtain ⟨hk, hn1⟩ := no_container_cons hn hc
      rw [leaves_cons hc]
      simp only [all_printable, Bool.and_eq_true, leaf_printable node hk,
        all_printable_leaves mem rest hn1, List.mem_cons, forall_eq_or_imp, hc,
        Option.some.injEq, forall_eq']

/-- On a node with its queue, the tags tell whether the value is one of the data model. -/
theorem queue_value_printable (mem : memory) (item : Nat) (node : ngx_json_s)
    (members : List Nat) (hq : flat_queue mem item node members = true) :
    (queue_value mem node members).printable = true ↔
      (is_kind node.type = true ∧
        ∀ c ∈ members, ∀ cn, mem.load c = some cn → is_kind cn.type = true) := by
  by_cases hc : is_container node.type = true
  · have hq1 : links mem item node.list.next members = true ∧
        no_container mem members = true := by
      simpa [flat_queue, hc] using hq
    have hc1 : ¬ (node.type ≠ NGX_JSON_ARRAY ∧ node.type ≠ NGX_JSON_OBJECT) := by
      rcases (by simpa [is_container] using hc : node.type = NGX_JSON_ARRAY ∨
        node.type = NGX_JSON_OBJECT) with e | e <;> simp [e]
    simp only [queue_value, ngx_json_t.printable, Bool.and_eq_true, Bool.or_eq_true,
      bne_iff_ne, ne_eq, all_printable_leaves mem members hq1.2]
    constructor
    · rintro ⟨a, b | b⟩
      · exact absurd b hc1
      · exact ⟨a, b⟩
    · rintro ⟨a, b⟩
      exact ⟨a, Or.inr b⟩
  · have hc0 : is_container node.type = false := by simpa using hc
    have hm : members = [] := by simpa [flat_queue, hc0] using hq
    obtain ⟨ha, ho⟩ := not_container hc0
    subst hm
    simp [queue_value, leaves, ngx_json_t.printable, all_printable, ha, ho]

/-! ### The depth counter of calls on nodes in memory -/

theorem movesM_done {delta : Int} {f : PState → Int × PState} (h : Moves delta f) :
    MovesM delta (fun st => .done (f st)) := by
  intro st r hr hok
  cases hr
  exact h st hok

theorem movesM_ok : MovesM 0 (fun st => .done (NGX_OK, st)) :=
  movesM_done moves_ok

theorem movesM_halt (delta : Int) (r : outcome (Int × PState)) (h : ∀ a, r ≠ .done a) :
    MovesM delta (fun _ => r) :=
  fun _ a hr _ => absurd hr (h a)

theorem movesM_and_then {a b : Int} {f k : PState → outcome (Int × PState)}
    (hf : MovesM a f) (hk : MovesM b k) : MovesM (a + b) (fun st => (f st).and_then k) := by
  intro st r hr hok
  dsimp only at hr
  cases hfs : f st with
  | done r1 =>
    rw [hfs] at hr
    simp only [outcome.and_then] at hr
    split_ifs at hr with hne
    · cases hr
      simp [NGX_OK, NGX_ERROR] at hok
    · rw [hk _ r hr hok, hf st r1 hfs (not_not.mp hne)]
      ring
  | fault => rw [hfs] at hr; simp [outcome.and_then] at hr
  | out_of_fuel => rw [hfs] at hr; simp [outcome.and_then] at hr

theorem movesM_seq {f k : PState → outcome (Int × PState)} (hf : MovesM 0 f)
    (hk : MovesM 0 k) : MovesM 0 (fun st => (f st).and_then k) := by
  simpa using movesM_and_then hf hk

theorem movesM_ite (c : Prop) [Decidable c] {delta : Int}
    {f g : PState → outcome (Int × PState)} (hf : MovesM delta f) (hg : MovesM delta g) :
    MovesM delta (fun st => if c then f st else g st) := by
  by_cases h : c
  · simpa [h] using hf
  · simpa [h] using hg

theorem movesM_enter {f : PState → outcome (Int × PState)} (hf : MovesM (-1) f) :
    MovesM 0 (fun st => f { st with depth := st.depth + 1 }) := by
  intro st r hr hok
  have := hf _ r hr hok
  simp only at this
  rw [this]
  ring

theorem movesM_array_body {elems : PState → outcome (Int × PState)} (h : MovesM 0 elems) :
    MovesM 0 (Mem.array_body elems) := by
  show MovesM 0 (fun st => Mem.array_body elems st)
  simp only [Mem.array_body]
  refine movesM_enter (f := fun st => (outcome.done (ngx_buf_append_char 91 st)).and_then _) ?_
  have := movesM_and_then (movesM_done (moves_append_char 91))
    (movesM_and_then h (movesM_and_then (movesM_done (moves_append_char 93))
      (movesM_done moves_leave)))
  simpa using this

theorem movesM_object_body (fmt : Bool) {members : PState → outcome (Int × PState)}
    (h : MovesM 0 members) : MovesM 0 (Mem.object_body fmt members) := by
  show MovesM 0 (fun st => Mem.object_body fmt members st)
  simp only [Mem.object_body]
  refine movesM_enter (f := fun st => (outcome.done (ngx_buf_append_char 123 st)).and_then _) ?_
  have := movesM_and_then (movesM_done (moves_append_char 123))
    (movesM_and_then (movesM_done (moves_ite (fmt = true) (moves_append_char 10) moves_ok))
      (movesM_and_then h
        (movesM_and_then
          (movesM_done (moves_ite (fmt = true)
            (moves_of_depth (F := fun d st => append_tabs (d - 1).toNat st)
              (fun _ => moves_tabs _)) moves_ok))
          (movesM_and_then (movesM_done (moves_append_char 125)) (movesM_done moves_leave)))))
  simpa using this

theorem mem_number_eq (fmt : Bool) (node : ngx_json_s) :
    Mem.json_print_type_number fmt node = json_print_type_number fmt node.leaf := rfl

theorem mem_string_eq (cs fmt : Bool) (node : ngx_json_s) :
    Mem.json_print_type_string cs fmt node = json_print_type_string cs fmt node.leaf := rfl

mutual
theorem movesM_value (cs fmt : Bool) (mem : memory) :
    ∀ fuel item, MovesM 0 (Mem.json_print_type_value cs fmt mem fuel item)
  | 0, _ => fun st r hr => by simp [Mem.json_print_type_value] at hr
  | fuel + 1, item => by
    show MovesM 0 (fun st => Mem.json_print_type_value cs fmt mem (fuel + 1) item st)
    simp only [Mem.json_print_type_value]
    cases mem.load item with
    | none => exact movesM_halt 0 .fault (fun _ h => by cases h)
    | some node =>
      dsimp only
      refine movesM_ite _ (movesM_done (moves_seq (moves_append_str _) moves_ok)) ?_
      refine movesM_ite _ (movesM_done (moves_seq (moves_append_str _) moves_ok)) ?_
      refine movesM_ite _ (movesM_done (moves_seq (moves_append_str _)
        (mem_number_eq fmt node ▸ moves_number fmt node.leaf))) ?_
      refine movesM_ite _ (movesM_done (mem_number_eq fmt node ▸ moves_number fmt node.leaf)) ?_
      refine movesM_ite _ (movesM_done (moves_string cs fmt node.valuestring)) ?_
      refine movesM_ite _ (movesM_array_body (movesM_array_loop cs fmt mem fuel item _)) ?_
      exact movesM_ite _ (movesM_object_body fmt (movesM_object_loop cs fmt mem fuel item _))
        (movesM_done (moves_error 0))
theorem movesM_array_loop (cs fmt : Bool) (mem : memory) :
    ∀ fuel sentinel q, MovesM 0 (Mem.json_print_type_array_loop cs fmt mem fuel sentinel q)
  | 0, _, _ => fun st r hr => by simp [Mem.json_print_type_array_loop] at hr
  | fuel + 1, sentinel, q => by
    show MovesM 0 (fun st => Mem.json_print_type_array_loop cs fmt mem (fuel + 1) sentinel q st)
    simp only [array_loop_succ]
    refine movesM_ite _ movesM_ok ?_
    refine movesM_seq (movesM_value cs fmt mem fuel q) ?_
    cases mem.load q with
    | none => exact movesM_halt 0 .fault (fun _ h => by cases h)
    | some node =>
      dsimp only
      exact movesM_seq (movesM_done (moves_ite _ (moves_seq (moves_append_char _)
        (moves_ite _ (moves_append_char _) moves_ok)) moves_ok))
        (movesM_array_loop cs fmt mem fuel sentinel _)
theorem movesM_object_loop (cs fmt : Bool) (mem : memory) :
    ∀ fuel sentinel q, MovesM 0 (Mem.json_print_type_object_loop cs fmt mem fuel sentinel q)
  | 0, _, _ => fun st r hr => by simp [Mem.json_print_type_object_loop] at hr
  | fuel + 1, sentinel, q => by
    show MovesM 0 (fun st => Mem.json_print_type_object_loop cs fmt mem (fuel + 1) sentinel q st)
    simp only [object_loop_succ]
    refine movesM_ite _ movesM_ok ?_
    cases mem.load q with
    | none => exact movesM_halt 0 .fault (fun _ h => by cases h)
    | some node =>
      dsimp only
      refine movesM_seq (movesM_done (moves_ite _
        (moves_of_depth (F := fun d st => append_tabs d.toNat st) (fun _ => moves_tabs _))
        moves_ok)) ?_
      refine movesM_seq (movesM_done (moves_string _ _ _)) ?_
      refine movesM_seq (movesM_done (moves_append_char _)) ?_
      refine movesM_seq (movesM_done (moves_ite _ (moves_append_char _) moves_ok)) ?_
      refine movesM_seq (movesM_value cs fmt mem fuel q) ?_
      refine movesM_seq (movesM_done (moves_ite _ (moves_append_char _) moves_ok)) ?_
      exact movesM_seq (movesM_done (moves_ite _ (moves_append_char _) moves_ok))
        (movesM_object_loop cs fmt mem fuel sentinel _)
end

/-! ### The serializer is its sequence of steps -/

theorem append_string_rc (s : List Nat) (st : PState) :
    (ngx_buf_append_string s st).1 = NGX_OK ∨ (ngx_buf_append_string s st).1 = NGX_ERROR := by
  unfold ngx_buf_append_string
  dsimp only
  split_ifs <;> simp

theorem outcome_and_then_assoc (r : outcome (Int × PState))
    (k1 k2 : PState → outcome (Int × PState)) :
    (r.and_then k1).and_then k2 = r.and_then (fun st => (k1 st).and_then k2) := by
  cases r with
  | done a =>
    by_cases h : a.1 ≠ NGX_OK
    · simp [outcome.and_then, h]
    · simp [outcome.and_then, h]
  | fault => rfl
  | out_of_fuel => rfl

theorem run_steps_append : ∀ (l1 l2 : List Step) (st : PState),
    run_steps (l1 ++ l2) st = (run_steps l1 st).and_then (run_steps l2)
  | [], l2, st => by simp [run_steps, outcome.and_then]
  | s :: rest, l2, st => by
    simp only [List.cons_append, run_steps, outcome_and_then_assoc]
    congr 1
    funext st1
    exact run_steps_append rest l2 st1

theorem flat_append_string (d : Int) (s : List Nat) :
    Flat d (fun st => .done (ngx_buf_append_string s st)) [.app s] := by
  intro st _
  simp only [run_steps, run_step, outcome.and_then]
  rcases append_string_rc s st with h | h
  · rw [if_neg (by rw [h]; decide), ← h]
  · rw [if_pos (by rw [h]; decide), ← h]

theorem flat_append_str (d : Int) (s : ngx_str_t) :
    Flat d (fun st => .done (ngx_buf_append_str s st)) [.app s] :=
  flat_append_string d s

theorem flat_append_char (d : Int) (c : Nat) :
    Flat d (fun st => .done (ngx_buf_append_char c st)) [.app [c]] :=
  flat_append_string d [c]

theorem flat_ok (d : Int) : Flat d (fun st => .done (NGX_OK, st)) [] :=
  fun _ _ => rfl

theorem flat_error (d : Int) : Flat d (fun st => .done (NGX_ERROR, st)) [.bad] :=
  fun _ _ => by simp [run_steps, run_step, outcome.and_then]

theorem flat_fault (d : Int) : Flat d (fun _ => .fault) [.fault] :=
  fun _ _ => rfl

theorem flat_out_of_fuel (d : Int) : Flat d (fun _ => .out_of_fuel) [.out_of_fuel] :=
  fun _ _ => rfl

theorem flat_and_then {d delta : Int} {f k : PState → outcome (Int × PState)}
    {l1 l2 : List Step} (hf : Flat d f l1) (hm : MovesM delta f) (hk : Flat (d + delta) k l2) :
    Flat d (fun st => (f st).and_then k) (l1 ++ l2) := by
  intro st hd
  show (f st).and_then k = run_steps (l1 ++ l2) st
  rw [run_steps_append, ← hf st hd]
  cases hfs : f st with
  | done r =>
    simp only [outcome.and_then]
    split_ifs with h
    · rfl
    · exact hk _ (by rw [hm st r hfs (not_not.mp h), hd])
  | fault => rfl
  | out_of_fuel => rfl

theorem flat_seq {d : Int} {f k : PState → outcome (Int × PState)} {l1 l2 : List Step}
    (hf : Flat d f l1) (hm : MovesM 0 f) (hk : Flat d k l2) :
    Flat d (fun st => (f st).and_then k) (l1 ++ l2) :=
  flat_and_then hf hm (by simpa using hk)

/-- The same for a call that touches no node: `and_then` inside `done`. -/
theorem flat_seq_done {d : Int} {f k : PState → Int × PState} {l1 l2 : List Step}
    (hf : Flat d (fun st => .done (f st)) l1) (hm : Moves 0 f)
    (hk : Flat d (fun st => .done (k st)) l2) :
    Flat d (fun st => .done (and_then (f st) k)) (l1 ++ l2) := by
  have := flat_seq hf (movesM_done hm) hk
  intro st hd
  rw [← this st hd]
  exact (done_and_then fun _ => rfl).symm

theorem Flat.steps_eq {d : Int} {f : PState → outcome (Int × PState)} {l l1 : List Step}
    (h : Flat d f l) (e : l = l1) : Flat d f l1 := e ▸ h

theorem flat_ite (c : Prop) [Decidable c] {d : Int} {f g : PState → outcome (Int × PState)}
    {l1 l2 : List Step} (hf : Flat d f l1) (hg : Flat d g l2) :
    Flat d (fun st => if c then f st else g st) (if c then l1 else l2) := by
  by_cases h : c
  · simpa [h] using hf
  · simpa [h] using hg

theorem flat_ite_done (c : Prop) [Decidable c] {d : Int} {f g : PState → Int × PState}
    {l1 l2 : List Step} (hf : Flat d (fun st => .done (f st)) l1)
    (hg : Flat d (fun st => .done (g st)) l2) :
    Flat d (fun st => .done (if c then f st else g st)) (if c then l1 else l2) := by
  by_cases h : c
  · simpa [h] using hf
  · simpa [h] using hg

theorem flat_of_depth {d : Int} {F : Int → PState → outcome (Int × PState)} {l : List Step}
    (h : Flat d (F d) l) : Flat d (fun st => F st.depth st) l := by
  intro st hd
  have := h st hd
  rw [← hd] at this
  exact this

theorem flat_enter {d : Int} {f : PState → outcome (Int × PState)} {l : List Step}
    (h : Flat (d + 1) f l) :
    Flat d (fun st => f { st with depth := st.depth + 1 }) (.enter :: l) := by
  intro st hd
  have := h { st with depth := st.depth + 1 } (by simp [hd])
  simp only [run_steps, run_step, outcome.and_then]
  simpa using this

theorem flat_leave (d : Int) :
    Flat d (fun st => .done (NGX_OK, { st with depth := st.depth - 1 })) [.leave] :=
  fun _ _ => by simp [run_steps, run_step, outcome.and_then]

theorem flat_tabs (d : Int) : ∀ n, Flat d (fun st => .done (append_tabs n st)) (tab_steps n)
  | 0 => flat_ok d
  | n + 1 => by
    simp only [append_tabs]
    exact flat_seq_done (flat_append_char d 9) (moves_append_char 9) (flat_tabs d n)

theorem flat_string_loop (d : Int) (cs : Bool) :
    ∀ s, Flat d (fun st => .done (json_print_string_loop cs s st)) (string_loop_steps cs s)
  | [] => flat_ok d
  | b :: rest => by
    simp only [json_print_string_loop, string_loop_steps, byte_steps]
    split_ifs with h1 h2
    · exact flat_seq_done (flat_append_char d _) (moves_append_char _)
        (flat_string_loop d cs rest)
    · exact (flat_seq_done (flat_append_char d 92) (moves_append_char _)
        (flat_seq_done (flat_append_char d _) (moves_append_char _)
          (flat_string_loop d cs rest))).steps_eq (by simp)
    · exact (flat_seq_done (flat_append_char d 92) (moves_append_char _)
        (flat_seq_done (flat_append_str d _) (moves_append_str _)
          (flat_string_loop d cs rest))).steps_eq (by simp)

theorem flat_string (d : Int) (cs fmt : Bool) (s : ngx_str_t) :
    Flat d (fun st => .done (json_print_string cs fmt s st)) (string_steps cs s) := by
  simp only [json_print_string, string_steps]
  split_ifs with h
  · exact flat_seq_done (flat_append_str d _) (moves_append_str _) (flat_ok d)
  · exact (flat_seq_done (flat_append_char d 34) (moves_append_char _)
      (flat_seq_done (flat_string_loop d cs s) (moves_string_loop cs s)
        (flat_seq_done (flat_append_char d 34) (moves_append_char _) (flat_ok d)))).steps_eq
      (by simp)

theorem flat_number (d : Int) (fmt : Bool) (node : ngx_json_s) :
    Flat d (fun st => .done (Mem.json_print_type_number fmt node st))
      (number_steps node.valuedouble) := by
  simp only [Mem.json_print_type_number, number_steps]
  split_ifs with h
  · exact flat_seq_done (flat_append_str d _) (moves_append_str _) (flat_ok d)
  · exact flat_seq_done (flat_append_str d _) (moves_append_str _) (flat_ok d)

theorem flat_array_body {d : Int} {elems : PState → outcome (Int × PState)} {l : List Step}
    (h : Flat (d + 1) elems l) (hm : MovesM 0 elems) :
    Flat d (Mem.array_body elems) ([.enter, .app [91]] ++ (l ++ [.app [93], .leave])) := by
  show Flat d (fun st => Mem.array_body elems st) _
  simp only [Mem.array_body]
  refine flat_enter (f := fun st => (outcome.done (ngx_buf_append_char 91 st)).and_then _) ?_
  exact (flat_seq (flat_append_char _ 91) (movesM_done (moves_append_char _))
    (flat_seq h hm (flat_seq (flat_append_char _ 93) (movesM_done (moves_append_char _))
      (flat_leave _)))).steps_eq (by simp)

theorem flat_object_body {d : Int} (fmt : Bool) {members : PState → outcome (Int × PState)}
    {l : List Step} (h : Flat (d + 1) members l) (hm : MovesM 0 members) :
    Flat d (Mem.object_body fmt members)
      ([.enter, .app [123]] ++ ((if fmt then [.app [10]] else []) ++
        (l ++ ((if fmt then tab_steps d.toNat else []) ++ [.app [125], .leave])))) := by
  show Flat d (fun st => Mem.object_body fmt members st) _
  simp only [Mem.object_body]
  refine flat_enter (f := fun st => (outcome.done (ngx_buf_append_char 123 st)).and_then _) ?_
  have ht : Flat (d + 1) (fun st => .done (append_tabs (st.depth - 1).toNat st))
      (tab_steps d.toNat) := by
    refine flat_of_depth (F := fun d st => .done (append_tabs (d - 1).toNat st)) ?_
    show Flat (d + 1) (fun st => .done (append_tabs (d + 1 - 1).toNat st)) _
    rw [add_sub_cancel_right]
    exact flat_tabs _ _
  exact (flat_seq (flat_append_char _ 123) (movesM_done (moves_append_char _))
    (flat_seq (flat_ite_done _ (flat_append_char _ 10) (flat_ok _))
      (movesM_done (moves_ite _ (moves_append_char _) moves_ok))
      (flat_seq h hm
        (flat_seq (flat_ite_done _ ht (flat_ok _))
          (movesM_done (moves_ite _ (moves_of_depth (F := fun d st => append_tabs (d - 1).toNat st)
            (fun _ => moves_tabs _)) moves_ok))
          (flat_seq (flat_append_char _ 125) (movesM_done (moves_append_char _))
            (flat_leave _)))))).steps_eq (by simp)

mutual
theorem flat_value (cs fmt : Bool) (mem : memory) :
    ∀ fuel d item, Flat d (Mem.json_print_type_value cs fmt mem fuel item)
      (value_steps cs fmt mem fuel d item)
  | 0, d, _ => fun st _ => by simp [Mem.json_print_type_value, value_steps, run_steps, run_step,
      outcome.and_then]
  | fuel + 1, d, item => by
    show Flat d (fun st => Mem.json_print_type_value cs fmt mem (fuel + 1) item st) _
    simp only [Mem.json_print_type_value, value_steps]
    cases mem.load item with
    | none => exact flat_fault d
    | some node =>
      dsimp only
      refine flat_ite _ ((flat_seq_done (flat_append_str d _) (moves_append_str _)
        (flat_ok d)).steps_eq (by simp)) ?_
      refine flat_ite _ ((flat_seq_done (flat_append_str d _) (moves_append_str _)
        (flat_ok d)).steps_eq (by simp)) ?_
      refine flat_ite _ (flat_seq_done (flat_append_str d _) (moves_append_str _)
        (flat_number d fmt _)) ?_
      refine flat_ite _ (flat_number d fmt _) ?_
      refine flat_ite _ (flat_string d cs fmt node.valuestring) ?_
      refine flat_ite _ (flat_array_body (flat_array_loop cs fmt mem fuel (d + 1) item _)
        (movesM_array_loop cs fmt mem fuel item _)) ?_
      exact flat_ite _ (flat_object_body fmt (flat_object_loop cs fmt mem fuel (d + 1) item _)
        (movesM_object_loop cs fmt mem fuel item _)) (flat_error d)
theorem flat_array_loop (cs fmt : Bool) (mem : memory) :
    ∀ fuel d sentinel q, Flat d (Mem.json_print_type_array_loop cs fmt mem fuel sentinel q)
      (array_steps cs fmt mem fuel d sentinel q)
  | 0, d, _, _ => fun st _ => by simp [Mem.json_print_type_array_loop, array_steps, run_steps,
      run_step, outcome.and_then]
  | fuel + 1, d, sentinel, q => by
    show Flat d (fun st => Mem.json_print_type_array_loop cs fmt mem (fuel + 1) sentinel q st) _
    simp only [array_loop_succ, array_steps]
    refine flat_ite _ (flat_ok d) ?_
    refine flat_seq (flat_value cs fmt mem fuel d q) (movesM_value cs fmt mem fuel q) ?_
    cases mem.load q with
    | none => exact flat_fault d
    | some node =>
      dsimp only
      refine flat_seq ?_ ?_ (flat_array_loop cs fmt mem fuel d sentinel _)
      · exact flat_ite_done _ (flat_seq_done (flat_append_char d 44) (moves_append_char _)
          (flat_ite_done _ (flat_append_char d 32) (flat_ok d))) (flat_ok d)
      · exact movesM_done (moves_ite _ (moves_seq (moves_append_char _)
          (moves_ite _ (moves_append_char _) moves_ok)) moves_ok)
theorem flat_object_loop (cs fmt : Bool) (mem : memory) :
    ∀ fuel d sentinel q, Flat d (Mem.json_print_type_object_loop cs fmt mem fuel sentinel q)
      (object_steps cs fmt mem fuel d sentinel q)
  | 0, d, _, _ => fun st _ => by simp [Mem.json_print_type_object_loop, object_steps, run_steps,
      run_step, outcome.and_then]
  | fuel + 1, d, sentinel, q => by
    show Flat d (fun st => Mem.json_print_type_object_loop cs fmt mem (fuel + 1) sentinel q st) _
    simp only [object_loop_succ, object_steps]
    refine flat_ite _ (flat_ok d) ?_
    cases mem.load q with
    | none => exact flat_fault d
    | some node =>
      dsimp only
      refine flat_seq ?_ ?_ ?_
      · exact flat_ite_done _
          (flat_of_depth (F := fun d st => .done (append_tabs d.toNat st)) (flat_tabs _ _))
          (flat_ok d)
      · exact movesM_done (moves_ite _ (moves_of_depth (F := fun d st => append_tabs d.toNat st)
          (fun _ => moves_tabs _)) moves_ok)
      refine flat_seq (flat_string d cs fmt _) (movesM_done (moves_string _ _ _)) ?_
      refine flat_seq (flat_append_char d 58) (movesM_done (moves_append_char _)) ?_
      refine flat_seq (flat_ite_done _ (flat_append_char d 9) (flat_ok d))
        (movesM_done (moves_ite _ (moves_append_char _) moves_ok)) ?_
      refine flat_seq (flat_value cs fmt mem fuel d q) (movesM_value cs fmt mem fuel q) ?_
      refine flat_seq (flat_ite_done _ (flat_append_char d 44) (flat_ok d))
        (movesM_done (moves_ite _ (moves_append_char _) moves_ok)) ?_
      exact flat_seq (flat_ite_done _ (flat_append_char d 10) (flat_ok d))
        (movesM_done (moves_ite _ (moves_append_char _) moves_ok))
        (flat_object_loop cs fmt mem fuel d sentinel _)
end

theorem value_eq_steps (cs fmt : Bool) (mem : memory) (fuel item : Nat) (st : PState) :
    Mem.json_print_type_value cs fmt mem fuel item st =
      run_steps (value_steps cs fmt mem fuel st.depth item) st :=
  flat_value cs fmt mem fuel st.depth item st rfl

/-! ### Runs of step sequences -/

theorem run_steps_cons_ok {s : Step} {st st1 : PState} (l : List Step)
    (h : run_step s st = .done (NGX_OK, st1)) : run_steps (s :: l) st = run_steps l st1 := by
  simp [run_steps, h, outcome.and_then]

theorem run_steps_good : ∀ (l : List Step) (st : PState), good st →
    (halts l = [] → ∃ st1, run_steps l st = .done (NGX_OK, st1) ∧ good st1 ∧
      st1.content = st.content ++ steps_text l) ∧
    (∀ rest, halts l = .bad :: rest → ∃ st1, run_steps l st = .done (NGX_ERROR, st1)) ∧
    (∀ rest, halts l = .fault :: rest → run_steps l st = .fault) ∧
    (∀ rest, halts l = .out_of_fuel :: rest → run_steps l st = .out_of_fuel)
  | [], st, h => ⟨fun _ => ⟨st, rfl, h, by simp [steps_text]⟩, fun _ hh => by simp [halts] at hh,
      fun _ hh => by simp [halts] at hh, fun _ hh => by simp [halts] at hh⟩
  | .app s :: l, st, h => by
    obtain ⟨a, b, e, _⟩ := append_string_good s st h
    have hr : run_steps (.app s :: l) st = run_steps l (ngx_buf_append_string s st).2 :=
      run_steps_cons_ok l (by rw [run_step, ← a])
    have hh : halts (.app s :: l) = halts l := rfl
    rw [hr, hh]
    obtain ⟨i1, i2, i3, i4⟩ := run_steps_good l _ b
    refine ⟨fun h0 => ?_, i2, i3, i4⟩
    obtain ⟨st1, e1, g1, c1⟩ := i1 h0
    exact ⟨st1, e1, g1, by rw [c1, e, steps_text, List.append_assoc]⟩
  | .enter :: l, st, h => by
    have hg : good { st with depth := st.depth + 1 } := h
    have hr : run_steps (.enter :: l) st = run_steps l { st with depth := st.depth + 1 } :=
      run_steps_cons_ok l rfl
    have hh : halts (.enter :: l) = halts l := rfl
    rw [hr, hh]
    obtain ⟨i1, i2, i3, i4⟩ := run_steps_good l _ hg
    refine ⟨fun h0 => ?_, i2, i3, i4⟩
    obtain ⟨st1, e1, g1, c1⟩ := i1 h0
    exact ⟨st1, e1, g1, by rw [c1]; simp [steps_text, content_eq]⟩
  | .leave :: l, st, h => by
    have hg : good { st with depth := st.depth - 1 } := h
    have hr : run_steps (.leave :: l) st = run_steps l { st with depth := st.depth - 1 } :=
      run_steps_cons_ok l rfl
    have hh : halts (.leave :: l) = halts l := rfl
    rw [hr, hh]
    obtain ⟨i1, i2, i3, i4⟩ := run_steps_good l _ hg
    refine ⟨fun h0 => ?_, i2, i3, i4⟩
    obtain ⟨st1, e1, g1, c1⟩ := i1 h0
    exact ⟨st1, e1, g1, by rw [c1]; simp [steps_text, content_eq]⟩
  | .bad :: l, st, _ => by
    have hh : halts (.bad :: l) = .bad :: halts l := rfl
    rw [hh]
    refine ⟨fun h0 => by simp at h0, fun _ _ => ⟨st, ?_⟩, fun _ h0 => by simp at h0,
      fun _ h0 => by simp at h0⟩
    simp [run_steps, run_step, outcome.and_then]
  | .fault :: l, st, _ => by
    have hh : halts (.fault :: l) = .fault :: halts l := rfl
    rw [hh]
    exact ⟨fun h0 => by simp at h0, fun _ h0 => by simp at h0, fun _ _ => rfl,
      fun _ h0 => by simp at h0⟩
  | .out_of_fuel :: l, st, _ => by
    have hh : halts (.out_of_fuel :: l) = .out_of_fuel :: halts l := rfl
    rw [hh]
    exact ⟨fun h0 => by simp at h0, fun _ h0 => by simp at h0, fun _ h0 => by simp at h0,
      fun _ _ => rfl⟩

theorem halts_ne (l : List Step) : ∀ h ∈ halts l, h = .bad ∨ h = .fault ∨ h = .out_of_fuel := by
  intro h hm
  have := (List.mem_filter.mp hm).2
  cases h <;> simp [Step.halts] at this ⊢

theorem run_steps_stops (done rest : List Step) (s : List Nat) (st st1 : PState)
    (h1 : run_steps done st = .done (NGX_OK, st1))
    (h2 : (ngx_buf_append_string s st1).1 ≠ NGX_OK) :
    run_steps (done ++ .app s :: rest) st =
      .done (NGX_ERROR, (ngx_buf_append_string s st1).2) := by
  rw [run_steps_append, h1]
  simp [outcome.and_then, run_steps, run_step, h2]

theorem append_string_failed (s : List Nat) (st : PState)
    (h : (ngx_buf_append_string s st).1 ≠ NGX_OK) :
    (ngx_buf_append_string s st).2.buf = st.buf ∧
    (ngx_buf_append_string s st).2.depth = st.depth ∧
    st.pool = false :: (ngx_buf_append_string s st).2.pool := by
  revert h
  unfold ngx_buf_append_string
  dsimp only
  split_ifs with h1 h2 h3 h3 <;> intro h <;> simp at h
  · cases hp : st.pool with
    | nil => simp [hp, ngx_palloc] at h3
    | cons g later =>
      simp only [hp, ngx_palloc] at h3 ⊢
      simp [h3]
  · cases hp : st.pool with
    | nil => simp [hp, ngx_palloc] at h3
    | cons g later =>
      simp only [hp, ngx_palloc] at h3 ⊢
      simp [h3]

/-- With a pool none of whose requests fails, `json_print` is decided by the steps of the
call it makes. -/
theorem json_print_steps (cs fmt : Bool) (pool : ngx_pool_t) (mem : memory) (fuel item : Nat)
    (hpool : never_fails pool) :
    Mem.json_print cs pool fmt mem fuel item =
      print_of_steps (value_steps cs fmt mem fuel 0 item) := by
  obtain ⟨pool1, hp1, hc⟩ := create_temp_buf_good pool 256 hpool
  have hg : good { pool := pool1, buf := { pos := 0, end_ := 256, mem := [] }, depth := 0 } :=
    ⟨hp1, Nat.zero_le _⟩
  have hv := value_eq_steps cs fmt mem fuel item
    { pool := pool1, buf := { pos := 0, end_ := 256, mem := [] }, depth := 0 }
  have hm := movesM_value cs fmt mem fuel item
    { pool := pool1, buf := { pos := 0, end_ := 256, mem := [] }, depth := 0 }
  obtain ⟨i1, i2, i3, i4⟩ := run_steps_good (value_steps cs fmt mem fuel 0 item) _ hg
  simp only [Mem.json_print, hc]
  dsimp only at hv
  rw [hv] at hm ⊢
  cases hh : halts (value_steps cs fmt mem fuel 0 item) with
  | nil =>
    obtain ⟨st1, e1, g1, c1⟩ := i1 hh
    have hd := hm _ e1 rfl
    simp only [zero_add] at hd
    simp only [print_of_steps, hh, List.head?_nil, e1]
    have hcont : (ngx_buf_to_str st1.buf).2 =
        steps_text (value_steps cs fmt mem fuel 0 item) := by
      have : st1.content = (ngx_buf_to_str st1.buf).2 := rfl
      rw [← this, c1]
      simp [content_eq]
    have hrc : (ngx_buf_to_str st1.buf).1 = NGX_OK := rfl
    simp [hd, hcont, hrc, NGX_OK]
  | cons h rest =>
    rcases halts_ne _ h (by rw [hh]; exact List.mem_cons_self _ _) with rfl | rfl | rfl
    · obtain ⟨st1, e1⟩ := i2 rest hh
      simp [print_of_steps, hh, e1, NGX_OK, NGX_ERROR]
    · simp [print_of_steps, hh, i3 rest hh]
    · simp [print_of_steps, hh, i4 rest hh]

/-! ### Whitespace -/

theorem steps_text_append : ∀ (l1 l2 : List Step),
    steps_text (l1 ++ l2) = steps_text l1 ++ steps_text l2
  | [], l2 => rfl
  | .app s :: rest, l2 => by
    simp [steps_text, steps_text_append rest l2]
  | .enter :: rest, l2 => by
    simp [steps_text, steps_text_append rest l2]
  | .leave :: rest, l2 => by
    simp [steps_text, steps_text_append rest l2]
  | .bad :: rest, l2 => by
    simp [steps_text, steps_text_append rest l2]
  | .fault :: rest, l2 => by
    simp [steps_text, steps_text_append rest l2]
  | .out_of_fuel :: rest, l2 => by
    simp [steps_text, steps_text_append rest l2]

theorem steps_text_tabs : ∀ n, steps_text (tab_steps n) = List.replicate n 9
  | 0 => rfl
  | n + 1 => by
    have := steps_text_tabs n
    simp only [tab_steps] at this
    simp [tab_steps, List.replicate_succ, steps_text, this]

theorem strip_append (W : Nat → Bool) (a b : List Nat) :
    strip W (a ++ b) = strip W a ++ strip W b := by
  simp [strip]

theorem strip_free (W : Nat → Bool) (t : List Nat) (h : ∀ x ∈ t, W x = false) :
    strip W t = t := by
  simp only [strip, List.filter_eq_self]
  intro x hx
  simp [h x hx]

theorem strip_all (W : Nat → Bool) (t : List Nat) (h : ∀ x ∈ t, W x = true) :
    strip W t = [] := by
  simp only [strip, List.filter_eq_nil_iff]
  intro x hx
  simp [h x hx]

theorem mem_strip (W : Nat → Bool) (t : List Nat) (x : Nat) (h : x ∈ strip W t) :
    W x = false := by
  simp only [strip, List.mem_filter] at h
  simpa using h.2

theorem to_u_char_to_char (cs : Bool) (b : Nat) : to_u_char (to_char cs b) = b % 256 := by
  unfold to_u_char to_char
  split_ifs <;> omega

theorem hex_digit_ge (n : Nat) : 48 ≤ hex_digit n := by
  unfold hex_digit
  split_ifs <;> omega

theorem fmt_04x_ge (c : Int) (x : Nat) (h : x ∈ fmt_04x c) : 48 ≤ x := by
  unfold fmt_04x at h
  simp only [List.mem_map] at h
  obtain ⟨n, _, rfl⟩ := h
  exact hex_digit_ge n

theorem escape_ge (c : Int) (x : Nat) (h : x ∈ (snprintf 5 (117 :: fmt_04x c)).take 5) :
    x = 0 ∨ 48 ≤ x := by
  have h1 := List.mem_of_mem_take h
  simp only [snprintf, List.mem_append, List.mem_singleton] at h1
  rcases h1 with h1 | h1
  · have h2 := List.mem_of_mem_take h1
    rcases List.mem_cons.mp h2 with h2 | h2
    · exact Or.inr (by omega)
    · exact Or.inr (fmt_04x_ge c x h2)
  · exact Or.inl h1

theorem byte_steps_free (W : Nat → Bool) (h0 : W 0 = false) (hlt : ∀ b, W b = true → b < 34)
    (cs : Bool) (b : Nat) (hb : W (b % 256) = false) :
    ∀ x ∈ steps_text (byte_steps cs b), W x = false := by
  have hge : ∀ x, 34 ≤ x → W x = false := by
    intro x hx
    by_contra hw
    have := hlt x (by simpa using hw)
    omega
  intro x hx
  unfold byte_steps at hx
  dsimp only at hx
  split_ifs at hx
  · simp only [steps_text, List.append_nil, List.mem_singleton, to_u_char_to_char] at hx
    rw [hx]
    exact hb
  · simp only [steps_text, List.append_nil, List.singleton_append, List.mem_cons,
      List.mem_singleton, to_u_char_to_char, List.not_mem_nil, or_false] at hx
    rcases hx with hx | hx
    · rw [hx]
      exact hge 92 (by omega)
    · rw [hx]
      exact hb
  · simp only [steps_text, List.append_nil, List.singleton_append, List.mem_cons] at hx
    rcases hx with hx | hx
    · rw [hx]
      exact hge 92 (by omega)
    · rcases escape_ge _ x hx with h | h
      · rw [h]
        exact h0
      · exact hge x (by omega)

theorem string_loop_free (W : Nat → Bool) (h0 : W 0 = false) (hlt : ∀ b, W b = true → b < 34)
    (cs : Bool) : ∀ s, str_free W s = true →
      ∀ x ∈ steps_text (string_loop_steps cs s), W x = false
  | [], _ => by simp [string_loop_steps, steps_text]
  | b :: rest, hs => by
    simp only [str_free, List.all_cons, Bool.and_eq_true, Bool.not_eq_true'] at hs
    have hr := string_loop_free W h0 hlt cs rest (by simpa [str_free] using hs.2)
    have hb := byte_steps_free W h0 hlt cs b hs.1
    intro x hx
    rw [string_loop_steps, steps_text_append, List.mem_append] at hx
    rcases hx with hx | hx
    · exact hb x hx
    · exact hr x hx

theorem string_steps_free (W : Nat → Bool) (h0 : W 0 = false) (hlt : ∀ b, W b = true → b < 34)
    (cs : Bool) (s : ngx_str_t) (hs : str_free W s = true) :
    ∀ x ∈ steps_text (string_steps cs s), W x = false := by
  have hge : ∀ x, 34 ≤ x → W x = false := by
    intro x hx
    by_contra hw
    have := hlt x (by simpa using hw)
    omega
  have hl := string_loop_free W h0 hlt cs s hs
  have e1 : steps_text [Step.app [34]] = [34] := rfl
  have e2 : steps_text [Step.app (ascii "\"\"")] = [34, 34] := by decide
  intro x hx
  unfold string_steps at hx
  split_ifs at hx
  · rw [e2] at hx
    have : x = 34 := by simpa using hx
    exact this ▸ hge 34 (by omega)
  · rw [steps_text_append, steps_text_append, e1] at hx
    rcases List.mem_append.mp hx with h | h
    · rcases List.mem_append.mp h with h | h
      · exact (List.mem_singleton.mp h) ▸ hge 34 (by omega)
      · exact hl x h
    · exact (List.mem_singleton.mp h) ▸ hge 34 (by omega)

theorem digits_w_ge (w n x : Nat) (h : x ∈ digits_w w n) : 48 ≤ x := by
  unfold digits_w at h
  simp only [List.mem_map] at h
  obtain ⟨i, _, rfl⟩ := h
  omega

theorem nat_dec_ge (n x : Nat) (h : x ∈ nat_dec n) : 48 ≤ x :=
  digits_w_ge _ _ x h

theorem mem_strip_zeros (l : List Nat) (x : Nat) (h : x ∈ strip_zeros l) : x ∈ l := by
  unfold strip_zeros at h
  rw [List.mem_reverse] at h
  exact List.mem_reverse.mp ((List.dropWhile_sublist _).subset h)

theorem frac_part_ge (l : List Nat) (hl : ∀ x ∈ l, 48 ≤ x) (x : Nat) (h : x ∈ frac_part l) :
    43 ≤ x := by
  unfold frac_part at h
  split_ifs at h
  · simp at h
  · rcases List.mem_cons.mp h with h | h
    · omega
    · have := hl x h
      omega

theorem sprintf_g_all_ge (P : Nat) (d : Double) :
    (sprintf_g P d).all (fun x => decide (43 ≤ x)) = true := by
  have h1 : ∀ n, (nat_dec n).all (fun x => decide (43 ≤ x)) = true := by
    intro n
    simp only [List.all_eq_true, decide_eq_true_eq]
    intro x hx
    have := nat_dec_ge n x hx
    omega
  have h2 : ∀ w n, (frac_part (strip_zeros (digits_w w n))).all
      (fun x => decide (43 ≤ x)) = true := by
    intro w n
    simp only [List.all_eq_true, decide_eq_true_eq]
    exact frac_part_ge _ (fun y hy => digits_w_ge w n y (mem_strip_zeros _ y hy))
  have h3 : ∀ a : Nat, 43 ≤ 48 + a := fun a => by omega
  unfold sprintf_g
  dsimp only
  split_ifs <;> simp [h1, h2, h3]

theorem sprintf_g_ge (P : Nat) (d : Double) (x : Nat) (h : x ∈ sprintf_g P d) : 43 ≤ x := by
  have := sprintf_g_all_ge P d
  simp only [List.all_eq_true, decide_eq_true_eq] at this
  exact this x h

theorem number_steps_ge (d : Double) (x : Nat) (h : x ∈ steps_text (number_steps d)) :
    43 ≤ x := by
  unfold number_steps at h
  split_ifs at h
  · have hq : steps_text [Step.app (ascii "null")] = [110, 117, 108, 108] := by decide
    rw [hq] at h
    simp only [List.mem_cons, List.mem_singleton, List.not_mem_nil, or_false] at h
    omega
  · have e : steps_text [Step.app (number_text d)] = number_text d := by
      simp [steps_text]
    rw [e, number_text] at h
    split at h
    · split_ifs at h
      · exact sprintf_g_ge _ _ x h
      · exact sprintf_g_ge _ _ x h
    · exact sprintf_g_ge _ _ x h

theorem strip_ge (W : Nat → Bool) (hlt : ∀ b, W b = true → b < 34) (t : List Nat)
    (h : ∀ x ∈ t, 34 ≤ x) : strip W t = t := by
  refine strip_free W t (fun x hx => ?_)
  by_contra hw
  have := hlt x (by simpa using hw)
  have := h x hx
  omega

theorem strip_number_steps (W : Nat → Bool) (hlt : ∀ b, W b = true → b < 34) (d : Double) :
    strip W (steps_text (number_steps d)) = steps_text (number_steps d) :=
  strip_ge W hlt _ (fun x hx => by have := number_steps_ge d x hx; omega)

theorem strip_tabs (W : Nat → Bool) (h9 : W 9 = true) (n : Nat) :
    strip W (steps_text (tab_steps n)) = [] := by
  rw [steps_text_tabs]
  exact strip_all W _ (fun x hx => by rw [List.eq_of_mem_replicate hx]; exact h9)

theorem halts_append (a b : List Step) : halts (a ++ b) = halts a ++ halts b := by
  simp [halts]

theorem halts_apps (l : List Step) (h : ∀ s ∈ l, ∃ t, s = .app t) : halts l = [] := by
  simp only [halts, List.filter_eq_nil_iff]
  intro s hs
  obtain ⟨t, rfl⟩ := h s hs
  simp [Step.halts]

theorem halts_tabs (n : Nat) : halts (tab_steps n) = [] :=
  halts_apps _ (fun _ hs => ⟨[9], List.eq_of_mem_replicate hs⟩)

theorem halts_string_loop (cs : Bool) : ∀ s, halts (string_loop_steps cs s) = []
  | [] => rfl
  | b :: rest => by
    rw [string_loop_steps, halts_append, halts_string_loop cs rest, List.append_nil]
    unfold byte_steps
    dsimp only
    split_ifs <;> rfl

theorem halts_string (cs : Bool) (str : ngx_str_t) : halts (string_steps cs str) = [] := by
  unfold string_steps
  split_ifs
  · rfl
  · rw [halts_append, halts_append, halts_string_loop]
    rfl

theorem halts_number (d : Double) : halts (number_steps d) = [] := by
  unfold number_steps
  split_ifs <;> rfl

theorem free_from_load {W : Nat → Bool} {mem : memory} {p : Nat} {node : ngx_json_s}
    (h : free_from W mem p) (hp : mem.load p = some node) :
    str_free W node.key = true ∧ str_free W node.valuestring = true ∧
      free_from W mem node.list.next :=
  ⟨(h 0 node hp).1, (h 0 node hp).2, fun k n hn => h (k + 1) n (by simpa [walk, hp] using hn)⟩

theorem free_from_of_free (W : Nat → Bool) (mem : memory) (p : Nat)
    (h : mem.free W = true) : free_from W mem p := by
  intro k node hn
  have hm : node ∈ mem := by
    unfold memory.load at hn
    split_ifs at hn
    exact List.getElem?_mem hn
  simp only [memory.free, List.all_eq_true, Bool.and_eq_true] at h
  exact h node hm

mutual
theorem halts_value (cs : Bool) (mem : memory) :
    ∀ (fuel item : Nat) (d d1 : Int),
      halts (value_steps cs true mem fuel d item) = halts (value_steps cs false mem fuel d1 item)
  | 0, _, _, _ => by simp only [value_steps]
  | fuel + 1, item, d, d1 => by
    have ha := fun q => halts_array cs mem fuel item q (d + 1) (d1 + 1)
    have ho := fun q => halts_object cs mem fuel item q (d + 1) (d1 + 1)
    simp only [value_steps, Bool.false_eq_true, ↓reduceIte]
    cases mem.load item with
    | none => rfl
    | some node =>
      dsimp only
      split_ifs
      · rfl
      · rfl
      · rfl
      · rfl
      · rfl
      · simp only [halts_append, ha]
      · simp only [halts_append, ho, halts_tabs]
        rfl
      · rfl
theorem halts_array (cs : Bool) (mem : memory) :
    ∀ (fuel sentinel q : Nat) (d d1 : Int),
      halts (array_steps cs true mem fuel d sentinel q) =
        halts (array_steps cs false mem fuel d1 sentinel q)
  | 0, _, _, _, _ => by simp only [array_steps]
  | fuel + 1, sentinel, q, d, d1 => by
    have hv := halts_value cs mem fuel q d d1
    have ha := fun q1 => halts_array cs mem fuel sentinel q1 d d1
    simp only [array_steps, Bool.false_eq_true, ↓reduceIte]
    split_ifs
    · rfl
    · rw [halts_append, halts_append, hv]
      congr 1
      cases mem.load q with
      | none => rfl
      | some node =>
        dsimp only
        rw [halts_append, halts_append, ha]
        congr 1
        split_ifs <;> rfl
theorem halts_object (cs : Bool) (mem : memory) :
    ∀ (fuel sentinel q : Nat) (d d1 : Int),
      halts (object_steps cs true mem fuel d sentinel q) =
        halts (object_steps cs false mem fuel d1 sentinel q)
  | 0, _, _, _, _ => by simp only [object_steps]
  | fuel + 1, sentinel, q, d, d1 => by
    have hv := halts_value cs mem fuel q d d1
    have ho := fun q1 => halts_object cs mem fuel sentinel q1 d d1
    simp only [object_steps, Bool.false_eq_true, ↓reduceIte]
    split_ifs
    · rfl
    · cases mem.load q with
      | none => rfl
      | some node =>
        dsimp only
        simp only [halts_append, hv, ho, halts_tabs, halts_string]
        congr 3
end

mutual
theorem strip_value (W : Nat → Bool) (h0 : W 0 = false) (hlt : ∀ b, W b = true → b < 34)
    (h9 : W 9 = true) (h10 : W 10 = true) (h32 : W 32 = true) (cs : Bool) (mem : memory) :
    ∀ (fuel item : Nat), free_from W mem item → ∀ d d1 : Int,
      strip W (steps_text (value_steps cs true mem fuel d item)) =
        steps_text (value_steps cs false mem fuel d1 item)
  | 0, _, _, _, _ => by simp only [value_steps]; rfl
  | fuel + 1, item, hf, d, d1 => by
    simp only [value_steps, Bool.false_eq_true, ↓reduceIte]
    cases hl : mem.load item with
    | none => rfl
    | some node =>
      obtain ⟨_, hvs, hnext⟩ := free_from_load hf hl
      have ha := strip_array W h0 hlt h9 h10 h32 cs mem fuel item node.list.next hnext
        (d + 1) (d1 + 1)
      have ho := strip_object W h0 hlt h9 h10 h32 cs mem fuel item node.list.next hnext
        (d + 1) (d1 + 1)
      have hn := strip_number_steps W hlt node.valuedouble
      have hs := strip_free W _ (string_steps_free W h0 hlt cs node.valuestring hvs)
      have ht := strip_tabs W h9 d.toNat
      have hk : ∀ t : List Nat, (∀ x ∈ t, 34 ≤ x) → strip W t = t := strip_ge W hlt
      have e1 : steps_text [Step.app (ascii "null")] = ascii "null" := by decide
      have e2 : steps_text [Step.app (ascii "true")] = ascii "true" := by decide
      have e3 : steps_text [Step.app (ascii "false")] = ascii "false" := by decide
      have e4 : ∀ c : Nat, steps_text [Step.app [c]] = [c] := fun c => rfl
      have e5 : ∀ c : Nat, steps_text [Step.app [c], Step.leave] = [c] := fun c => rfl
      have e6 : ∀ c : Nat, steps_text [Step.enter, Step.app [c]] = [c] := fun c => rfl
      have e7 : steps_text [Step.bad] = [] := rfl
      have k10 : strip W [10] = [] :=
        strip_all W _ (fun x hx => by simp at hx; rw [hx]; exact h10)
      dsimp only
      split_ifs with c1 c2 c3 c4 c5 c6 c7
      · rw [e1]
        exact hk _ (by decide)
      · rw [e2]
        exact hk _ (by decide)
      · rw [steps_text_append, strip_append, hn, e3, hk _ (by decide)]
      · exact hn
      · exact hs
      · rw [steps_text_append, steps_text_append, strip_append, strip_append, ha,
          steps_text_append, steps_text_append, e5, e6, hk _ (by decide), hk _ (by decide)]
      · rw [steps_text_append, steps_text_append, steps_text_append, steps_text_append,
          strip_append, strip_append, strip_append, strip_append, ho, ht, e4, e5, e6, k10,
          hk [123] (by decide), hk [125] (by decide)]
        simp only [List.nil_append]
        rw [steps_text_append, steps_text_append, e5, e6]
      · rw [e7]
        rfl
theorem strip_array (W : Nat → Bool) (h0 : W 0 = false) (hlt : ∀ b, W b = true → b < 34)
    (h9 : W 9 = true) (h10 : W 10 = true) (h32 : W 32 = true) (cs : Bool) (mem : memory) :
    ∀ (fuel sentinel q : Nat), free_from W mem q → ∀ d d1 : Int,
      strip W (steps_text (array_steps cs true mem fuel d sentinel q)) =
        steps_text (array_steps cs false mem fuel d1 sentinel q)
  | 0, _, _, _, _, _ => by simp only [array_steps]; rfl
  | fuel + 1, sentinel, q, hf, d, d1 => by
    have hv := strip_value W h0 hlt h9 h10 h32 cs mem fuel q hf d d1
    have hk : ∀ t : List Nat, (∀ x ∈ t, 34 ≤ x) → strip W t = t := strip_ge W hlt
    have k32 : strip W [32] = [] :=
      strip_all W _ (fun x hx => by simp at hx; rw [hx]; exact h32)
    have e4 : ∀ c : Nat, steps_text [Step.app [c]] = [c] := fun c => rfl
    simp only [array_steps, Bool.false_eq_true, ↓reduceIte]
    split_ifs
    · rfl
    · rw [steps_text_append, strip_append, hv, steps_text_append]
      congr 1
      cases hl : mem.load q with
      | none => rfl
      | some node =>
        obtain ⟨_, _, hnext⟩ := free_from_load hf hl
        have ht := strip_array W h0 hlt h9 h10 h32 cs mem fuel sentinel node.list.next hnext d d1
        dsimp only
        rw [steps_text_append, strip_append, ht, steps_text_append]
        congr 1
        split_ifs
        · rw [steps_text_append, strip_append, e4, e4, k32, hk [44] (by decide)]
          simp [steps_text]
        · rfl
theorem strip_object (W : Nat → Bool) (h0 : W 0 = false) (hlt : ∀ b, W b = true → b < 34)
    (h9 : W 9 = true) (h10 : W 10 = true) (h32 : W 32 = true) (cs : Bool) (mem : memory) :
    ∀ (fuel sentinel q : Nat), free_from W mem q → ∀ d d1 : Int,
      strip W (steps_text (object_steps cs true mem fuel d sentinel q)) =
        steps_text (object_steps cs false mem fuel d1 sentinel q)
  | 0, _, _, _, _, _ => by simp only [object_steps]; rfl
  | fuel + 1, sentinel, q, hf, d, d1 => by
    have hv := strip_value W h0 hlt h9 h10 h32 cs mem fuel q hf d d1
    have htab := strip_tabs W h9 d.toNat
    have hk : ∀ t : List Nat, (∀ x ∈ t, 34 ≤ x) → strip W t = t := strip_ge W hlt
    have k9 : strip W [9] = [] := strip_all W _ (fun x hx => by simp at hx; rw [hx]; exact h9)
    have k10 : strip W [10] = [] :=
      strip_all W _ (fun x hx => by simp at hx; rw [hx]; exact h10)
    have e4 : ∀ c : Nat, steps_text [Step.app [c]] = [c] := fun c => rfl
    have e0 : steps_text [] = [] := rfl
    have s0 : strip W [] = [] := rfl
    simp only [object_steps, Bool.false_eq_true, ↓reduceIte]
    split_ifs
    · rfl
    · cases hl : mem.load q with
      | none => rfl
      | some node =>
        obtain ⟨hkey, _, hnext⟩ := free_from_load hf hl
        have ht := strip_object W h0 hlt h9 h10 h32 cs mem fuel sentinel node.list.next hnext d d1
        have hs := strip_free W _ (string_steps_free W h0 hlt cs node.key hkey)
        dsimp only
        simp only [steps_text_append, strip_append, hv, ht, hs, htab, e4, e0, k9, k10,
          hk [58] (by decide), List.nil_append]
        congr 3
        split_ifs
        · rw [e4, hk [44] (by decide)]
        · rfl
end

theorem compact_free (W : Nat → Bool) (h0 : W 0 = false) (hlt : ∀ b, W b = true → b < 34)
    (h9 : W 9 = true) (h10 : W 10 = true) (h32 : W 32 = true) (cs : Bool) (mem : memory)
    (fuel item : Nat) (d : Int) (hf : free_from W mem item) :
    ∀ b ∈ steps_text (value_steps cs false mem fuel d item), W b = false := by
  intro b hb
  rw [← strip_value W h0 hlt h9 h10 h32 cs mem fuel item hf d d] at hb
  exact mem_strip W _ b hb

theorem is_ws_lt (b : Nat) (h : is_ws b = true) : b < 34 := by
  simp only [is_ws, Bool.or_eq_true, beq_iff_eq] at h
  omega

theorem is_space_tab_newline_lt (b : Nat) (h : is_space_tab_newline b = true) : b < 34 := by
  simp only [is_space_tab_newline, Bool.or_eq_true, beq_iff_eq] at h
  omega

/-! ### The queue operations -/

theorem load_zero (mem : memory) : mem.load 0 = none := by
  simp [memory.load]

theorem load_store (mem : memory) (p q : Nat) (node : ngx_json_s)
    (h : (mem.load p).isSome = true) :
    (mem.store p node).load q = if q = p then some node else mem.load q := by
  have hp : p ≠ 0 := by
    rintro rfl
    simp [load_zero] at h
  have hlen : p - 1 < mem.length := by
    simp only [memory.load, hp, ↓reduceIte] at h
    by_contra hc
    rw [List.getElem?_eq_none (by omega)] at h
    simp at h
  by_cases hq : q = 0
  · subst hq
    simp [load_zero, Ne.symm hp]
  · simp only [memory.load, memory.store, hp, hq, ↓reduceIte]
    by_cases e : q = p
    · subst e
      simp [hlen]
    · have : p - 1 ≠ q - 1 := by omega
      simp [e, List.getElem?_set_ne this]

theorem links_congr (mem mem1 : memory) (h : Nat) :
    ∀ (cs : List Nat) (q : Nat), (∀ p ∈ cs, mem1.load p = mem.load p) →
      links mem1 h q cs = links mem h q cs
  | [], _, _ => rfl
  | c :: rest, q, hc => by
    simp only [links, hc c (List.mem_cons_self _ _)]
    cases mem.load c with
    | none => rfl
    | some node =>
      simp only
      rw [links_congr mem mem1 h rest _ (fun p hp => hc p (List.mem_cons_of_mem _ hp))]

theorem links_last {mem : memory} {h : Nat} :
    ∀ {cs : List Nat} {q l : Nat}, links mem h q cs = true → cs.getLast? = some l →
      ∃ node, mem.load l = some node ∧ node.list.next = h ∧ l ≠ h
  | [], _, _, _, hl => by simp at hl
  | [c], q, l, hk, hl => by
    obtain ⟨_, hne, node, hc, hr⟩ := links_cons hk
    simp only [List.getLast?_singleton, Option.some.injEq] at hl
    subst hl
    exact ⟨node, hc, links_nil hr, hne⟩
  | c :: c2 :: rest, q, l, hk, hl => by
    obtain ⟨_, _, node, _, hr⟩ := links_cons hk
    exact links_last hr (by simpa using hl)

theorem links_valid {mem : memory} {h : Nat} :
    ∀ {cs : List Nat} {q : Nat}, links mem h q cs = true →
      ∀ p ∈ cs, p ≠ h ∧ (mem.load p).isSome = true
  | [], _, _, p, hp => by simp at hp
  | c :: rest, q, hk, p, hp => by
    obtain ⟨_, hne, node, hc, hr⟩ := links_cons hk
    rcases List.mem_cons.mp hp with rfl | hp
    · exact ⟨hne, by simp [hc]⟩
    · exact links_valid hr p hp

/-- The links after an insertion at the tail: the walk through the old members goes on to
the new one. -/
theorem links_snoc {mem mem1 : memory} {h x l : Nat} {pn xn : ngx_json_s}
    (hxh : x ≠ h) (hx : mem1.load x = some xn) (hxn : xn.list.next = h)
    (hl : mem.load l = some pn)
    (hl1 : mem1.load l = some { pn with list := { pn.list with next := x } })
    (hother : ∀ p, p ≠ h → p ≠ x → p ≠ l → mem1.load p = mem.load p) :
    ∀ (cs : List Nat) (q : Nat), links mem h q cs = true → cs.getLast? = some l → x ∉ cs →
      links mem1 h q (cs ++ [x]) = true
  | [], _, _, hlast, _ => by simp at hlast
  | [c], q, hk, hlast, _ => by
    obtain ⟨hq, hne, node, hc, hr⟩ := links_cons hk
    simp only [List.getLast?_singleton, Option.some.injEq] at hlast
    subst hlast
    simp [links, hq, hne, hl1, hx, hxn, hxh]
  | c :: c2 :: rest, q, hk, hlast, hnot => by
    obtain ⟨hq, hne, node, hc, hr⟩ := links_cons hk
    have hlast2 : (c2 :: rest).getLast? = some l := by simpa using hlast
    obtain ⟨pn1, hp1, hp2, _⟩ := links_last hr hlast2
    obtain ⟨hq2, hne2, _⟩ := links_cons hr
    have hcl : c ≠ l := by
      rintro rfl
      rw [hc] at hp1
      cases hp1
      exact hne2 (hq2 ▸ hp2)
    have hcx : c ≠ x := fun e => hnot (e ▸ List.mem_cons_self _ _)
    have ih := links_snoc hxh hx hxn hl hl1 hother (c2 :: rest) node.list.next hr hlast2
      (fun hm => hnot (List.mem_cons_of_mem _ hm))
    have e : mem1.load c = some node := by rw [hother c hne hcx hcl, hc]
    simp only [List.cons_append, links, hq, beq_self_eq_true, bne_iff_ne, ne_eq, hne,
      not_false_eq_true, decide_True, e, Bool.true_and]
    simpa [links, hne] using ih

theorem write_prev_spec {mem : memory} {p : Nat} {node : ngx_json_s} (v : Nat)
    (hp : mem.load p = some node) :
    Mem.write_prev mem p v = .done (mem.store p { node with list := ⟨v, node.list.next⟩ }) ∧
    ∀ q, (mem.store p { node with list := ⟨v, node.list.next⟩ }).load q =
      if q = p then some { node with list := ⟨v, node.list.next⟩ } else mem.load q :=
  ⟨by simp [Mem.write_prev, hp], fun q => load_store mem p q _ (by simp [hp])⟩

theorem write_next_spec {mem : memory} {p : Nat} {node : ngx_json_s} (v : Nat)
    (hp : mem.load p = some node) :
    Mem.write_next mem p v = .done (mem.store p { node with list := ⟨node.list.prev, v⟩ }) ∧
    ∀ q, (mem.store p { node with list := ⟨node.list.prev, v⟩ }).load q =
      if q = p then some { node with list := ⟨node.list.prev, v⟩ } else mem.load q :=
  ⟨by simp [Mem.write_next, hp], fun q => load_store mem p q _ (by simp [hp])⟩

/-- What `ngx_queue_insert_tail(h, x)` leaves in memory, for a node `x` that is neither
`h` nor the last node of the queue of `h`. -/
theorem insert_tail_spec (mem : memory) (h x : Nat) (hn xn pn : ngx_json_s)
    (hh : mem.load h = some hn) (hx : mem.load x = some xn) (hxh : x ≠ h)
    (hl : mem.load hn.list.prev = some pn) (hxl : x ≠ hn.list.prev) :
    ∃ mem1, Mem.ngx_queue_insert_tail mem h x = .done mem1 ∧
      ∀ p, mem1.load p =
        if p = h then
          some { hn with list := ⟨x, if hn.list.prev = h then x else hn.list.next⟩ }
        else if p = x then some { xn with list := ⟨hn.list.prev, h⟩ }
        else if p = hn.list.prev then some { pn with list := ⟨pn.list.prev, x⟩ }
        else mem.load p := by
  obtain ⟨w1, s1⟩ := write_prev_spec hn.list.prev hx
  generalize mem.store x { xn with list := ⟨hn.list.prev, xn.list.next⟩ } = m1 at w1 s1
  have e1x := s1 x
  rw [if_pos rfl] at e1x
  have e1l : m1.load hn.list.prev = some pn := by rw [s1, if_neg (Ne.symm hxl), hl]
  obtain ⟨w2, s2⟩ := write_next_spec x e1l
  generalize m1.store hn.list.prev { pn with list := ⟨pn.list.prev, x⟩ } = m2 at w2 s2
  have e2x : m2.load x = some { xn with list := ⟨hn.list.prev, xn.list.next⟩ } := by
    rw [s2, if_neg hxl, e1x]
  obtain ⟨w3, s3⟩ := write_next_spec h e2x
  generalize m2.store x _ = m3 at w3 s3
  have e3h : m3.load h = some (if hn.list.prev = h then { pn with list := ⟨pn.list.prev, x⟩ }
      else hn) := by
    rw [s3, if_neg (Ne.symm hxh), s2]
    by_cases e : hn.list.prev = h
    · rw [if_pos e.symm, if_pos e]
    · rw [if_neg (Ne.symm e), if_neg e, s1, if_neg (Ne.symm hxh), hh]
  obtain ⟨w4, s4⟩ := write_prev_spec x e3h
  generalize m3.store h _ = m4 at w4 s4
  refine ⟨m4, ?_, fun p => ?_⟩
  · simp only [Mem.ngx_queue_insert_tail, Mem.read_prev, hh, outcome.bind, w1, e1x, w2, w3, w4]
  · rw [s4]
    by_cases ph : p = h
    · rw [if_pos ph, if_pos ph]
      by_cases e : hn.list.prev = h
      · have : pn = hn := by
          rw [e, hh] at hl
          exact (Option.some.inj hl).symm
        simp [e, this]
      · simp [e]
    · rw [if_neg ph, if_neg ph, s3]
      by_cases px : p = x
      · rw [if_pos px, if_pos px]
      · rw [if_neg px, if_neg px, s2]
        by_cases pl : p = hn.list.prev
        · rw [if_pos pl, if_pos pl]
        · rw [if_neg pl, if_neg pl, s1, if_neg px]

theorem load_some_ne_zero {mem : memory} {p : Nat} {node : ngx_json_s}
    (h : mem.load p = some node) : p ≠ 0 := by
  rintro rfl
  simp [load_zero] at h

/-- An attach call on a queue: the new node is the last member, and no field other than
the links has changed. -/
theorem add_item_queue (pool : ngx_pool_t) (mem : memory) (h x : Nat) (hn xn : ngx_json_s)
    (members : List Nat) (hh : mem.load h = some hn) (hx : mem.load x = some xn)
    (hxh : x ≠ h) (hq : is_queue mem h members = true) (hxm : x ∉ members) :
    ∃ mem1, Mem.ngx_json_add_item pool mem h x = .returned NGX_OK mem1 ∧
      is_queue mem1 h (members ++ [x]) = true ∧
      ∀ p, (mem1.load p).map ngx_json_s.fields = (mem.load p).map ngx_json_s.fields := by
  simp only [is_queue, hh, Bool.and_eq_true, beq_iff_eq] at hq
  obtain ⟨hlinks, hprev⟩ := hq
  have hlast : ∃ pn, mem.load hn.list.prev = some pn ∧ x ≠ hn.list.prev := by
    rcases List.eq_nil_or_concat members with rfl | ⟨init, l, rfl⟩
    · simp only [List.getLastD_nil] at hprev
      exact ⟨hn, by rw [hprev, hh], by rw [hprev]; exact hxh⟩
    · have hl : hn.list.prev = l := by simpa using hprev
      obtain ⟨pn, hp, _, _⟩ := links_last hlinks (l := l) (by simp)
      exact ⟨pn, by rw [hl, hp], by rw [hl]; exact fun e => hxm (by simp [e])⟩
  obtain ⟨pn, hl, hxl⟩ := hlast
  obtain ⟨mem1, hins, hload⟩ := insert_tail_spec mem h x hn xn pn hh hx hxh hl hxl
  have e1x : mem1.load x = some { xn with list := ⟨hn.list.prev, h⟩ } := by
    rw [hload, if_neg hxh, if_pos rfl]
  refine ⟨mem1, ?_, ?_, fun p => ?_⟩
  · simp [Mem.ngx_json_add_item, load_some_ne_zero hh, load_some_ne_zero hx, hins]
  · simp only [is_queue, hload h, ↓reduceIte, Bool.and_eq_true, beq_iff_eq]
    refine ⟨?_, by simp⟩
    rcases List.eq_nil_or_concat members with rfl | ⟨init, l, rfl⟩
    · simp only [List.getLastD_nil] at hprev
      simp [links, hprev, hxh, e1x]
    · have hl0 : hn.list.prev = l := by simpa using hprev
      obtain ⟨pn1, hp1, hp2, hp3⟩ := links_last hlinks (l := l) (by simp)
      have hpn : pn1 = pn := by
        rw [hl0, hp1] at hl
        exact Option.some.inj hl
      subst hpn
      rw [if_neg (by rw [hl0]; exact hp3)]
      refine links_snoc hxh e1x rfl hp1 ?_ ?_ _ _ hlinks (by simp) hxm
      · rw [hload, if_neg hp3, if_neg (by rw [← hl0]; exact Ne.symm hxl), if_pos hl0.symm]
      · intro p ph px pl
        rw [hload, if_neg ph, if_neg px, if_neg (by rw [hl0]; exact pl)]
  · rw [hload]
    by_cases c1 : p = h
    · rw [if_pos c1, c1, hh]
      rfl
    · rw [if_neg c1]
      by_cases c2 : p = x
      · rw [if_pos c2, c2, hx]
        rfl
      · rw [if_neg c2]
        by_cases c3 : p = hn.list.prev
        · rw [if_pos c3, c3, hl]
          rfl
        · rw [if_neg c3]

/-- An attach call objn an Object: the key is stored in the new member, which is then the
last member. -/
theorem add_item_to_object_queue (pool : ngx_pool_t) (mem : memory) (obj value : Nat)
    (objn vn : ngx_json_s) (key : ngx_str_t) (members : List Nat)
    (ho : mem.load obj = some objn) (hot : objn.type = NGX_JSON_OBJECT)
    (hv : mem.load value = some vn) (hvo : value ≠ obj)
    (hq : is_queue mem obj members = true) (hvm : value ∉ members) :
    ∃ mem1, Mem.ngx_json_add_item_to_object pool mem obj (some key) value =
        .returned NGX_OK mem1 ∧
      is_queue mem1 obj (members ++ [value]) = true ∧
      (mem1.load value).map ngx_json_s.fields = some ({ vn with key := key }).fields ∧
      ∀ p, p ≠ value → (mem1.load p).map ngx_json_s.fields =
        (mem.load p).map ngx_json_s.fields := by
  have hs : ∀ q, (mem.store value { vn with key := key }).load q =
      if q = value then some { vn with key := key } else mem.load q :=
    fun q => load_store mem value q _ (by simp [hv])
  have ho1 : (mem.store value { vn with key := key }).load obj = some objn := by
    rw [hs, if_neg (Ne.symm hvo), ho]
  have hv1 : (mem.store value { vn with key := key }).load value =
      some { vn with key := key } := by rw [hs, if_pos rfl]
  have hq1 : is_queue (mem.store value { vn with key := key }) obj members = true := by
    simp only [is_queue, ho, ho1] at hq ⊢
    rw [links_congr mem _ obj members _ (fun p hp => by
      rw [hs, if_neg (fun (e : p = value) => hvm (e ▸ hp))])]
    exact hq
  obtain ⟨mem1, h1, h2, h3⟩ := add_item_queue pool _ obj value objn _ members ho1 hv1 hvo hq1 hvm
  refine ⟨mem1, ?_, h2, ?_, fun p hp => ?_⟩
  · simp [Mem.ngx_json_add_item_to_object, ho, hot, load_some_ne_zero hv, hv, h1]
  · rw [h3, hv1]
    rfl
  · rw [h3, hs, if_neg hp]

/-! ### A container in the queue of a container -/

theorem value_steps_array {mem : memory} {item : Nat} {node : ngx_json_s} (cs fmt : Bool)
    (fuel : Nat) (d : Int) (h : mem.load item = some node) (ht : node.type = NGX_JSON_ARRAY) :
    value_steps cs fmt mem (fuel + 1) d item =
      [.enter, .app [91]] ++
        (array_steps cs fmt mem fuel (d + 1) item node.list.next ++ [.app [93], .leave]) := by
  simp [value_steps, h, ht, NGX_JSON_ARRAY, NGX_JSON_NULL, NGX_JSON_TRUE, NGX_JSON_FALSE,
    NGX_JSON_NUMBER, NGX_JSON_RAW, NGX_JSON_STRING]

theorem value_steps_object {mem : memory} {item : Nat} {node : ngx_json_s} (cs fmt : Bool)
    (fuel : Nat) (d : Int) (h : mem.load item = some node) (ht : node.type = NGX_JSON_OBJECT) :
    value_steps cs fmt mem (fuel + 1) d item =
      [.enter, .app [123]] ++ ((if fmt then [.app [10]] else []) ++
        (object_steps cs fmt mem fuel (d + 1) item node.list.next ++
          ((if fmt then tab_steps d.toNat else []) ++ [.app [125], .leave]))) := by
  simp [value_steps, h, ht, NGX_JSON_OBJECT, NGX_JSON_ARRAY, NGX_JSON_NULL, NGX_JSON_TRUE,
    NGX_JSON_FALSE, NGX_JSON_NUMBER, NGX_JSON_RAW, NGX_JSON_STRING]

theorem is_container_cases {type : Int} (h : is_container type = true) :
    type = NGX_JSON_ARRAY ∨ type = NGX_JSON_OBJECT := by
  simpa [is_container] using h

/-- The halting steps of a call on a container whose first member `q` is not the
container itself start with those of the call on `q`, made with one unit of fuel less than
the loop has. -/
theorem halts_container {mem : memory} {item : Nat} {node : ngx_json_s} (cs fmt : Bool)
    (fuel : Nat) (d : Int) (h : mem.load item = some node)
    (ht : is_container node.type = true) (hq : node.list.next ≠ item)
    (hv : (mem.load node.list.next).isSome = true) :
    ∃ rest, halts (value_steps cs fmt mem (fuel + 2) d item) =
      halts (value_steps cs fmt mem fuel (d + 1) node.list.next) ++ rest := by
  cases hn : mem.load node.list.next with
  | none => simp [hn] at hv
  | some qn =>
    rcases is_container_cases ht with ht | ht
    · rw [value_steps_array cs fmt _ d h ht]
      simp only [array_steps, hq, ↓reduceIte, hn, halts_append]
      exact ⟨_, by rw [show halts [Step.enter, Step.app [91]] = [] from rfl, List.nil_append,
        List.append_assoc]⟩
    · rw [value_steps_object cs fmt _ d h ht]
      simp only [object_steps, hq, ↓reduceIte, hn, halts_append, halts_string]
      have e1 : halts [Step.enter, Step.app [123]] = [] := rfl
      have e2 : halts (if fmt = true then [Step.app [10]] else []) = [] := by
        split_ifs <;> rfl
      have e3 : halts (if fmt = true then tab_steps (d + 1).toNat else []) = [] := by
        split_ifs
        · exact halts_tabs _
        · rfl
      have e4 : halts [Step.app [58]] = [] := rfl
      have e5 : halts (if fmt = true then [Step.app [9]] else []) = [] := by
        split_ifs <;> rfl
      rw [e1, e2, e3, e4, e5]
      simp only [List.nil_append, List.append_assoc]
      exact ⟨_, rfl⟩

theorem halts_container_one {mem : memory} {item : Nat} {node : ngx_json_s} (cs fmt : Bool)
    (d : Int) (h : mem.load item = some node) (ht : is_container node.type = true) :
    ∃ rest, halts (value_steps cs fmt mem 1 d item) = .out_of_fuel :: rest := by
  rcases is_container_cases ht with ht | ht
  · rw [value_steps_array cs fmt _ d h ht]
    simp only [array_steps, halts_append]
    exact ⟨_, rfl⟩
  · rw [value_steps_object cs fmt _ d h ht]
    simp only [object_steps, halts_append]
    have e2 : halts (if fmt = true then [Step.app [10]] else []) = [] := by
      split_ifs <;> rfl
    rw [e2]
    exact ⟨_, rfl⟩

/-- Two containers each of which is the first node of the queue of the other, as an
attach call of one to the other leaves them: the steps of a call on either never come to
an end, whatever the fuel. -/
theorem halts_nested (cs fmt : Bool) (mem : memory) (a c : Nat) (an cn : ngx_json_s)
    (ha : mem.load a = some an) (hat : is_container an.type = true) (hac : an.list.next = c)
    (hc : mem.load c = some cn) (hct : is_container cn.type = true) (hca : cn.list.next = a)
    (hne : c ≠ a) :
    ∀ (fuel : Nat) (d : Int),
      (∃ rest, halts (value_steps cs fmt mem fuel d a) = .out_of_fuel :: rest) ∧
      (∃ rest, halts (value_steps cs fmt mem fuel d c) = .out_of_fuel :: rest) := by
  intro fuel
  induction fuel using Nat.strong_induction_on with
  | _ fuel ih =>
    intro d
    match fuel with
    | 0 => exact ⟨⟨[], by simp [value_steps, halts, Step.halts]⟩,
        ⟨[], by simp [value_steps, halts, Step.halts]⟩⟩
    | 1 => exact ⟨halts_container_one cs fmt d ha hat, halts_container_one cs fmt d hc hct⟩
    | f + 2 =>
      obtain ⟨r1, e1⟩ := halts_container cs fmt f d ha hat (by rw [hac]; exact hne)
        (by rw [hac, hc]; rfl)
      obtain ⟨r2, e2⟩ := halts_container cs fmt f d hc hct (by rw [hca]; exact Ne.symm hne)
        (by rw [hca, ha]; rfl)
      obtain ⟨⟨ra, ea⟩, ⟨rc, ec⟩⟩ := ih f (by omega) (d + 1)
      rw [hac] at e1
      rw [hca] at e2
      exact ⟨⟨rc ++ r1, by rw [e1, ec]; rfl⟩, ⟨ra ++ r2, by rw [e2, ea]; rfl⟩⟩

theorem nested_never_returns (cs fmt : Bool) (pool : ngx_pool_t) (mem : memory) (a c : Nat)
    (an cn : ngx_json_s) (hpool : never_fails pool)
    (ha : mem.load a = some an) (hat : is_container an.type = true) (hac : an.list.next = c)
    (hc : mem.load c = some cn) (hct : is_container cn.type = true) (hca : cn.list.next = a)
    (hne : c ≠ a) (fuel : Nat) :
    Mem.json_print cs pool fmt mem fuel a = .out_of_fuel := by
  obtain ⟨⟨r, e⟩, _⟩ := halts_nested cs fmt mem a c an cn ha hat hac hc hct hca hne fuel 0
  rw [json_print_steps cs fmt pool mem fuel a hpool, print_of_steps, e]
  rfl

/-! ### Success on a value means its tags are kinds -/

theorem and_then_ok {r : Int × PState} {k : PState → Int × PState}
    (h : (and_then r k).1 = NGX_OK) : r.1 = NGX_OK ∧ (k r.2).1 = NGX_OK := by
  unfold and_then at h
  split_ifs at h with hne
  · simp [NGX_OK, NGX_ERROR] at h
  · exact ⟨not_not.mp hne, h⟩

mutual
theorem printable_of_ok (cs fmt : Bool) :
    ∀ (item : ngx_json_t) (st : PState),
      (json_print_type_value cs fmt item st).1 = NGX_OK → item.printable = true
  | .mk list type key vi vd vs, st, h => by
    simp only [json_print_type_value] at h
    simp only [ngx_json_t.printable, is_kind]
    split_ifs at h with h1 h2 h3 h4 h5 h6 h7
    · simp [h1, NGX_JSON_NULL, NGX_JSON_ARRAY, NGX_JSON_OBJECT]
    · simp [h2, NGX_JSON_TRUE, NGX_JSON_ARRAY, NGX_JSON_OBJECT]
    · simp [h3, NGX_JSON_FALSE, NGX_JSON_ARRAY, NGX_JSON_OBJECT]
    · simp [h4, NGX_JSON_NUMBER, NGX_JSON_ARRAY, NGX_JSON_OBJECT]
    · rcases h5 with h5 | h5 <;>
        simp [h5, NGX_JSON_RAW, NGX_JSON_STRING, NGX_JSON_ARRAY, NGX_JSON_OBJECT]
    · simp only [array_body] at h
      have := printable_of_ok_array cs fmt list _ (and_then_ok (and_then_ok h).2).1
      simp [h6, this]
    · simp only [object_body] at h
      have := printable_of_ok_object cs fmt list _
        (and_then_ok (and_then_ok (and_then_ok h).2).2).1
      simp [h7, this]
    · simp [NGX_OK, NGX_ERROR] at h
theorem printable_of_ok_array (cs fmt : Bool) :
    ∀ (l : List ngx_json_t) (st : PState),
      (json_print_type_array_loop cs fmt l st).1 = NGX_OK → all_printable l = true
  | [], _, _ => rfl
  | node :: rest, st, h => by
    simp only [json_print_type_array_loop] at h
    have h1 := and_then_ok h
    have h2 := and_then_ok h1.2
    simp [all_printable, printable_of_ok cs fmt node st h1.1,
      printable_of_ok_array cs fmt rest _ h2.2]
theorem printable_of_ok_object (cs fmt : Bool) :
    ∀ (l : List ngx_json_t) (st : PState),
      (json_print_type_object_loop cs fmt l st).1 = NGX_OK → all_printable l = true
  | [], _, _ => rfl
  | node :: rest, st, h => by
    simp only [json_print_type_object_loop] at h
    have h1 := and_then_ok (and_then_ok (and_then_ok (and_then_ok (and_then_ok h).2).2).2).2
    have h2 := and_then_ok (and_then_ok h1.2).2
    simp [all_printable, printable_of_ok cs fmt node _ h1.1,
      printable_of_ok_object cs fmt rest _ h2.2]
end

/-- With a pool none of whose requests fails, `json_print` on a value returns `NGX_OK`
with the serialization when every tag is a kind, and `NGX_ERROR` otherwise. -/
theorem json_print_value (cs fmt : Bool) (pool : ngx_pool_t) (item : ngx_json_t)
    (hpool : never_fails pool) :
    json_print cs pool fmt item =
      if item.printable then .returned NGX_OK (some (value_text cs fmt 0 item))
      else .returned NGX_ERROR none := by
  by_cases hp : item.printable = true
  · rw [if_pos hp]
    exact json_print_of_emits (emits_value 0 cs fmt item hp) pool hpool
  · rw [if_neg hp]
    obtain ⟨pool1, _, hc⟩ := create_temp_buf_good pool 256 hpool
    simp only [json_print, hc]
    rw [if_pos (fun h => hp (printable_of_ok cs fmt item _ h))]

/-! ## The claims -/

/-- C1, as the code has it. For an Object node in memory whose queue holds the nodes
`c1 .. cn`, none of them an Array or an Object and each with one of the eight kinds, the
call of `json_print_type_value`, from a state in which no append fails and with the depth
counter at `k` (nesting depth `d = k + 1`), returns `NGX_OK`, restores the depth counter
and appends `object_text`: the layout of the specification. The object of the scenario,
built with the builders, prints compact and pretty as the scenario says. But an Object
that holds an Object is not serialized: a node has one field `list`, which is its link
in the queue of its container and the head of its own queue, so the call on the inner
Object walks the queue it is linked in, comes to the outer Object and starts over; with
a pool that grants every request the call does not return, whatever the fuel. -/
theorem C1_object_layout_as_coded :
    (∀ (cs fmt : Bool) (k : Nat) (mem : memory) (item : Nat) (node : ngx_json_s)
        (members : List Nat) (fuel : Nat) (st : PState),
        mem.load item = some node → node.type = NGX_JSON_OBJECT →
        flat_queue mem item node members = true →
        all_printable (leaves mem members) = true → members.length + 1 < fuel →
        good st → st.depth = (k : Int) →
        ∃ st1, Mem.json_print_type_value cs fmt mem fuel item st = .done (NGX_OK, st1) ∧
          st1.depth = (k : Int) ∧
          st1.content =
            st.content ++ object_text fmt (k + 1) (fun c => string_text cs c.key)
              (value_text cs fmt ((k : Int) + 1)) (leaves mem members)) ∧
    (∀ cs : Bool, Mem.ngx_json_unformated_print cs [] scenario_object_memory 4 1 =
      .done (.returned NGX_OK (some (ascii "\x7b\"a\":1,\"b\":\"x\\\"y\"\x7d")))) ∧
    (∀ cs : Bool, Mem.ngx_json_print cs [] scenario_object_memory 4 1 =
      .done (.returned NGX_OK (some (ascii "\x7b\n\t\"a\":\t1,\n\t\"b\":\t\"x\\\"y\"\n\x7d")))) ∧
    (∀ (cs fmt : Bool) (pool : ngx_pool_t) (fuel : Nat), never_fails pool →
      Mem.json_print cs pool fmt nested_objects fuel 1 = .out_of_fuel) := by
  refine ⟨?_, by decide, by decide, ?_⟩
  · intro cs fmt k mem item node members fuel st hl ht hq hp hf hg hd
    rw [print_queue_value cs fmt mem fuel item node members st hl hq hf]
    have h := emits_object (k : Int) cs fmt (leaves mem members) hp st hg hd
    have e : ((k : Int) + 1).toNat = k + 1 := by omega
    rw [e] at h
    simp only [queue_value, ht]
    rw [value_object_eq]
    exact ⟨(json_print_type_object cs fmt _ st).2, congrArg outcome.done (Prod.ext h.1 rfl),
      h.2.2.1, h.2.2.2⟩
  · intro cs fmt pool fuel hpool
    exact nested_never_returns cs fmt pool nested_objects 1 2
      ⟨⟨2, 2⟩, NGX_JSON_OBJECT, [], 0, ⟨false, 0, 0⟩, []⟩
      ⟨⟨1, 1⟩, NGX_JSON_OBJECT, ascii "k", 0, ⟨false, 0, 0⟩, []⟩ hpool (by decide)
      (by decide) (by decide) (by decide) (by decide) (by decide) (by decide) fuel

/-- C2, as the code has it. For an Array node in memory whose queue holds the nodes
`c1 .. cn`, none of them an Array or an Object and each with one of the eight kinds, the
call of `json_print_type_value`, from a state in which no append fails, returns `NGX_OK`,
restores the depth counter and appends an opening bracket, the serializations of the
nodes in order, separated by a comma in compact mode and by a comma and one space in
pretty mode, and a closing bracket. The array of the numbers 1, 2, 3, built with the
builders, prints as `[1,2,3]` compact and `[1, 2, 3]` pretty. But an Array that holds an
Array is not serialized: the call on the inner Array walks the queue it is linked in,
comes to the outer Array and starts over; with a pool that grants every request the call
does not return, whatever the fuel, and into a 4-byte buffer that the pool does not let
grow it writes `[[[[` and returns `NGX_ERROR`. -/
theorem C2_array_layout_as_coded :
    (∀ (cs fmt : Bool) (k : Int) (mem : memory) (item : Nat) (node : ngx_json_s)
        (members : List Nat) (fuel : Nat) (st : PState),
        mem.load item = some node → node.type = NGX_JSON_ARRAY →
        flat_queue mem item node members = true →
        all_printable (leaves mem members) = true → members.length + 1 < fuel →
        good st → st.depth = k →
        ∃ st1, Mem.json_print_type_value cs fmt mem fuel item st = .done (NGX_OK, st1) ∧
          st1.depth = k ∧
          st1.content =
            st.content ++ [91] ++
              List.intercalate (if fmt then [44, 32] else [44])
                ((leaves mem members).map (value_text cs fmt (k + 1))) ++ [93]) ∧
    (∀ cs : Bool, Mem.ngx_json_unformated_print cs [] scenario_array_memory 5 1 =
      .done (.returned NGX_OK (some (ascii "[1,2,3]")))) ∧
    (∀ cs : Bool, Mem.ngx_json_print cs [] scenario_array_memory 5 1 =
      .done (.returned NGX_OK (some (ascii "[1, 2, 3]")))) ∧
    (∀ (cs fmt : Bool) (pool : ngx_pool_t) (fuel : Nat), never_fails pool →
      Mem.json_print cs pool fmt nested_arrays fuel 1 = .out_of_fuel) ∧
    Mem.json_print_type_value false false nested_arrays 10 1
        { pool := [false], buf := { pos := 0, end_ := 4, mem := [] }, depth := 0 } =
      .done (NGX_ERROR,
        { pool := [], buf := { pos := 0, end_ := 4, mem := ascii "[[[[" }, depth := 5 }) := by
  refine ⟨?_, by decide, by decide, ?_, by decide⟩
  · intro cs fmt k mem item node members fuel st hl ht hq hp hf hg hd
    rw [print_queue_value cs fmt mem fuel item node members st hl hq hf]
    have h := emits_array k cs fmt (leaves mem members) hp st hg hd
    simp only [queue_value, ht]
    rw [value_array_eq]
    exact ⟨(json_print_type_array cs fmt _ st).2, congrArg outcome.done (Prod.ext h.1 rfl),
      h.2.2.1, h.2.2.2.trans (by simp [array_text])⟩
  · intro cs fmt pool fuel hpool
    exact nested_never_returns cs fmt pool nested_arrays 1 2
      ⟨⟨2, 2⟩, NGX_JSON_ARRAY, [], 0, ⟨false, 0, 0⟩, []⟩
      ⟨⟨1, 1⟩, NGX_JSON_ARRAY, [], 0, ⟨false, 0, 0⟩, []⟩ hpool (by decide)
      (by decide) (by decide) (by decide) (by decide) (by decide) (by decide) fuel

/-- C3. What the code does with the seven named bytes: the double quote and the backslash
are emitted as backslash-quote and backslash-backslash, but backspace, form feed, newline,
carriage return and tab are emitted as a backslash followed by the byte itself, not by
the letters b, f, n, r, t. A String node holding one newline prints as quote, backslash,
newline, quote. -/
theorem C3_named_escapes_as_coded :
    ∀ cs : Bool,
      string_text cs [34, 92] = ascii "\"\\\"\\\\\"" ∧
      string_text cs [8, 12, 10, 13, 9] = [34, 92, 8, 92, 12, 92, 10, 92, 13, 92, 9, 34] ∧
      string_text cs [8, 12, 10, 13, 9] ≠ ascii "\"\\b\\f\\n\\r\\t\"" ∧
      ngx_json_unformated_print cs [] (.mk [] NGX_JSON_STRING [] 0 ⟨false, 0, 0⟩ [10]) =
        .returned NGX_OK (some [34, 92, 10, 34]) := by
  decide

/-- C4. What the code does with the other control bytes: each byte below 32 other than
backspace, tab, newline, form feed and carriage return is emitted as six bytes, namely
backslash, `u`, `0`, `0`, the upper hexadecimal digit of the byte, and a NUL byte; the
lower hexadecimal digit is never emitted. A String node holding the byte 1 prints as
quote, backslash, `u000`, NUL, quote. -/
theorem C4_control_escape_as_coded :
    ∀ cs : Bool,
      (((List.range 32).filter (fun b => b ∉ [8, 9, 10, 12, 13])).all
        (fun b => string_text cs [b] == [34, 92, 117, 48, 48, hex_digit (b / 16), 0, 34])) = true ∧
      string_text cs [31] = [34, 92, 117, 48, 48, 49, 0, 34] ∧
      string_text cs [31] ≠ ascii "\"\\u001f\"" ∧
      ngx_json_unformated_print cs [] (.mk [] NGX_JSON_STRING [] 0 ⟨false, 0, 0⟩ [1]) =
        .returned NGX_OK (some [34, 92, 117, 48, 48, 48, 0, 34]) := by
  decide

/-- C5. What the code does with the bytes above 31 other than quote and backslash: the
bytes 32 to 127 are copied unchanged; the bytes 128 to 255 are copied unchanged where
plain `char` is unsigned, and where it is signed each of them is emitted as backslash,
`ufff` and a NUL byte. A String node holding the two bytes of the UTF-8 letter e-acute
prints, with signed `char`, as twelve escape bytes between the quotes. -/
theorem C5_high_bytes_as_coded :
    (∀ cs : Bool, (((List.range 128).filter (fun b => 31 < b ∧ b ≠ 34 ∧ b ≠ 92)).all
        (fun b => string_text cs [b] == [34, b, 34])) = true) ∧
    (((List.range 256).filter (fun b => 128 ≤ b)).all
        (fun b => string_text false [b] == [34, b, 34])) = true ∧
    (((List.range 256).filter (fun b => 128 ≤ b)).all
        (fun b => string_text true [b] == [34, 92, 117, 102, 102, 102, 0, 34])) = true ∧
    ngx_json_unformated_print true [] (.mk [] NGX_JSON_STRING [] 0 ⟨false, 0, 0⟩ [195, 169]) =
      .returned NGX_OK (some [34, 92, 117, 102, 102, 102, 0, 92, 117, 102, 102, 102, 0, 34]) := by
  decide

/-- C6. The round trip through the string formatter as the code has it: the empty string
is emitted as two quotes, and a string of printable ASCII bytes with a quote and a
backslash comes back from the standard unescape; but the output for the one-byte strings
newline and 0x01 is not a JSON string at all (backslash followed by a raw newline, and
`\u000` followed by NUL), so the unescape does not give the input back. -/
theorem C6_round_trip_as_coded :
    ∀ cs : Bool,
      string_text cs [] = ascii "\"\"" ∧
      json_unescape (string_text cs (ascii "a\"b\\c/ d")) = some (ascii "a\"b\\c/ d") ∧
      json_unescape (ascii "\"\\n\\u0001\"") = some [10, 1] ∧
      json_unescape (string_text cs [10]) = none ∧
      json_unescape (string_text cs [1]) = none := by
  decide

/-- C7. The number formatter on the double 0.30000000000000004: the 15-digit rendering
is `0.3`, it scans back to the neighbouring double 0.3, `compare_double` accepts the two
as equal, and so `0.3` is what is emitted, although the 17-digit rendering
`0.30000000000000004` would scan back to the value itself. -/
theorem C7_fifteen_digits_kept_for_neighbour :
    sprintf_g 15 d_0_30000000000000004 = ascii "0.3" ∧
    sscanf_lg (ascii "0.3") = some d_0_3 ∧
    d_0_3 ≠ d_0_30000000000000004 ∧
    compare_double d_0_3 d_0_30000000000000004 = true ∧
    sprintf_g 17 d_0_30000000000000004 = ascii "0.30000000000000004" ∧
    sscanf_lg (ascii "0.30000000000000004") = some d_0_30000000000000004 ∧
    (∀ cs fmt : Bool,
      json_print cs [] fmt (.mk [] NGX_JSON_NUMBER [] 0 d_0_30000000000000004 []) =
        .returned NGX_OK (some (ascii "0.3"))) := by
  decide

/-- C8. A node of kind False as `ngx_json_new` builds it (number payload zero) is
serialized, in either mode, as the six characters `false0`: after `false` the switch runs
on into the Number case and the payload is printed too. -/
theorem C8_false_runs_into_number :
    ∀ cs fmt : Bool,
      json_print cs [] fmt (.mk [] NGX_JSON_FALSE [] 0 ⟨false, 0, 0⟩ []) =
        .returned NGX_OK (some (ascii "false0")) := by
  decide

/-- C9. A Number node whose payload is NaN, +Infinity or -Infinity is serialized, in
either mode, as exactly the four characters `null`: both as a whole document, when no
allocation of the pool fails, and at any place inside one, from any state in which no
append fails. -/
theorem C9_nonfinite_number_is_null (cs fmt : Bool) (list : List ngx_json_t) (key : ngx_str_t)
    (vi : Int) (vd : Double) (vs : ngx_str_t) (pool : ngx_pool_t) (st : PState)
    (hd : isnan vd = true ∨ isinf vd = true) (hpool : never_fails pool) (hst : good st) :
    json_print cs pool fmt (.mk list NGX_JSON_NUMBER key vi vd vs) =
      .returned NGX_OK (some (ascii "null")) ∧
    (json_print_type_value cs fmt (.mk list NGX_JSON_NUMBER key vi vd vs) st).1 = NGX_OK ∧
    (json_print_type_value cs fmt (.mk list NGX_JSON_NUMBER key vi vd vs) st).2.depth
      = st.depth ∧
    (json_print_type_value cs fmt (.mk list NGX_JSON_NUMBER key vi vd vs) st).2.content =
      st.content ++ ascii "null" := by
  refine ⟨json_print_of_emits (emits_nonfinite 0 cs fmt list key vi vd vs hd) pool hpool, ?_⟩
  have h := emits_nonfinite st.depth cs fmt list key vi vd vs hd st hst rfl
  exact ⟨h.1, h.2.2.1, h.2.2.2⟩

/-- C9, instance: the payloads NaN, +Infinity and -Infinity in pretty mode. -/
theorem C9_nonfinite_number_is_null_witness :
    json_print true [] true (.mk [] NGX_JSON_NUMBER [] 0 d_nan []) =
      .returned NGX_OK (some (ascii "null")) ∧
    json_print true [] true (.mk [] NGX_JSON_NUMBER [] 0 ⟨false, 2047, 0⟩ []) =
      .returned NGX_OK (some (ascii "null")) ∧
    json_print true [] true (.mk [] NGX_JSON_NUMBER [] 0 ⟨true, 2047, 0⟩ []) =
      .returned NGX_OK (some (ascii "null")) :=
  ⟨(C9_nonfinite_number_is_null true true [] [] 0 d_nan [] [] (PState.blank 0)
      (by decide) (by decide) (good_blank 0)).1,
   (C9_nonfinite_number_is_null true true [] [] 0 ⟨false, 2047, 0⟩ [] [] (PState.blank 0)
      (by decide) (by decide) (good_blank 0)).1,
   (C9_nonfinite_number_is_null true true [] [] 0 ⟨true, 2047, 0⟩ [] [] (PState.blank 0)
      (by decide) (by decide) (good_blank 0)).1⟩

/-- C10. When no allocation of the pool fails, an Object without children is serialized
as the two characters of an empty pair of braces in compact mode and as opening brace,
newline, closing brace (three characters, no tab) in pretty mode, and an Array without
children as an empty pair of brackets in both modes. -/
theorem C10_empty_containers (cs : Bool) (key : ngx_str_t) (vi : Int) (vd : Double)
    (vs : ngx_str_t) (pool : ngx_pool_t) (hpool : never_fails pool) :
    ngx_json_unformated_print cs pool (.mk [] NGX_JSON_OBJECT key vi vd vs) =
      .returned NGX_OK (some (ascii "\x7b\x7d")) ∧
    ngx_json_print cs pool (.mk [] NGX_JSON_OBJECT key vi vd vs) =
      .returned NGX_OK (some (ascii "\x7b\n\x7d")) ∧
    ngx_json_unformated_print cs pool (.mk [] NGX_JSON_ARRAY key vi vd vs) =
      .returned NGX_OK (some (ascii "[]")) ∧
    ngx_json_print cs pool (.mk [] NGX_JSON_ARRAY key vi vd vs) =
      .returned NGX_OK (some (ascii "[]")) := by
  have ho : ∀ fmt, Emits 0 0 (json_print_type_value cs fmt (.mk [] NGX_JSON_OBJECT key vi vd vs))
      (object_text fmt 1 (fun c => string_text cs c.key) (value_text cs fmt 1) []) := by
    intro fmt
    rw [value_object_eq]
    exact emits_object 0 cs fmt [] rfl
  have ha : ∀ fmt, Emits 0 0 (json_print_type_value cs fmt (.mk [] NGX_JSON_ARRAY key vi vd vs))
      (array_text fmt (value_text cs fmt 1) []) := by
    intro fmt
    rw [value_array_eq]
    exact emits_array 0 cs fmt [] rfl
  exact ⟨json_print_of_emits (ho false) pool hpool, json_print_of_emits (ho true) pool hpool,
    json_print_of_emits (ha false) pool hpool, json_print_of_emits (ha true) pool hpool⟩

/-- C10, instance: the empty containers of a pool whose first requests are granted. -/
theorem C10_empty_containers_witness :
    ngx_json_print false [true, true] (.mk [] NGX_JSON_OBJECT [] 0 ⟨false, 0, 0⟩ []) =
      .returned NGX_OK (some [123, 10, 125]) ∧
    ngx_json_print false [true, true] (.mk [] NGX_JSON_ARRAY [] 0 ⟨false, 0, 0⟩ []) =
      .returned NGX_OK (some [91, 93]) :=
  ⟨(C10_empty_containers false [] 0 ⟨false, 0, 0⟩ [] [true, true] (by decide)).2.1,
   (C10_empty_containers false [] 0 ⟨false, 0, 0⟩ [] [true, true] (by decide)).2.2.2⟩

/-- C11, the behaviour the claim misses: the compact rendering of the array of the
numbers 1, 2, 3 is the seven bytes `[1,2,3]`; it has two commas between elements and no
whitespace byte. -/
theorem C11_counterexample :
    Mem.ngx_json_unformated_print false [] scenario_array_memory 5 1 =
      .done (.returned NGX_OK (some (ascii "[1,2,3]"))) ∧
    (ascii "[1,2,3]").count 44 = 2 ∧ (ascii "[1,2,3]").filter is_ws = [] := by
  decide

/-- C11, amended. The compact rendering holds no whitespace at all. Whatever the nodes in
memory, when the keys and string payloads of the nodes reached from `item` hold no space,
tab, newline or carriage return and no request of the pool fails, a string that
`ngx_json_unformated_print` stores holds no space, tab, newline or carriage return: the
space after a comma of an array is appended in the indented rendering only. And the call
does return `NGX_OK` with the compact serialization, given enough fuel, for every node
with its queue whose tags are kinds and whose queue holds no Array and no Object. -/
theorem C11_compact_has_no_whitespace :
    (∀ (cs : Bool) (pool : ngx_pool_t) (mem : memory) (fuel item : Nat) (rc : Int)
        (out : ngx_str_t),
        never_fails pool → free_from is_ws mem item →
        Mem.ngx_json_unformated_print cs pool mem fuel item = .done (.returned rc (some out)) →
        ∀ b ∈ out, is_ws b = false) ∧
    (∀ (cs : Bool) (pool : ngx_pool_t) (mem : memory) (fuel item : Nat) (node : ngx_json_s)
        (members : List Nat),
        never_fails pool → mem.load item = some node →
        flat_queue mem item node members = true →
        (queue_value mem node members).printable = true → members.length + 1 < fuel →
        Mem.ngx_json_unformated_print cs pool mem fuel item =
          .done (.returned NGX_OK (some (value_text cs false 0 (queue_value mem node members))))) := by
  constructor
  · intro cs pool mem fuel item rc out hpool hfree h
    rw [Mem.ngx_json_unformated_print, json_print_steps cs false pool mem fuel item hpool,
      print_of_steps] at h
    have hf := compact_free is_ws rfl is_ws_lt rfl rfl rfl cs mem fuel item 0 hfree
    split at h
    · cases h
      exact hf
    all_goals cases h
  · intro cs pool mem fuel item node members hpool hl hq hp hf
    rw [Mem.ngx_json_unformated_print, json_print_queue_value cs false pool mem fuel item node
      members hl hq hf, json_print_value cs false pool _ hpool, if_pos hp]

/-- C11, instance: the object of the scenario, compact. -/
theorem C11_compact_has_no_whitespace_witness :
    Mem.ngx_json_unformated_print false [] scenario_object_memory 4 1 =
      .done (.returned NGX_OK (some (ascii "\x7b\"a\":1,\"b\":\"x\\\"y\"\x7d"))) ∧
    ∀ b ∈ ascii "\x7b\"a\":1,\"b\":\"x\\\"y\"\x7d", is_ws b = false :=
  ⟨by decide,
    C11_compact_has_no_whitespace.1 false [] scenario_object_memory 4 1 NGX_OK _ (by decide)
      (free_from_of_free is_ws scenario_object_memory 1 (by decide)) (by decide)⟩

/-- C12. The attach operations append at the tail. For every Array in memory whose queue
holds the nodes `members`, and every node `item` that is neither the Array nor one of
them, `ngx_json_add_item_to_array` returns `NGX_OK` and leaves the queue of the Array
holding `members`, in order, followed by `item`; no field of any node other than the
links has changed. For every Object, key and node `value`, `ngx_json_add_item_to_object`
returns `NGX_OK` and leaves the queue of the Object holding `members`, in order, followed
by `value`, which carries the key, whatever the keys of the members are; no other field of
`value`, and no field other than the links of any other node, has changed. Adding the key
`a` a second time to the object of the scenario leaves the members with the keys `a`,
`b`, `a`. -/
theorem C12_attach_appends_at_tail :
    (∀ (pool : ngx_pool_t) (mem : memory) (array item : Nat) (an xn : ngx_json_s)
        (members : List Nat),
        mem.load array = some an → an.type = NGX_JSON_ARRAY →
        is_queue mem array members = true →
        mem.load item = some xn → item ≠ array → item ∉ members →
        ∃ mem1, Mem.ngx_json_add_item_to_array pool mem array item = .returned NGX_OK mem1 ∧
          is_queue mem1 array (members ++ [item]) = true ∧
          ∀ p, (mem1.load p).map ngx_json_s.fields = (mem.load p).map ngx_json_s.fields) ∧
    (∀ (pool : ngx_pool_t) (mem : memory) (obj value : Nat) (objn vn : ngx_json_s)
        (key : ngx_str_t) (members : List Nat),
        mem.load obj = some objn → objn.type = NGX_JSON_OBJECT →
        is_queue mem obj members = true →
        mem.load value = some vn → value ≠ obj → value ∉ members →
        ∃ mem1, Mem.ngx_json_add_item_to_object pool mem obj (some key) value =
            .returned NGX_OK mem1 ∧
          is_queue mem1 obj (members ++ [value]) = true ∧
          (mem1.load value).map ngx_json_s.fields = some ({ vn with key := key }).fields ∧
          ∀ p, p ≠ value →
            (mem1.load p).map ngx_json_s.fields = (mem.load p).map ngx_json_s.fields) ∧
    (is_queue scenario_object_memory 1 [2, 3] = true ∧
      is_queue ((Mem.ngx_json_add_number_to_object [] scenario_object_memory 1
        (some (ascii "a")) ⟨false, 1024, 0⟩).1.memory []) 1 [2, 3, 4] = true ∧
      ([2, 3, 4].map fun p =>
        (((Mem.ngx_json_add_number_to_object [] scenario_object_memory 1
          (some (ascii "a")) ⟨false, 1024, 0⟩).1.memory []).load p).map ngx_json_s.key) =
        [some (ascii "a"), some (ascii "b"), some (ascii "a")]) := by
  refine ⟨?_, ?_, by decide⟩
  · intro pool mem array item an xn members ha hat hq hx hne hnm
    obtain ⟨mem1, h1, h2, h3⟩ := add_item_queue pool mem array item an xn members ha hx hne hq hnm
    exact ⟨mem1, by simp [Mem.ngx_json_add_item_to_array, ha, hat, h1], h2, h3⟩
  · intro pool mem obj value objn vn key members ho hot hq hv hne hnm
    exact add_item_to_object_queue pool mem obj value objn vn key members ho hot hv hne hq hnm

/-- C12, instance: the number 3 added to the array that holds 1 and 2. -/
theorem C12_attach_appends_at_tail_witness :
    ∃ mem1, Mem.ngx_json_add_item_to_array []
        (Mem.ngx_json_new_number []
          (array_of_numbers [⟨false, 1023, 0⟩, ⟨false, 1024, 0⟩]) ⟨false, 1024, 2 ^ 51⟩).2.2
        1 4 = .returned NGX_OK mem1 ∧
      is_queue mem1 1 ([2, 3] ++ [4]) = true ∧
      ∀ p, (mem1.load p).map ngx_json_s.fields =
        ((Mem.ngx_json_new_number []
          (array_of_numbers [⟨false, 1023, 0⟩, ⟨false, 1024, 0⟩])
            ⟨false, 1024, 2 ^ 51⟩).2.2.load p).map ngx_json_s.fields :=
  C12_attach_appends_at_tail.1 []
    (Mem.ngx_json_new_number []
      (array_of_numbers [⟨false, 1023, 0⟩, ⟨false, 1024, 0⟩]) ⟨false, 1024, 2 ^ 51⟩).2.2
    1 4 ⟨⟨3, 2⟩, NGX_JSON_ARRAY, [], 0, ⟨false, 0, 0⟩, []⟩
    ⟨⟨0, 0⟩, NGX_JSON_NUMBER, [], 3, ⟨false, 1024, 2 ^ 51⟩, []⟩ [2, 3]
    (by decide) (by decide) (by decide) (by decide) (by decide) (by decide)

/-- C13. Attach calls with a null argument are silent no-ops: on an Array,
`ngx_json_add_item_to_array` with a null item, and on an Object,
`ngx_json_add_item_to_object` with a null key or a null value, return `NGX_OK` and leave
the container as it was, and the value, when there is one, as it was (its key included). -/
theorem C13_null_attach_is_noop :
    (∀ (pool : ngx_pool_t) (l : List ngx_json_t) (k : ngx_str_t) (i : Int) (d : Double)
        (s : ngx_str_t),
        ngx_json_add_item_to_array pool (some (.mk l NGX_JSON_ARRAY k i d s)) none =
          .returned NGX_OK (some (.mk l NGX_JSON_ARRAY k i d s)) none) ∧
    (∀ (pool : ngx_pool_t) (l : List ngx_json_t) (k : ngx_str_t) (i : Int) (d : Double)
        (s : ngx_str_t) (value : Option ngx_json_t),
        ngx_json_add_item_to_object pool (some (.mk l NGX_JSON_OBJECT k i d s)) none value =
          .returned NGX_OK (some (.mk l NGX_JSON_OBJECT k i d s)) value) ∧
    (∀ (pool : ngx_pool_t) (l : List ngx_json_t) (k : ngx_str_t) (i : Int) (d : Double)
        (s : ngx_str_t) (key : Option ngx_str_t),
        ngx_json_add_item_to_object pool (some (.mk l NGX_JSON_OBJECT k i d s)) key none =
          .returned NGX_OK (some (.mk l NGX_JSON_OBJECT k i d s)) none) := by
  refine ⟨?_, ?_, ?_⟩
  · intro pool l k i d s
    simp [ngx_json_add_item_to_array, ngx_json_add_item, ngx_json_t.type]
  · intro pool l k i d s value
    simp [ngx_json_add_item_to_object, ngx_json_t.type]
  · intro pool l k i d s key
    cases key <;> simp [ngx_json_add_item_to_object, ngx_json_t.type]

/-- C14, counterexample to the claim: the allocation of the number node fails (the pool
refuses the request, the constructor returns no node), and the status
`ngx_json_add_number_to_object` returns is `NGX_OK`, not a failure; likewise for
`ngx_json_add_string_to_object`. With a pool that grants the request the member is added. -/
theorem C14_counterexample :
    (ngx_json_new_number [false] ⟨false, 1023, 0⟩).1.isNone = true ∧
    (ngx_json_add_number_to_object [false]
      (some (.mk [] NGX_JSON_OBJECT [] 0 ⟨false, 0, 0⟩ [])) (some (ascii "a"))
      ⟨false, 1023, 0⟩).1.rc = some NGX_OK ∧
    (ngx_json_add_string_to_object [false]
      (some (.mk [] NGX_JSON_OBJECT [] 0 ⟨false, 0, 0⟩ [])) (some (ascii "a"))
      (ascii "x")).1.rc = some NGX_OK ∧
    ((ngx_json_add_number_to_object [false]
      (some (.mk [] NGX_JSON_OBJECT [] 0 ⟨false, 0, 0⟩ [])) (some (ascii "a"))
      ⟨false, 1023, 0⟩).1.children.map List.length = some 0) ∧
    ((ngx_json_add_number_to_object [true]
      (some (.mk [] NGX_JSON_OBJECT [] 0 ⟨false, 0, 0⟩ [])) (some (ascii "a"))
      ⟨false, 1023, 0⟩).1.children.map List.length = some 1) := by
  decide

/-- C14, as the code has it. When the allocation of the node inside
`ngx_json_add_number_to_object` or `ngx_json_add_string_to_object` fails, the
constructor returns no node, the attach call takes the null value for a no-op, and the
operation returns `NGX_OK` with the Object unchanged: the failure is not reported. -/
theorem C14_failed_node_allocation_returns_ok (pool : ngx_pool_t) (l : List ngx_json_t)
    (k : ngx_str_t) (i : Int) (d : Double) (s : ngx_str_t) (key : Option ngx_str_t)
    (n : Double) (text : ngx_str_t) (h : (ngx_palloc pool 72).1 = false) :
    (ngx_json_new_number pool n).1 = none ∧
    (ngx_json_new_string pool text).1 = none ∧
    (ngx_json_add_number_to_object pool (some (.mk l NGX_JSON_OBJECT k i d s)) key n).1 =
      .returned NGX_OK (some (.mk l NGX_JSON_OBJECT k i d s)) none ∧
    (ngx_json_add_string_to_object pool (some (.mk l NGX_JSON_OBJECT k i d s)) key text).1 =
      .returned NGX_OK (some (.mk l NGX_JSON_OBJECT k i d s)) none := by
  have hn : ngx_json_new pool NGX_JSON_NUMBER = (none, (ngx_palloc pool 72).2) := by
    simp [ngx_json_new, ngx_pcalloc, h]
  have hs : ngx_json_new pool NGX_JSON_STRING = (none, (ngx_palloc pool 72).2) := by
    simp [ngx_json_new, ngx_pcalloc, h]
  refine ⟨by simp [ngx_json_new_number, hn], by simp [ngx_json_new_string, hs], ?_, ?_⟩
  · cases key <;>
      simp [ngx_json_add_number_to_object, ngx_json_new_number, hn, ngx_json_add_item_to_object,
        ngx_json_t.type]
  · cases key <;>
      simp [ngx_json_add_string_to_object, ngx_json_new_string, hs, ngx_json_add_item_to_object,
        ngx_json_t.type]

/-- C14, instance: with a pool whose next request is refused, adding the number 1 under
the key `a` to an empty Object returns `NGX_OK`. -/
theorem C14_failed_node_allocation_returns_ok_witness :
    (ngx_json_add_number_to_object [false] (some (.mk [] NGX_JSON_OBJECT [] 0 ⟨false, 0, 0⟩ []))
      (some (ascii "a")) ⟨false, 1023, 0⟩).1 =
      .returned NGX_OK (some (.mk [] NGX_JSON_OBJECT [] 0 ⟨false, 0, 0⟩ [])) none :=
  (C14_failed_node_allocation_returns_ok [false] [] [] 0 ⟨false, 0, 0⟩ [] (some (ascii "a"))
    ⟨false, 1023, 0⟩ [] (by decide)).2.2.1

/-- C15. Buffer appends are fallible (the pool may refuse the request of a growing
buffer). Whatever the nodes in memory and the fuel, `json_print_type_value` does exactly
what its sequence of steps does, taken one after the other with every status tested. If
the steps up to some append succeed and that append fails, the call returns `NGX_ERROR` in
the state the failing append left: the buffer is as the earlier steps left it, the pool
has lost the refused request only, and none of the remaining steps is taken. The steps of
a call on an Array or an Object are the steps of its loop between its own, and the steps
of a loop start with the steps of the call on the node at hand (after the appends for its
key, in an Object), so the same holds for every enclosing call; and `json_print` returns
`NGX_ERROR`, storing nothing, whenever the call it makes returns another status than
`NGX_OK`. -/
theorem C15_append_failure_stops :
    (∀ (cs fmt : Bool) (mem : memory) (fuel item : Nat) (st : PState),
      Mem.json_print_type_value cs fmt mem fuel item st =
        run_steps (value_steps cs fmt mem fuel st.depth item) st) ∧
    (∀ (cs fmt : Bool) (mem : memory) (fuel item : Nat) (st st1 : PState)
      (done rest : List Step) (s : List Nat),
      value_steps cs fmt mem fuel st.depth item = done ++ .app s :: rest →
      run_steps done st = .done (NGX_OK, st1) →
      (ngx_buf_append_string s st1).1 ≠ NGX_OK →
      Mem.json_print_type_value cs fmt mem fuel item st =
        .done (NGX_ERROR, (ngx_buf_append_string s st1).2) ∧
      (ngx_buf_append_string s st1).2.buf = st1.buf ∧
      st1.pool = false :: (ngx_buf_append_string s st1).2.pool) ∧
    (∀ (cs fmt : Bool) (mem : memory) (fuel : Nat) (d : Int) (item : Nat) (node : ngx_json_s),
      mem.load item = some node →
      (node.type = NGX_JSON_ARRAY →
        value_steps cs fmt mem (fuel + 1) d item =
          [.enter, .app [91]] ++
            (array_steps cs fmt mem fuel (d + 1) item node.list.next ++ [.app [93], .leave])) ∧
      (node.type = NGX_JSON_OBJECT →
        ∃ a b, value_steps cs fmt mem (fuel + 1) d item =
          a ++ (object_steps cs fmt mem fuel (d + 1) item node.list.next ++ b))) ∧
    (∀ (cs fmt : Bool) (mem : memory) (fuel : Nat) (d : Int) (sentinel q : Nat)
      (node : ngx_json_s), mem.load q = some node → q ≠ sentinel →
      (∃ b, array_steps cs fmt mem (fuel + 1) d sentinel q =
        value_steps cs fmt mem fuel d q ++ b) ∧
      (∃ a b, object_steps cs fmt mem (fuel + 1) d sentinel q =
        a ++ (value_steps cs fmt mem fuel d q ++ b))) ∧
    (∀ (cs fmt : Bool) (pool pool1 : ngx_pool_t) (buf : ngx_buf_t) (mem : memory)
      (fuel item : Nat) (r : Int × PState),
      ngx_create_temp_buf pool 256 = (some buf, pool1) →
      Mem.json_print_type_value cs fmt mem fuel item
        { pool := pool1, buf := buf, depth := 0 } = .done r →
      r.1 ≠ NGX_OK →
      Mem.json_print cs pool fmt mem fuel item = .done (.returned NGX_ERROR none)) := by
  refine ⟨value_eq_steps, ?_, ?_, ?_, ?_⟩
  · intro cs fmt mem fuel item st st1 done rest s he h1 h2
    refine ⟨?_, (append_string_failed s _ h2).1, (append_string_failed s _ h2).2.2⟩
    rw [value_eq_steps, he]
    exact run_steps_stops done rest s st st1 h1 h2
  · intro cs fmt mem fuel d item node hl
    exact ⟨fun ht => value_steps_array cs fmt fuel d hl ht,
      fun ht => ⟨[.enter, .app [123]] ++ (if fmt then [.app [10]] else []),
        (if fmt then tab_steps d.toNat else []) ++ [.app [125], .leave],
        by rw [value_steps_object cs fmt fuel d hl ht, List.append_assoc]⟩⟩
  · intro cs fmt mem fuel d sentinel q node hl hne
    constructor
    · exact ⟨(if node.list.next ≠ sentinel then
          [.app [44]] ++ (if fmt then [.app [32]] else []) else []) ++
        array_steps cs fmt mem fuel d sentinel node.list.next,
        by simp only [array_steps, hne, ↓reduceIte, hl]⟩
    · refine ⟨(if fmt then tab_steps d.toNat else []) ++ (string_steps cs node.key ++
        ([.app [58]] ++ (if fmt then [.app [9]] else []))),
        (if node.list.next ≠ sentinel then [.app [44]] else []) ++
          ((if fmt then [.app [10]] else []) ++
            object_steps cs fmt mem fuel d sentinel node.list.next), ?_⟩
      simp only [object_steps, hne, ↓reduceIte, hl, List.append_assoc]
  · intro cs fmt pool pool1 buf mem fuel item r hc hr hne
    simp only [Mem.json_print, hc, hr]
    rw [if_pos hne]

/-- C15, instances. The array `[1,2,3]` printed compact into a 2-byte buffer with a pool
that refuses the first request: the bracket and the digit 1 fit; the comma needs a larger
buffer, the request is refused, and the call returns `NGX_ERROR` with the two bytes
written so far, the depth counter still at 1. And an array added to an array, printed
into a 2-byte buffer with the same pool: the call on the outer array, the call on the
inner one and the call on the outer one that this makes each write a bracket until the
third append is refused, and all three calls return `NGX_ERROR`. -/
theorem C15_append_failure_stops_witness :
    Mem.json_print_type_value false false scenario_array_memory 5 1
        { pool := [false], buf := { pos := 0, end_ := 2, mem := [] }, depth := 0 } =
      .done (NGX_ERROR,
        { pool := [], buf := { pos := 0, end_ := 2, mem := [91, 49] }, depth := 1 }) ∧
    Mem.json_print_type_value false false nested_arrays 9 1
        { pool := [false], buf := { pos := 0, end_ := 2, mem := [] }, depth := 0 } =
      .done (NGX_ERROR,
        { pool := [], buf := { pos := 0, end_ := 2, mem := [91, 91] }, depth := 3 }) :=
  ⟨(C15_append_failure_stops.2.1 false false scenario_array_memory 5 1
      { pool := [false], buf := { pos := 0, end_ := 2, mem := [] }, depth := 0 }
      { pool := [false], buf := { pos := 0, end_ := 2, mem := [91, 49] }, depth := 1 }
      [.enter, .app [91], .app [49]]
      [.app [50], .app [44], .app [51], .app [93], .leave] [44]
      (by decide) (by decide) (by decide)).1,
    (C15_append_failure_stops.2.1 false false nested_arrays 9 1
      { pool := [false], buf := { pos := 0, end_ := 2, mem := [] }, depth := 0 }
      { pool := [false], buf := { pos := 0, end_ := 2, mem := [91, 91] }, depth := 3 }
      [.enter, .app [91], .enter, .app [91], .enter]
      [.enter, .app [91], .enter, .app [91], .out_of_fuel, .app [93], .leave, .app [93],
        .leave, .app [93], .leave, .app [93], .leave, .app [93], .leave]
      [91] (by decide) (by decide) (by decide)).1⟩

/-- C16. Depth balance. Whatever the nodes in memory (any nesting, any links), the mode
and the fuel, a call of `json_print_type_value` that returns `NGX_OK` leaves the depth
counter equal to its value on entry; hence `json_print`, which starts the counter at 0,
never ends in the failure of `assert(depth == 0)`, whatever the pool grants. And calls do
return `NGX_OK`: given enough fuel, from every state in which no append fails, on every
node with its queue whose tags are kinds and whose queue holds no Array and no Object. -/
theorem C16_depth_balance :
    (∀ (cs fmt : Bool) (mem : memory) (fuel item : Nat) (st : PState) (r : Int × PState),
      Mem.json_print_type_value cs fmt mem fuel item st = .done r → r.1 = NGX_OK →
      r.2.depth = st.depth) ∧
    (∀ (cs : Bool) (pool : ngx_pool_t) (fmt : Bool) (mem : memory) (fuel item : Nat),
      Mem.json_print cs pool fmt mem fuel item ≠ .done .assert_failed) ∧
    (∀ (cs fmt : Bool) (mem : memory) (fuel item : Nat) (node : ngx_json_s)
      (members : List Nat) (st : PState),
      mem.load item = some node → flat_queue mem item node members = true →
      (queue_value mem node members).printable = true → members.length + 1 < fuel →
      good st →
      ∃ st1, Mem.json_print_type_value cs fmt mem fuel item st = .done (NGX_OK, st1) ∧
        st1.depth = st.depth) := by
  refine ⟨?_, ?_, ?_⟩
  · intro cs fmt mem fuel item st r h hok
    simpa using movesM_value cs fmt mem fuel item st r h hok
  · intro cs pool fmt mem fuel item
    simp only [Mem.json_print]
    rcases ngx_create_temp_buf pool 256 with ⟨_ | buf, pool1⟩
    · simp
    · dsimp only
      cases h : Mem.json_print_type_value cs fmt mem fuel item
          { pool := pool1, buf := buf, depth := 0 } with
      | done r =>
        dsimp only
        have hd := movesM_value cs fmt mem fuel item _ r h
        split_ifs with h1 h2 h3
        · simp
        · exact absurd (by simpa using hd (not_not.mp h1)) h2
        · simp
        · simp
      | fault => simp
      | out_of_fuel => simp
  · intro cs fmt mem fuel item node members st hl hq hp hf hg
    rw [print_queue_value cs fmt mem fuel item node members st hl hq hf]
    have hok := succeeds_value cs fmt _ hp st hg
    exact ⟨(json_print_type_value cs fmt (queue_value mem node members) st).2,
      congrArg outcome.done (Prod.ext hok rfl),
      by simpa using moves_value cs fmt _ st hok⟩

/-- C16, instance: the object of the scenario printed in pretty mode from the blank state
with the counter at 0. -/
theorem C16_depth_balance_witness :
    ∃ st1, Mem.json_print_type_value true true scenario_object_memory 4 1 (PState.blank 0) =
        .done (NGX_OK, st1) ∧ st1.depth = 0 :=
  C16_depth_balance.2.2 true true scenario_object_memory 4 1
    ⟨⟨3, 2⟩, NGX_JSON_OBJECT, [], 0, ⟨false, 0, 0⟩, []⟩ [2, 3] (PState.blank 0)
    (by decide) (by decide) (by rfl) (by decide) (good_blank 0)

/-- C17. From every buffer state with `pos` not beyond `last` (in particular with
`start = pos ≤ last ≤ end`) and a pool that grants every request, appending any finite
sequence of chunks with `ngx_buf_append_string` returns `NGX_OK` each time, and the
region `ngx_buf_to_str` exposes afterwards is the region exposed before followed by the
chunks in order; its length has grown by the total number of bytes appended. -/
theorem C17_appends_keep_content (chunks : List (List Nat)) (st : PState)
    (hpool : never_fails st.pool) (hpos : st.buf.pos ≤ st.buf.last) :
    (append_chunks chunks st).1 = List.replicate chunks.length NGX_OK ∧
    (ngx_buf_to_str (append_chunks chunks st).2.buf).2 =
      (ngx_buf_to_str st.buf).2 ++ chunks.flatten ∧
    (ngx_buf_to_str (append_chunks chunks st).2.buf).2.length =
      (ngx_buf_to_str st.buf).2.length + (chunks.map List.length).sum := by
  obtain ⟨a, _, e⟩ := append_chunks_good chunks st ⟨hpool, hpos⟩
  have e1 : (ngx_buf_to_str (append_chunks chunks st).2.buf).2 =
      (ngx_buf_to_str st.buf).2 ++ chunks.flatten := e
  refine ⟨a, e1, ?_⟩
  rw [e1, List.length_append, List.length_flatten]

/-- C17, instance: 300 bytes appended in three chunks to the 4-byte buffer holding `ab`,
which forces two reallocations. -/
theorem C17_appends_keep_content_witness :
    (ngx_buf_to_str (append_chunks [[1, 2, 3], List.replicate 295 7, [8, 9]]
      { pool := [true], buf := { pos := 0, end_ := 4, mem := [97, 98] }, depth := 0 }).2.buf).2 =
      [97, 98] ++ [[1, 2, 3], List.replicate 295 7, [8, 9]].flatten :=
  (C17_appends_keep_content [[1, 2, 3], List.replicate 295 7, [8, 9]]
    { pool := [true], buf := { pos := 0, end_ := 4, mem := [97, 98] }, depth := 0 }
    (by decide) (by decide)).2.1

/-- C18. Growth policy of `ngx_buf_append_string`, for a buffer with `start = pos` and
`last ≤ end` whose sizes stay below `2 ^ 63` and a pool that grants the request: when the
needed bytes fit into `capacity - size` the capacity is unchanged; otherwise the new
capacity is `max (2 * capacity) (size + needed)`; in both cases the call returns
`NGX_OK`, the new size is `size + needed`, and it is at most the capacity. -/
theorem C18_growth_policy (s : List Nat) (st : PState) (hpool : never_fails st.pool)
    (hpos : st.buf.pos = 0) (hle : st.buf.last ≤ st.buf.end_)
    (hcap : ngx_buf_capacity st.buf < 2 ^ 63) (hlen : s.length < 2 ^ 63) :
    (ngx_buf_append_string s st).1 = NGX_OK ∧
    ngx_buf_size (ngx_buf_append_string s st).2.buf = ngx_buf_size st.buf + s.length ∧
    (s.length ≤ ngx_buf_capacity st.buf - ngx_buf_size st.buf →
      ngx_buf_capacity (ngx_buf_append_string s st).2.buf = ngx_buf_capacity st.buf) ∧
    (¬ s.length ≤ ngx_buf_capacity st.buf - ngx_buf_size st.buf →
      ngx_buf_capacity (ngx_buf_append_string s st).2.buf =
        max (2 * ngx_buf_capacity st.buf) (ngx_buf_size st.buf + s.length)) ∧
    ngx_buf_size st.buf + s.length ≤ ngx_buf_capacity (ngx_buf_append_string s st).2.buf := by
  have hal := fun n => never_fails_palloc st.pool n hpool
  simp only [ngx_buf_capacity, ngx_buf_size, ngx_buf_t.last] at *
  unfold ngx_buf_append_string
  simp only [ngx_buf_capacity, ngx_buf_size, ngx_buf_t.last, hpos, Nat.sub_zero]
  have h1 : st.buf.end_ * 2 % 2 ^ 64 = st.buf.end_ * 2 := Nat.mod_eq_of_lt (by omega)
  have h2 : (st.buf.mem.length + s.length) % 2 ^ 64 = st.buf.mem.length + s.length :=
    Nat.mod_eq_of_lt (by omega)
  rw [h1, h2]
  split_ifs with c1 c2 c3 c3
  · simp [(hal _).1] at c3
  · simp only [List.length_append, List.length_take, List.drop_zero, List.length_drop]
    refine ⟨by trivial, by omega, fun h => by omega, fun _ => by omega, by omega⟩
  · simp [(hal _).1] at c3
  · simp only [List.length_append, List.length_take, List.drop_zero, List.length_drop]
    refine ⟨by trivial, by omega, fun h => by omega, fun _ => by omega, by omega⟩
  · simp only [List.length_append]
    refine ⟨by trivial, by omega, fun _ => by trivial, fun h => by omega, by omega⟩

/-- C18, instance: appending 3 bytes to a full 4-byte buffer doubles the capacity to 8,
and appending 10 bytes raises it to the 14 bytes needed. -/
theorem C18_growth_policy_witness :
    ngx_buf_capacity (ngx_buf_append_string [1, 2, 3]
      { pool := [], buf := { pos := 0, end_ := 4, mem := [5, 6, 7, 8] }, depth := 0 }).2.buf = 8 ∧
    ngx_buf_capacity (ngx_buf_append_string (List.replicate 10 1)
      { pool := [], buf := { pos := 0, end_ := 4, mem := [5, 6, 7, 8] }, depth := 0 }).2.buf = 14 :=
  ⟨by simpa using (C18_growth_policy [1, 2, 3]
      { pool := [], buf := { pos := 0, end_ := 4, mem := [5, 6, 7, 8] }, depth := 0 }
      (by decide) rfl (by decide) (by decide) (by decide)).2.2.2.1 (by decide),
   by simpa using (C18_growth_policy (List.replicate 10 1)
      { pool := [], buf := { pos := 0, end_ := 4, mem := [5, 6, 7, 8] }, depth := 0 }
      (by decide) rfl (by decide) (by decide) (by decide)).2.2.2.1 (by decide)⟩

/-- C19. Pretty mode only adds whitespace to compact mode. Whatever the nodes in memory
and the fuel, when the keys and string payloads of the nodes reached from `item` hold no
space, tab or newline byte and no request of the pool fails, the outcome of
`ngx_json_print` with every space, tab and newline byte deleted from the string it stored
is the outcome of `ngx_json_unformated_print`: the same status and, when a string is
stored, the same string; and when one of the two calls does not return, neither does the
other. -/
theorem C19_pretty_strips_to_compact (cs : Bool) (pool : ngx_pool_t) (mem : memory)
    (fuel item : Nat) (hpool : never_fails pool)
    (hfree : free_from is_space_tab_newline mem item) :
    (Mem.ngx_json_print cs pool mem fuel item).map
        (print_result.map_text (strip is_space_tab_newline)) =
      Mem.ngx_json_unformated_print cs pool mem fuel item := by
  rw [Mem.ngx_json_print, Mem.ngx_json_unformated_print,
    json_print_steps cs true pool mem fuel item hpool,
    json_print_steps cs false pool mem fuel item hpool]
  simp only [print_of_steps, halts_value cs mem fuel item 0 0]
  have hs := strip_value is_space_tab_newline rfl is_space_tab_newline_lt rfl rfl rfl cs mem
    fuel item hfree 0 0
  cases (halts (value_steps cs false mem fuel 0 item)).head? with
  | none => simp only [outcome.map, print_result.map_text, hs]
  | some s => cases s <;> rfl

/-- C19, instance: the object of the scenario; the pretty text, the compact text, and the
one from the other. -/
theorem C19_pretty_strips_to_compact_witness :
    Mem.ngx_json_print false [] scenario_object_memory 4 1 =
      .done (.returned NGX_OK (some (ascii "\x7b\n\t\"a\":\t1,\n\t\"b\":\t\"x\\\"y\"\n\x7d"))) ∧
    Mem.ngx_json_unformated_print false [] scenario_object_memory 4 1 =
      .done (.returned NGX_OK (some (ascii "\x7b\"a\":1,\"b\":\"x\\\"y\"\x7d"))) ∧
    (Mem.ngx_json_print false [] scenario_object_memory 4 1).map
        (print_result.map_text (strip is_space_tab_newline)) =
      Mem.ngx_json_unformated_print false [] scenario_object_memory 4 1 :=
  ⟨by decide, by decide,
    C19_pretty_strips_to_compact false [] scenario_object_memory 4 1 (by decide)
      (free_from_of_free is_space_tab_newline scenario_object_memory 1 (by decide))⟩

/-- C20, what the claim misses. With a pool that refuses the first request,
`ngx_create_temp_buf` returns `NULL` and `json_print` returns `NGX_ERROR` on a Null node:
the tag is one of the eight kinds and no append has failed (none was made); with a pool
that grants the request the same call returns `NGX_OK`. And with every tag a kind and
every request granted the call need not return `NGX_OK`: on an Array as `ngx_json_new`
returns it for the tag `NGX_JSON_ARRAY`, whose links are `NULL`, the loop reads through
`NULL`; on an Array that holds an Array the calls nest without end (here the fuel 12 is
used up). -/
theorem C20_counterexample :
    Mem.json_print false [false] false (Mem.ngx_json_new_null [] []).2.2 2 1 =
      .done (.returned NGX_ERROR none) ∧
    ((Mem.ngx_json_new_null [] []).2.2.load 1).map (fun node => is_kind node.type) =
      some true ∧
    Mem.json_print false [] false (Mem.ngx_json_new_null [] []).2.2 2 1 =
      .done (.returned NGX_OK (some (ascii "null"))) ∧
    Mem.json_print false [] false (Mem.ngx_json_new [] [] NGX_JSON_ARRAY).2.2 9 1 = .fault ∧
    Mem.json_print false [] false nested_arrays 12 1 = .out_of_fuel ∧
    nested_arrays.all (fun node => is_kind node.type) = true := by
  decide

/-- C20, amended. When no request of the pool fails (neither for the output buffer nor
for its growth), `json_print` on a node that is no Array and no Object, or on an Array or
Object whose queue holds no Array and no Object, returns `NGX_ERROR`, given enough fuel,
exactly when the node or a node of its queue carries a type tag that is none of the eight
kinds, and it returns `NGX_OK` with the serialization when all of them carry one of the
eight kinds. -/
theorem C20_failure_iff_unknown_tag (cs fmt : Bool) (pool : ngx_pool_t) (mem : memory)
    (fuel item : Nat) (node : ngx_json_s) (members : List Nat) (hpool : never_fails pool)
    (hload : mem.load item = some node) (hflat : flat_queue mem item node members = true)
    (hfuel : members.length + 1 < fuel) :
    (Mem.json_print cs pool fmt mem fuel item = .done (.returned NGX_ERROR none) ↔
      (is_kind node.type = false ∨
        ∃ c ∈ members, ∃ cn, mem.load c = some cn ∧ is_kind cn.type = false)) ∧
    ((is_kind node.type = true ∧
        ∀ c ∈ members, ∀ cn, mem.load c = some cn → is_kind cn.type = true) →
      Mem.json_print cs pool fmt mem fuel item =
        .done (.returned NGX_OK (some (value_text cs fmt 0 (queue_value mem node members))))) := by
  have hp := queue_value_printable mem item node members hflat
  rw [json_print_queue_value cs fmt pool mem fuel item node members hload hflat hfuel,
    json_print_value cs fmt pool _ hpool]
  by_cases h : (queue_value mem node members).printable = true
  · rw [if_pos h]
    refine ⟨?_, fun _ => rfl⟩
    obtain ⟨a, b⟩ := hp.mp h
    constructor
    · intro e
      simp [NGX_OK, NGX_ERROR] at e
    · rintro (e | ⟨c, hc, cn, hl, e⟩)
      · rw [a] at e
        cases e
      · rw [b c hc cn hl] at e
        cases e
  · rw [if_neg h]
    refine ⟨⟨fun _ => ?_, fun _ => rfl⟩, fun hk => absurd (hp.mpr hk) h⟩
    by_contra hne
    push_neg at hne
    exact h (hp.mpr ⟨by simpa using hne.1, fun c hc cn hl => by simpa using hne.2 c hc cn hl⟩)

/-- C20, instance: a node with the tag `NGX_JSON_INVALID`, as `ngx_json_new` returns it,
added to the array of the numbers 1 and 2 makes the top-level call fail. -/
theorem C20_failure_iff_unknown_tag_witness :
    Mem.json_print true [] true
      ((Mem.ngx_json_add_item_to_array []
        (Mem.ngx_json_new [] (array_of_numbers [⟨false, 1023, 0⟩, ⟨false, 1024, 0⟩])
          NGX_JSON_INVALID).2.2 1 4).memory []) 5 1 = .done (.returned NGX_ERROR none) :=
  (C20_failure_iff_unknown_tag true true []
    ((Mem.ngx_json_add_item_to_array []
      (Mem.ngx_json_new [] (array_of_numbers [⟨false, 1023, 0⟩, ⟨false, 1024, 0⟩])
        NGX_JSON_INVALID).2.2 1 4).memory []) 5 1
    ⟨⟨4, 2⟩, NGX_JSON_ARRAY, [], 0, ⟨false, 0, 0⟩, []⟩ [2, 3, 4]
    (by decide) (by decide) (by decide) (by decide)).1.mpr
    (Or.inr ⟨4, by decide, ⟨⟨3, 1⟩, NGX_JSON_INVALID, [], 0, ⟨false, 0, 0⟩, []⟩,
      by decide, by decide⟩)

end NgxJson
